import Mathlib

/-!
Shallow embedding of the walavie namespace engine
(src/contracts/solana/programs/walavie-fs/src/lib.rs).

The five persisted components that make up one namespace instance
(WalrusfsRootPda.obj_id_counter, ChildrenFilesPda.data, ChildrenDirectoriesPda.data,
FileArenaPda.data, DirArenaPda.data) are gathered into one state record
`WalrusfsState`.  Every program instruction of the `walrusfs_anchor` module is
translated into a pure function from the state (plus its instruction arguments
and the clock value read from the host) to a `RawOutcome`: the in-memory state
at the point the instruction returns, the events emitted so far, and the
`Result`.  On-chain, a returned error makes the host discard every account
mutation; that commit boundary is modelled separately by `host_commit`.

Machine integers (`u64`) are modelled as `Nat`: the only arithmetic the engine
performs is incrementing the object-id counter and multiplying the clock by
1000, both far below 2^64 for any feasible transaction history (an overflow
would abort the transaction rather than wrap, since Anchor programs are
compiled with overflow checks).

Rust `Vec` push/pop are end-operations; Lean lists model a `Vec` used as a
stack with the list head as the `Vec` end, which preserves pop order.
`BTreeSet` is modelled as a strictly sorted list with ordered insertion
(`btree_set_insert`), which preserves both the set contents and the sorted
iteration order.
-/

namespace Walavie

/-- Generic key/value pair backing the three `KeyValue...` structs of lib.rs,
whose bodies are identical up to the key and value types. -/
structure KeyValue (κ α : Type) where
  key : κ
  value : α
deriving DecidableEq, Repr

/-- Mirrors `FileObjectAnchor` (lib.rs lines 70-77). -/
structure FileObjectAnchor where
  create_ts : Nat
  tags : List String
  size : Nat
  walrus_blob_id : String
  walrus_epoch_till : Nat
deriving DecidableEq, Repr

/-- Mirrors `KeyValueStringU64` (lib.rs lines 18-22). -/
abbrev KeyValueStringU64 := KeyValue String Nat

/-- Mirrors `DirObjectAnchor` (lib.rs lines 79-85). -/
structure DirObjectAnchor where
  create_ts : Nat
  tags : List String
  children_files : List KeyValueStringU64
  children_directories : List KeyValueStringU64
deriving DecidableEq, Repr

/-- Mirrors `KeyValueU64FileObject` (lib.rs lines 24-28). -/
abbrev KeyValueU64FileObject := KeyValue Nat FileObjectAnchor

/-- Mirrors `KeyValueU64DirObject` (lib.rs lines 30-34). -/
abbrev KeyValueU64DirObject := KeyValue Nat DirObjectAnchor

/-- The state tuple of one namespace instance: `obj_id_counter` from
`WalrusfsRootPda` plus the `data` vectors of the four container PDAs.
(`current_epoch`, `authority` and the bump seeds are not touched by any
namespace operation and are omitted.) -/
structure WalrusfsState where
  obj_id_counter : Nat
  root_children_files : List KeyValueStringU64
  root_children_directories : List KeyValueStringU64
  file_arena : List KeyValueU64FileObject
  dir_arena : List KeyValueU64DirObject
deriving DecidableEq, Repr

/-- Mirrors the `WalrusFsError` enum (lib.rs lines 1293-1317). -/
inductive WalrusFsError where
  | PathError
  | ArenaMismatchError
  | FileAlreadyExists
  | DirectoryAlreadyExists
  | Unauthorized
  | PathNotFound
  | StringTooLong
  | TooManyTags
  | RenamePathMismatch
  | InvalidPathOperationOnRoot
  | BumpError
deriving DecidableEq, Repr

/-- Mirrors the `#[event]` structs (lib.rs lines 1258-1291). -/
inductive WalrusFsEvent where
  | FileAlreadyExistsEvent (path : String) (create_ts : Nat) (tags : List String)
      (size : Nat) (walrus_blob_id : String) (walrus_epoch_till : Nat)
  | FileAddedEvent (path : String) (create_ts : Nat) (tags : List String)
      (size : Nat) (walrus_blob_id : String) (walrus_epoch_till : Nat)
  | DirAlreadyExistsEvent (path : String) (create_ts : Nat) (tags : List String)
  | DirAddedEvent (path : String) (create_ts : Nat) (tags : List String)
  | DeleteEvent (path : String)
deriving DecidableEq, Repr

/-- Mirrors `DirListObjectAnchor` (lib.rs lines 1223-1232). -/
structure DirListObjectAnchor where
  name : String
  create_ts : Nat
  is_dir : Bool
  tags : List String
  size : Nat
  walrus_blob_id : String
  walrus_epoch_till : Nat
deriving DecidableEq, Repr

/-- Mirrors `FileObjectExAnchor` (lib.rs lines 1234-1238). -/
structure FileObjectExAnchor where
  id : Nat
  obj : FileObjectAnchor
deriving DecidableEq, Repr

/-- Mirrors `DirObjectExAnchor` (lib.rs lines 1240-1249). -/
structure DirObjectExAnchor where
  id : Nat
  create_ts : Nat
  tags : List String
  children_file_names : List String
  children_file_ids : List Nat
  children_directory_names : List String
  children_directory_ids : List Nat
deriving DecidableEq, Repr

/-- Mirrors `RecursiveDirListAnchor` (lib.rs lines 1251-1256). -/
structure RecursiveDirListAnchor where
  dirobj : Nat
  files : List FileObjectExAnchor
  dirs : List DirObjectExAnchor
deriving DecidableEq, Repr

/-- The in-memory outcome of running one instruction body: the account state at
the point of return, the events emitted, and the returned `Result`.  (On error
the host later discards the state and events, see `host_commit`.) -/
instance {ε α : Type} [DecidableEq ε] [DecidableEq α] : DecidableEq (Except ε α) := fun a b =>
  match a, b with
  | .ok x, .ok y =>
    if h : x = y then isTrue (by rw [h]) else isFalse (by intro hc; cases hc; exact h rfl)
  | .error x, .error y =>
    if h : x = y then isTrue (by rw [h]) else isFalse (by intro hc; cases hc; exact h rfl)
  | .ok _, .error _ => isFalse (by intro hc; cases hc)
  | .error _, .ok _ => isFalse (by intro hc; cases hc)

structure RawOutcome (α : Type) where
  state : WalrusfsState
  events : List WalrusFsEvent
  result : Except WalrusFsError α
deriving DecidableEq, Repr

/-! Generic association-list helpers.  lib.rs repeats the same
linear-scan code once per key/value pairing (lines 87-213); the common logic is
written once here and specialised below under the source names. -/

/-- First-match lookup: models `vec.iter().find(|kv| kv.key == key)`. -/
def assoc_get {κ α : Type} [DecidableEq κ] : List (KeyValue κ α) → κ → Option α
  | [], _ => none
  | kv :: rest, k => if kv.key = k then some kv.value else assoc_get rest k

/-- Models the insert helpers (lib.rs lines 102-115 and analogues): overwrite
the value at the first position holding the key, else push at the end.
Returns the new vector together with the previous value, if any. -/
def assoc_insert {κ α : Type} [DecidableEq κ] :
    List (KeyValue κ α) → κ → α → List (KeyValue κ α) × Option α
  | [], k, v => ([⟨k, v⟩], none)
  | kv :: rest, k, v =>
    if kv.key = k then (⟨k, v⟩ :: rest, some kv.value)
    else
      let r := assoc_insert rest k v
      (kv :: r.1, r.2)

/-- Models the remove helpers (lib.rs lines 117-123 and analogues): delete the
entry at the first position holding the key.  Returns the new vector together
with the removed value, if any. -/
def assoc_remove {κ α : Type} [DecidableEq κ] :
    List (KeyValue κ α) → κ → List (KeyValue κ α) × Option α
  | [], _ => ([], none)
  | kv :: rest, k =>
    if kv.key = k then (rest, some kv.value)
    else
      let r := assoc_remove rest k
      (kv :: r.1, r.2)

/-- Models `vec.iter().any(|kv| kv.key == key)` (lib.rs lines 125-127). -/
def assoc_contains {κ α : Type} [DecidableEq κ] : List (KeyValue κ α) → κ → Bool
  | [], _ => false
  | kv :: rest, k => if kv.key = k then true else assoc_contains rest k

/-- Models obtaining a mutable reference to the first entry holding the key
(`get_mut_from_dir_arena`, lib.rs lines 177-185) and updating the entry's value
in place; leaves the vector unchanged when the key is absent. -/
def assoc_modify {κ α : Type} [DecidableEq κ] :
    List (KeyValue κ α) → κ → (α → α) → List (KeyValue κ α)
  | [], _, _ => []
  | kv :: rest, k, f =>
    if kv.key = k then ⟨kv.key, f kv.value⟩ :: rest else kv :: assoc_modify rest k f

/-- Mirrors `get_from_vec_str_key` (lib.rs lines 89-91). -/
def get_from_vec_str_key (vec : List KeyValueStringU64) (key : String) : Option Nat :=
  assoc_get vec key

/-- Mirrors `insert_into_vec_str_key` (lib.rs lines 102-115). -/
def insert_into_vec_str_key (vec : List KeyValueStringU64) (key : String) (value : Nat) :
    List KeyValueStringU64 × Option Nat :=
  assoc_insert vec key value

/-- Mirrors `remove_from_vec_str_key` (lib.rs lines 117-123). -/
def remove_from_vec_str_key (vec : List KeyValueStringU64) (key : String) :
    List KeyValueStringU64 × Option Nat :=
  assoc_remove vec key

/-- Mirrors `contains_key_in_vec_str` (lib.rs lines 125-127). -/
def contains_key_in_vec_str (vec : List KeyValueStringU64) (key : String) : Bool :=
  assoc_contains vec key

/-- Mirrors `get_from_file_arena` (lib.rs lines 130-135). -/
def get_from_file_arena (arena : List KeyValueU64FileObject) (id : Nat) :
    Option FileObjectAnchor :=
  assoc_get arena id

/-- Mirrors `insert_into_file_arena` (lib.rs lines 141-156). -/
def insert_into_file_arena (arena : List KeyValueU64FileObject) (id : Nat)
    (file_obj : FileObjectAnchor) : List KeyValueU64FileObject × Option FileObjectAnchor :=
  assoc_insert arena id file_obj

/-- Mirrors `remove_from_file_arena` (lib.rs lines 158-167). -/
def remove_from_file_arena (arena : List KeyValueU64FileObject) (id : Nat) :
    List KeyValueU64FileObject × Option FileObjectAnchor :=
  assoc_remove arena id

/-- Mirrors `get_from_dir_arena` (lib.rs lines 170-175). -/
def get_from_dir_arena (arena : List KeyValueU64DirObject) (id : Nat) :
    Option DirObjectAnchor :=
  assoc_get arena id

/-- Mirrors `insert_into_dir_arena` (lib.rs lines 187-202). -/
def insert_into_dir_arena (arena : List KeyValueU64DirObject) (id : Nat)
    (dir_obj : DirObjectAnchor) : List KeyValueU64DirObject × Option DirObjectAnchor :=
  assoc_insert arena id dir_obj

/-- Mirrors `remove_from_dir_arena` (lib.rs lines 204-213). -/
def remove_from_dir_arena (arena : List KeyValueU64DirObject) (id : Nat) :
    List KeyValueU64DirObject × Option DirObjectAnchor :=
  assoc_remove arena id

/-! Path validation and string utilities (lib.rs lines 878-933).  Rust's
`str` primitives are re-implemented structurally over the character list so
that every definition evaluates by kernel reduction; `path.len()` is the UTF-8
byte count, matching Rust. -/

def MAX_STRING_LEN : Nat := 64

def MAX_TAGS : Nat := 5

/-- Models `path.starts_with('/')`. -/
def starts_with_slash (path : String) : Bool :=
  match path.data with
  | [] => false
  | c :: _ => c = '/'

/-- Models `path.ends_with('/')`. -/
def ends_with_slash (path : String) : Bool :=
  match path.data.getLast? with
  | some c => c = '/'
  | none => false

/-- Models `path.contains("//")`. -/
def contains_double_slash : List Char → Bool
  | c1 :: c2 :: rest =>
    if c1 = '/' ∧ c2 = '/' then true else contains_double_slash (c2 :: rest)
  | _ => false

/-- Mirrors `validate_path` (lib.rs lines 879-891). -/
def validate_path (path : String) : Except WalrusFsError Unit :=
  if path.utf8ByteSize = 0 ∨ path.utf8ByteSize > MAX_STRING_LEN * 5 then
    .error .PathError
  else if ¬ starts_with_slash path ∧ ¬ path.utf8ByteSize = 0 then
    .error .PathError
  else if contains_double_slash path.data then
    .error .PathError
  else
    .ok ()

/-- Mirrors `validate_string_len` (lib.rs lines 903-914); the field name is
only interpolated into a log message in the source. -/
def validate_string_len (s : String) (_field_name : String) : Except WalrusFsError Unit :=
  if s.utf8ByteSize > MAX_STRING_LEN then .error .StringTooLong else .ok ()

/-- Mirrors `validate_tags` (lib.rs lines 893-901). -/
def validate_tags (tags : List String) : Except WalrusFsError Unit :=
  if tags.length > MAX_TAGS then
    .error .TooManyTags
  else
    validate_tags_loop tags
where
  /-- The `for tag in tags` loop body of `validate_tags`. -/
  validate_tags_loop : List String → Except WalrusFsError Unit
    | [] => .ok ()
    | tag :: rest =>
      match validate_string_len tag "tag" with
      | .error e => .error e
      | .ok _ => validate_tags_loop rest

/-- Mirrors `remove_trailing_slash` (lib.rs lines 916-922); the trailing
character is always the one-byte '/', so dropping the last character equals
the byte slice `path[..path.len()-1]`. -/
def remove_trailing_slash (path : String) : String :=
  if path ≠ "/" ∧ ends_with_slash path then String.mk path.data.dropLast else path

/-- Mirrors `ensure_trailing_slash` (lib.rs lines 924-933). -/
def ensure_trailing_slash (path : String) : String :=
  if path = "/" then "/"
  else if ¬ ends_with_slash path then path ++ "/"
  else path

/-- Models `str::split('/')` on the character list: splits at every '/',
keeping empty pieces, exactly like Rust's `split` with a char pattern. -/
def split_on_slash : List Char → List (List Char)
  | [] => [[]]
  | c :: rest =>
    if c = '/' then [] :: split_on_slash rest
    else
      match split_on_slash rest with
      | [] => [[c]]
      | piece :: pieces => (c :: piece) :: pieces

/-- Models `path.split('/').filter(|s| !s.is_empty()).collect::<Vec<_>>()`. -/
def split_path_components (path : String) : List String :=
  ((split_on_slash path.data).map (fun l => String.mk l)).filter (fun s => s ≠ "")

/-- Models `path.trim_matches('/')`: strips every leading and trailing '/'. -/
def trim_matching_slashes (path : String) : String :=
  String.mk (((path.data.dropWhile (fun c => c = '/')).reverse.dropWhile
    (fun c => c = '/')).reverse)

/-! Path resolution (lib.rs lines 760-838). -/

/-- The component-walking `for` loop shared by
`internal_resolve_parent_id_and_name` (lib.rs lines 783-792) and
`internal_get_dir_children_refs` (lib.rs lines 818-828): follow each component
name through the current `children_directories` index into the directory
arena, tracking the id of the directory most recently entered. -/
def internal_resolve_walk (dir_arena_data : List KeyValueU64DirObject) :
    List String → Option Nat → List KeyValueStringU64 → Except WalrusFsError (Option Nat)
  | [], current_parent_id, _ => .ok current_parent_id
  | component :: rest, _, current_children_dirs_vec =>
    match get_from_vec_str_key current_children_dirs_vec component with
    | none => .error .PathNotFound
    | some found_id =>
      match get_from_dir_arena dir_arena_data found_id with
      | none => .error .ArenaMismatchError
      | some dir_object =>
        internal_resolve_walk dir_arena_data rest (some found_id) dir_object.children_directories

/-- Mirrors `internal_resolve_parent_id_and_name` (lib.rs lines 760-794). -/
def internal_resolve_parent_id_and_name (full_path : String)
    (root_children_dirs_data : List KeyValueStringU64)
    (dir_arena_data : List KeyValueU64DirObject) :
    Except WalrusFsError (Option Nat × String) :=
  let path := remove_trailing_slash full_path
  if path = "/" then .error .InvalidPathOperationOnRoot
  else
    let components := split_path_components path
    match components.getLast? with
    | none => .error .PathError
    | some name =>
      match internal_resolve_walk dir_arena_data components.dropLast none root_children_dirs_data with
      | .error e => .error e
      | .ok current_parent_id => .ok (current_parent_id, name)

/-- Mirrors `internal_get_dir_children_refs` (lib.rs lines 796-838). -/
def internal_get_dir_children_refs (path_with_trailing_slash : String)
    (root_children_files_data : List KeyValueStringU64)
    (root_children_dirs_data : List KeyValueStringU64)
    (dir_arena_data : List KeyValueU64DirObject) :
    Except WalrusFsError (List KeyValueStringU64 × List KeyValueStringU64) :=
  if path_with_trailing_slash = "/" then
    .ok (root_children_files_data, root_children_dirs_data)
  else
    let components := split_path_components (trim_matching_slashes path_with_trailing_slash)
    match internal_resolve_walk dir_arena_data components none root_children_dirs_data with
    | .error e => .error e
    | .ok none => .error .PathNotFound
    | .ok (some target_dir_id) =>
      match get_from_dir_arena dir_arena_data target_dir_id with
      | none => .error .ArenaMismatchError
      | some target_dir_obj =>
        .ok (target_dir_obj.children_files, target_dir_obj.children_directories)

/-! The `match parent_dir_id ...` blocks that pick the owning name index
(root PDA vector or a `DirObjectAnchor` field inside the directory arena),
repeated in every operation of lib.rs, written once as fetch/write pairs. -/

/-- Read the `children_files` index owned by the given parent (root index when
`none`); `ArenaMismatchError` when the parent directory record is missing. -/
def fetch_children_files (s : WalrusfsState) (parent_dir_id : Option Nat) :
    Except WalrusFsError (List KeyValueStringU64) :=
  match parent_dir_id with
  | some id =>
    match get_from_dir_arena s.dir_arena id with
    | none => .error .ArenaMismatchError
    | some parent_dir => .ok parent_dir.children_files
  | none => .ok s.root_children_files

/-- Read the `children_directories` index owned by the given parent. -/
def fetch_children_dirs (s : WalrusfsState) (parent_dir_id : Option Nat) :
    Except WalrusFsError (List KeyValueStringU64) :=
  match parent_dir_id with
  | some id =>
    match get_from_dir_arena s.dir_arena id with
    | none => .error .ArenaMismatchError
    | some parent_dir => .ok parent_dir.children_directories
  | none => .ok s.root_children_directories

/-- Read both child indexes of the given parent with a single arena lookup,
as `stat` (lib.rs lines 464-473) does. -/
def fetch_children_both (s : WalrusfsState) (parent_dir_id : Option Nat) :
    Except WalrusFsError (List KeyValueStringU64 × List KeyValueStringU64) :=
  match parent_dir_id with
  | some id =>
    match get_from_dir_arena s.dir_arena id with
    | none => .error .ArenaMismatchError
    | some parent_dir => .ok (parent_dir.children_files, parent_dir.children_directories)
  | none => .ok (s.root_children_files, s.root_children_directories)

/-- Write back a `children_files` index through the mutable reference the
source obtained: into the root PDA vector, or in place into the first arena
entry of the parent directory. -/
def write_children_files (s : WalrusfsState) (parent_dir_id : Option Nat)
    (idx : List KeyValueStringU64) : WalrusfsState :=
  match parent_dir_id with
  | some id =>
    { s with dir_arena := assoc_modify s.dir_arena id (fun d => { d with children_files := idx }) }
  | none => { s with root_children_files := idx }

/-- Write back a `children_directories` index, as `write_children_files`. -/
def write_children_dirs (s : WalrusfsState) (parent_dir_id : Option Nat)
    (idx : List KeyValueStringU64) : WalrusfsState :=
  match parent_dir_id with
  | some id =>
    { s with dir_arena :=
        assoc_modify s.dir_arena id (fun d => { d with children_directories := idx }) }
  | none => { s with root_children_directories := idx }

/-! The recursive subtree walk (lib.rs lines 840-877). -/

/-- Sorted-set insertion modelling `BTreeSet::insert` on a strictly sorted
list. -/
def btree_set_insert (s : List Nat) (x : Nat) : List Nat :=
  match s with
  | [] => [x]
  | y :: rest =>
    if x < y then x :: y :: rest
    else if x = y then y :: rest
    else y :: btree_set_insert rest x

/-- The `for kv_pair in dir_object.children_files` loop of the walk
(lib.rs lines 859-861). -/
def walk_children_files_fold (children : List KeyValueStringU64) (file_ids : List Nat) :
    List Nat :=
  children.foldl (fun acc kv => btree_set_insert acc kv.value) file_ids

/-- The `for kv_pair in dir_object.children_directories` loop of the walk
(lib.rs lines 863-874): the pair carries (dir_ids_recursive, dirs_to_process). -/
def walk_children_dirs_fold (dir_id : Nat) (visited : List Nat)
    (children : List KeyValueStringU64) (acc : List Nat × List Nat) : List Nat × List Nat :=
  children.foldl
    (fun p kv =>
      (if kv.value ≠ dir_id then btree_set_insert p.1 kv.value else p.1,
       if kv.value ∉ visited then kv.value :: p.2 else p.2))
    acc

theorem btree_set_insert_mem {s : List Nat} {x a : Nat} :
    a ∈ btree_set_insert s x ↔ a = x ∨ a ∈ s := by
  induction s with
  | nil => simp [btree_set_insert]
  | cons y rest ih =>
    by_cases h1 : x < y
    · simp [btree_set_insert, h1]
    · by_cases h2 : x = y
      · subst h2
        have hrw : btree_set_insert (x :: rest) x = x :: rest := by
          simp [btree_set_insert, h1]
        rw [hrw, List.mem_cons]
        tauto
      · simp only [btree_set_insert, if_neg h1, if_neg h2, List.mem_cons, ih]
        tauto

theorem assoc_get_some_key_mem {κ α : Type} [DecidableEq κ]
    {v : List (KeyValue κ α)} {k : κ} {a : α} (h : assoc_get v k = some a) :
    k ∈ v.map (fun kv => kv.key) := by
  induction v with
  | nil => simp [assoc_get] at h
  | cons kv rest ih =>
    by_cases hk : kv.key = k
    · simp [hk]
    · simp only [assoc_get, if_neg hk] at h
      simp [ih h]

/-- Number of directory-arena keys not yet visited: the termination measure of
the walk, decreasing whenever a new arena key enters the visited set. -/
def unvisited_count (dir_arena_data : List KeyValueU64DirObject) (visited : List Nat) : Nat :=
  ((dir_arena_data.map (fun kv => kv.key)).filter (fun k => decide (k ∉ visited))).length

theorem filter_length_le {l : List Nat} {p q : Nat → Bool}
    (hpq : ∀ x, p x = true → q x = true) :
    (l.filter p).length ≤ (l.filter q).length := by
  induction l with
  | nil => simp
  | cons a rest ih =>
    cases hpa : p a with
    | true =>
      simp only [List.filter_cons, hpa, hpq a hpa, if_true, List.length_cons]
      omega
    | false =>
      cases hqa : q a with
      | true =>
        simp only [List.filter_cons, hpa, hqa, if_true, if_false, List.length_cons,
          Bool.false_eq_true]
        omega
      | false =>
        simp only [List.filter_cons, hpa, hqa, if_false, Bool.false_eq_true]
        exact ih

theorem filter_length_lt {l : List Nat} {p q : Nat → Bool}
    (hpq : ∀ x, p x = true → q x = true)
    {k : Nat} (hk : k ∈ l) (hq : q k = true) (hp : p k = false) :
    (l.filter p).length < (l.filter q).length := by
  induction l with
  | nil => simp at hk
  | cons a rest ih =>
    rcases List.mem_cons.mp hk with rfl | hk2
    · simp only [List.filter_cons, hp, hq, if_true, if_false, List.length_cons,
        Bool.false_eq_true]
      have := filter_length_le (l := rest) hpq
      omega
    · cases hpa : p a with
      | true =>
        simp only [List.filter_cons, hpa, hpq a hpa, if_true, List.length_cons]
        have := ih hk2
        omega
      | false =>
        cases hqa : q a with
        | true =>
          simp only [List.filter_cons, hpa, hqa, if_true, if_false, List.length_cons,
            Bool.false_eq_true]
          have := ih hk2
          omega
        | false =>
          simp only [List.filter_cons, hpa, hqa, if_false, Bool.false_eq_true]
          exact ih hk2

theorem unvisited_count_lt {dir_arena_data : List KeyValueU64DirObject}
    {visited : List Nat} {k : Nat}
    (hmem : k ∈ dir_arena_data.map (fun kv => kv.key)) (hnv : k ∉ visited) :
    unvisited_count dir_arena_data (btree_set_insert visited k) <
      unvisited_count dir_arena_data visited := by
  apply filter_length_lt (k := k)
  · intro x hx
    simp only [decide_eq_true_eq] at hx ⊢
    intro hmemv
    exact hx (btree_set_insert_mem.mpr (Or.inr hmemv))
  · exact hmem
  · simpa using hnv
  · simp [btree_set_insert_mem]

/-- The worklist loop of `internal_recursive_get_dir_obj_ids`
(lib.rs lines 850-875).  Arguments: the worklist stack (head = `Vec` end),
the visited set, and the two accumulated result sets.  Termination does not
rely on the arena being acyclic: every processed id strictly shrinks the set
of unvisited arena keys, and a revisited id strictly shrinks the stack. -/
def internal_recursive_walk (dir_arena_data : List KeyValueU64DirObject) (dir_id : Nat) :
    List Nat → List Nat → List Nat → List Nat → Except WalrusFsError (List Nat × List Nat)
  | [], _, file_ids, dir_ids_recursive => .ok (file_ids, dir_ids_recursive)
  | current_dir_id :: rest, visited_dirs, file_ids, dir_ids_recursive =>
    if hv : current_dir_id ∈ visited_dirs then
      internal_recursive_walk dir_arena_data dir_id rest visited_dirs file_ids dir_ids_recursive
    else
      match hg : get_from_dir_arena dir_arena_data current_dir_id with
      | none => .error .ArenaMismatchError
      | some dir_object =>
        internal_recursive_walk dir_arena_data dir_id
          (walk_children_dirs_fold dir_id (btree_set_insert visited_dirs current_dir_id)
            dir_object.children_directories
            (dir_ids_recursive, rest)).2
          (btree_set_insert visited_dirs current_dir_id)
          (walk_children_files_fold dir_object.children_files file_ids)
          (walk_children_dirs_fold dir_id (btree_set_insert visited_dirs current_dir_id)
            dir_object.children_directories
            (dir_ids_recursive, rest)).1
termination_by stack visited _ _ => (unvisited_count dir_arena_data visited, stack.length)
decreasing_by
  · apply Prod.Lex.right
    simp
  · apply Prod.Lex.left
    exact unvisited_count_lt (assoc_get_some_key_mem hg) hv

/-- Mirrors `internal_recursive_get_dir_obj_ids` (lib.rs lines 840-877). -/
def internal_recursive_get_dir_obj_ids (dir_id : Nat)
    (dir_arena_data : List KeyValueU64DirObject) :
    Except WalrusFsError (List Nat × List Nat) :=
  internal_recursive_walk dir_arena_data dir_id [dir_id] [] [] []

/-! The nine namespace operations (lib.rs lines 256-757).  Each is the body of
the corresponding Anchor instruction with the accounts replaced by the state
record and `Clock::get()` replaced by the `clock_unix_ts` argument. -/

/-- The shared tail of `add_file` (lib.rs lines 313-334): allocate the new id,
insert the new record, bind the leaf name.  `file_arena_data` is the file
arena after the optional overwrite removal. -/
def add_file_finish (s : WalrusfsState) (clock_unix_ts : Nat) (path : String)
    (tags : List String) (size : Nat) (walrus_blob_id : String) (end_epoch : Nat)
    (parent_dir_id : Option Nat) (file_name : String)
    (children_files_map : List KeyValueStringU64)
    (file_arena_data : List KeyValueU64FileObject) : RawOutcome Unit :=
  let new_file_id := s.obj_id_counter + 1
  let now := clock_unix_ts * 1000
  let new_file : FileObjectAnchor := ⟨now, tags, size, walrus_blob_id, end_epoch⟩
  let file_arena2 := (insert_into_file_arena file_arena_data new_file_id new_file).1
  let children2 := (insert_into_vec_str_key children_files_map file_name new_file_id).1
  let s1 := write_children_files
    { s with obj_id_counter := new_file_id, file_arena := file_arena2 } parent_dir_id children2
  ⟨s1, [.FileAddedEvent path now tags size walrus_blob_id end_epoch], .ok ()⟩

/-- Mirrors `add_file` (lib.rs lines 256-337). -/
def add_file (s : WalrusfsState) (clock_unix_ts : Nat) (path : String) (tags : List String)
    (size : Nat) (walrus_blob_id : String) (end_epoch : Nat) (overwrite : Bool) :
    RawOutcome Unit :=
  match validate_path path with
  | .error e => ⟨s, [], .error e⟩
  | .ok _ =>
  match validate_tags tags with
  | .error e => ⟨s, [], .error e⟩
  | .ok _ =>
  match validate_string_len walrus_blob_id "walrus_blob_id" with
  | .error e => ⟨s, [], .error e⟩
  | .ok _ =>
  match internal_resolve_parent_id_and_name path s.root_children_directories s.dir_arena with
  | .error e => ⟨s, [], .error e⟩
  | .ok (parent_dir_id, file_name) =>
  match fetch_children_files s parent_dir_id with
  | .error e => ⟨s, [], .error e⟩
  | .ok children_files_map =>
  match get_from_vec_str_key children_files_map file_name with
  | some existing_file_id =>
    if overwrite = false then
      match get_from_file_arena s.file_arena existing_file_id with
      | none => ⟨s, [], .error .ArenaMismatchError⟩
      | some f =>
        ⟨s,
          [.FileAlreadyExistsEvent path f.create_ts f.tags f.size f.walrus_blob_id
            f.walrus_epoch_till],
          .error .FileAlreadyExists⟩
    else
      add_file_finish s clock_unix_ts path tags size walrus_blob_id end_epoch parent_dir_id
        file_name children_files_map ((remove_from_file_arena s.file_arena existing_file_id).1)
  | none =>
    add_file_finish s clock_unix_ts path tags size walrus_blob_id end_epoch parent_dir_id
      file_name children_files_map s.file_arena

/-- Mirrors `add_dir` (lib.rs lines 339-397): note that the counter increment
and the leaf binding are written before the pre-read `existing` binding is
inspected, so on the `DirectoryAlreadyExists` path the returned in-memory
state already carries both mutations. -/
def add_dir (s : WalrusfsState) (clock_unix_ts : Nat) (path : String) (tags : List String) :
    RawOutcome Unit :=
  let clean_path := remove_trailing_slash path
  match validate_path clean_path with
  | .error e => ⟨s, [], .error e⟩
  | .ok _ =>
  match validate_tags tags with
  | .error e => ⟨s, [], .error e⟩
  | .ok _ =>
  match internal_resolve_parent_id_and_name clean_path s.root_children_directories s.dir_arena with
  | .error e => ⟨s, [], .error e⟩
  | .ok (parent_dir_id, dir_name) =>
  match fetch_children_dirs s parent_dir_id with
  | .error e => ⟨s, [], .error e⟩
  | .ok children_dirs_map =>
  let existing := get_from_vec_str_key children_dirs_map dir_name
  let new_dir_id := s.obj_id_counter + 1
  let children2 := (insert_into_vec_str_key children_dirs_map dir_name new_dir_id).1
  let s1 := write_children_dirs { s with obj_id_counter := new_dir_id } parent_dir_id children2
  match existing with
  | some existing_dir_id =>
    match get_from_dir_arena s1.dir_arena existing_dir_id with
    | none => ⟨s1, [], .error .ArenaMismatchError⟩
    | some d => ⟨s1, [.DirAlreadyExistsEvent path d.create_ts d.tags],
        .error .DirectoryAlreadyExists⟩
  | none =>
    let now := clock_unix_ts * 1000
    let new_dir : DirObjectAnchor := ⟨now, tags, [], []⟩
    let s2 := { s1 with dir_arena := (insert_into_dir_arena s1.dir_arena new_dir_id new_dir).1 }
    ⟨s2, [.DirAddedEvent path now tags], .ok ()⟩

/-- The directory half of the `list_dir` result loop (lib.rs lines 417-430). -/
def list_dir_entries_dirs (dir_arena_data : List KeyValueU64DirObject) :
    List KeyValueStringU64 → Except WalrusFsError (List DirListObjectAnchor)
  | [] => .ok []
  | kv_pair :: rest =>
    match get_from_dir_arena dir_arena_data kv_pair.value with
    | none => .error .ArenaMismatchError
    | some d =>
      match list_dir_entries_dirs dir_arena_data rest with
      | .error e => .error e
      | .ok tail => .ok (⟨kv_pair.key, d.create_ts, true, d.tags, 0, "", 0⟩ :: tail)

/-- The file half of the `list_dir` result loop (lib.rs lines 432-445). -/
def list_dir_entries_files (file_arena_data : List KeyValueU64FileObject) :
    List KeyValueStringU64 → Except WalrusFsError (List DirListObjectAnchor)
  | [] => .ok []
  | kv_pair :: rest =>
    match get_from_file_arena file_arena_data kv_pair.value with
    | none => .error .ArenaMismatchError
    | some f =>
      match list_dir_entries_files file_arena_data rest with
      | .error e => .error e
      | .ok tail =>
        .ok (⟨kv_pair.key, f.create_ts, false, f.tags, f.size, f.walrus_blob_id,
          f.walrus_epoch_till⟩ :: tail)

/-- Mirrors `list_dir` (lib.rs lines 399-447): directories first, then files. -/
def list_dir (s : WalrusfsState) (path : String) : RawOutcome (List DirListObjectAnchor) :=
  let path_with_slash := ensure_trailing_slash path
  match validate_path path_with_slash with
  | .error e => ⟨s, [], .error e⟩
  | .ok _ =>
  match internal_get_dir_children_refs path_with_slash s.root_children_files
      s.root_children_directories s.dir_arena with
  | .error e => ⟨s, [], .error e⟩
  | .ok (target_dir_files_vec, target_dir_dirs_vec) =>
  match list_dir_entries_dirs s.dir_arena target_dir_dirs_vec with
  | .error e => ⟨s, [], .error e⟩
  | .ok dir_results =>
  match list_dir_entries_files s.file_arena target_dir_files_vec with
  | .error e => ⟨s, [], .error e⟩
  | .ok file_results => ⟨s, [], .ok (dir_results ++ file_results)⟩

/-- Mirrors `stat` (lib.rs lines 449-502). -/
def stat (s : WalrusfsState) (path : String) : RawOutcome DirListObjectAnchor :=
  let clean_path := remove_trailing_slash path
  match validate_path clean_path with
  | .error e => ⟨s, [], .error e⟩
  | .ok _ =>
  match internal_resolve_parent_id_and_name clean_path s.root_children_directories s.dir_arena with
  | .error e => ⟨s, [], .error e⟩
  | .ok (parent_dir_id, item_name) =>
  match fetch_children_both s parent_dir_id with
  | .error e => ⟨s, [], .error e⟩
  | .ok (parent_files_vec, parent_dirs_vec) =>
  match get_from_vec_str_key parent_files_vec item_name with
  | some file_id =>
    match get_from_file_arena s.file_arena file_id with
    | none => ⟨s, [], .error .ArenaMismatchError⟩
    | some f =>
      ⟨s, [], .ok ⟨item_name, f.create_ts, false, f.tags, f.size, f.walrus_blob_id,
        f.walrus_epoch_till⟩⟩
  | none =>
    match get_from_vec_str_key parent_dirs_vec item_name with
    | some dir_id =>
      match get_from_dir_arena s.dir_arena dir_id with
      | none => ⟨s, [], .error .ArenaMismatchError⟩
      | some d => ⟨s, [], .ok ⟨item_name, d.create_ts, true, d.tags, 0, "", 0⟩⟩
    | none => ⟨s, [], .error .PathNotFound⟩

/-- Mirrors `rename_file` (lib.rs lines 504-552).  The final `(_, none)` branch
is unreachable: the preceding `contains` check guarantees the removal returns
the bound id (the source unwraps; an unwrap failure would abort the
transaction, which the error return models). -/
def rename_file (s : WalrusfsState) (from_path : String) (to_path : String) : RawOutcome Unit :=
  let clean_from_path := remove_trailing_slash from_path
  let clean_to_path := remove_trailing_slash to_path
  match validate_path clean_from_path with
  | .error e => ⟨s, [], .error e⟩
  | .ok _ =>
  match validate_path clean_to_path with
  | .error e => ⟨s, [], .error e⟩
  | .ok _ =>
  match internal_resolve_parent_id_and_name clean_from_path s.root_children_directories
      s.dir_arena with
  | .error e => ⟨s, [], .error e⟩
  | .ok (from_parent_id, from_name) =>
  match internal_resolve_parent_id_and_name clean_to_path s.root_children_directories
      s.dir_arena with
  | .error e => ⟨s, [], .error e⟩
  | .ok (to_parent_id, to_name) =>
  if from_parent_id ≠ to_parent_id then ⟨s, [], .error .RenamePathMismatch⟩
  else
  match fetch_children_files s from_parent_id with
  | .error e => ⟨s, [], .error e⟩
  | .ok children_files_vec =>
  if contains_key_in_vec_str children_files_vec from_name = false then
    ⟨s, [], .error .PathNotFound⟩
  else if contains_key_in_vec_str children_files_vec to_name = true then
    ⟨s, [], .error .FileAlreadyExists⟩
  else
    match remove_from_vec_str_key children_files_vec from_name with
    | (_, none) => ⟨s, [], .error .PathNotFound⟩
    | (children1, some file_id) =>
      let children2 := (insert_into_vec_str_key children1 to_name file_id).1
      ⟨write_children_files s from_parent_id children2, [], .ok ()⟩

/-- Mirrors `rename_dir` (lib.rs lines 554-600), as `rename_file`. -/
def rename_dir (s : WalrusfsState) (from_path : String) (to_path : String) : RawOutcome Unit :=
  let clean_from_path := remove_trailing_slash from_path
  let clean_to_path := remove_trailing_slash to_path
  match validate_path clean_from_path with
  | .error e => ⟨s, [], .error e⟩
  | .ok _ =>
  match validate_path clean_to_path with
  | .error e => ⟨s, [], .error e⟩
  | .ok _ =>
  match internal_resolve_parent_id_and_name clean_from_path s.root_children_directories
      s.dir_arena with
  | .error e => ⟨s, [], .error e⟩
  | .ok (from_parent_id, from_name) =>
  match internal_resolve_parent_id_and_name clean_to_path s.root_children_directories
      s.dir_arena with
  | .error e => ⟨s, [], .error e⟩
  | .ok (to_parent_id, to_name) =>
  if from_parent_id ≠ to_parent_id then ⟨s, [], .error .RenamePathMismatch⟩
  else
  match fetch_children_dirs s from_parent_id with
  | .error e => ⟨s, [], .error e⟩
  | .ok children_dirs_vec =>
  if contains_key_in_vec_str children_dirs_vec from_name = false then
    ⟨s, [], .error .PathNotFound⟩
  else if contains_key_in_vec_str children_dirs_vec to_name = true then
    ⟨s, [], .error .DirectoryAlreadyExists⟩
  else
    match remove_from_vec_str_key children_dirs_vec from_name with
    | (_, none) => ⟨s, [], .error .PathNotFound⟩
    | (children1, some dir_id) =>
      let children2 := (insert_into_vec_str_key children1 to_name dir_id).1
      ⟨write_children_dirs s from_parent_id children2, [], .ok ()⟩

/-- Mirrors `delete_file` (lib.rs lines 602-633).  The name binding is removed
before the arena record is looked up, so on the `ArenaMismatchError` path the
returned in-memory state already lost the binding. -/
def delete_file (s : WalrusfsState) (path : String) : RawOutcome Unit :=
  let clean_path := remove_trailing_slash path
  match validate_path clean_path with
  | .error e => ⟨s, [], .error e⟩
  | .ok _ =>
  match internal_resolve_parent_id_and_name clean_path s.root_children_directories s.dir_arena with
  | .error e => ⟨s, [], .error e⟩
  | .ok (parent_dir_id, file_name) =>
  match fetch_children_files s parent_dir_id with
  | .error e => ⟨s, [], .error e⟩
  | .ok children_files_vec =>
  match remove_from_vec_str_key children_files_vec file_name with
  | (_, none) => ⟨s, [], .error .PathNotFound⟩
  | (children1, some file_id) =>
    let s1 := write_children_files s parent_dir_id children1
    match remove_from_file_arena s1.file_arena file_id with
    | (_, none) => ⟨s1, [], .error .ArenaMismatchError⟩
    | (file_arena1, some _) => ⟨{ s1 with file_arena := file_arena1 }, [.DeleteEvent path], .ok ()⟩

/-- Mirrors `delete_dir` (lib.rs lines 635-675): unbind the leaf, walk the
subtree from the unbound id, remove every collected file and directory record,
finally remove the target record itself. -/
def delete_dir (s : WalrusfsState) (path : String) : RawOutcome Unit :=
  let clean_path := remove_trailing_slash path
  match validate_path clean_path with
  | .error e => ⟨s, [], .error e⟩
  | .ok _ =>
  match internal_resolve_parent_id_and_name clean_path s.root_children_directories s.dir_arena with
  | .error e => ⟨s, [], .error e⟩
  | .ok (parent_dir_id, dir_name_to_delete) =>
  match fetch_children_dirs s parent_dir_id with
  | .error e => ⟨s, [], .error e⟩
  | .ok children_dirs_vec =>
  match remove_from_vec_str_key children_dirs_vec dir_name_to_delete with
  | (_, none) => ⟨s, [], .error .PathNotFound⟩
  | (children1, some dir_id_to_delete) =>
    let s1 := write_children_dirs s parent_dir_id children1
    match internal_recursive_get_dir_obj_ids dir_id_to_delete s1.dir_arena with
    | .error e => ⟨s1, [], .error e⟩
    | .ok (files_to_delete, dirs_to_delete_recursive) =>
      let file_arena1 :=
        files_to_delete.foldl (fun fa fid => (remove_from_file_arena fa fid).1) s1.file_arena
      let dir_arena1 :=
        dirs_to_delete_recursive.foldl (fun da did => (remove_from_dir_arena da did).1)
          s1.dir_arena
      let dir_arena2 := (remove_from_dir_arena dir_arena1 dir_id_to_delete).1
      ⟨{ s1 with file_arena := file_arena1, dir_arena := dir_arena2 }, [.DeleteEvent path],
        .ok ()⟩

/-- The `if let Some(obj) = get_from_file_arena(...)` collection loop of
`get_dir_all` (lib.rs lines 709-716): missing records are silently skipped. -/
def files_ex_of (file_arena_data : List KeyValueU64FileObject) :
    List Nat → List FileObjectExAnchor
  | [] => []
  | fid :: rest =>
    match get_from_file_arena file_arena_data fid with
    | some obj => ⟨fid, obj⟩ :: files_ex_of file_arena_data rest
    | none => files_ex_of file_arena_data rest

/-- The `if let Some(d_obj) = get_from_dir_arena(...)` collection loop of
`get_dir_all` (lib.rs lines 725-749). -/
def dirs_ex_of (dir_arena_data : List KeyValueU64DirObject) :
    List Nat → List DirObjectExAnchor
  | [] => []
  | did :: rest =>
    match get_from_dir_arena dir_arena_data did with
    | some d_obj =>
      ⟨did, d_obj.create_ts, d_obj.tags,
        d_obj.children_files.map (fun kv => kv.key),
        d_obj.children_files.map (fun kv => kv.value),
        d_obj.children_directories.map (fun kv => kv.key),
        d_obj.children_directories.map (fun kv => kv.value)⟩ :: dirs_ex_of dir_arena_data rest
    | none => dirs_ex_of dir_arena_data rest

/-- Mirrors `get_dir_all` (lib.rs lines 677-756): the target id is located via
its parent's index, then the subtree walk collects every descendant id; the
target id itself is prepended to the directory set before fetching. -/
def get_dir_all (s : WalrusfsState) (path : String) : RawOutcome RecursiveDirListAnchor :=
  let clean_path := remove_trailing_slash path
  match validate_path clean_path with
  | .error e => ⟨s, [], .error e⟩
  | .ok _ =>
  match internal_resolve_parent_id_and_name clean_path s.root_children_directories s.dir_arena with
  | .error e => ⟨s, [], .error e⟩
  | .ok (grandparent_dir_id, target_dir_name_from_parent) =>
  match fetch_children_dirs s grandparent_dir_id with
  | .error e => ⟨s, [], .error e⟩
  | .ok grandparent_children_dirs_vec =>
  match get_from_vec_str_key grandparent_children_dirs_vec target_dir_name_from_parent with
  | none => ⟨s, [], .error .PathNotFound⟩
  | some target_dir_id =>
  match internal_recursive_get_dir_obj_ids target_dir_id s.dir_arena with
  | .error e => ⟨s, [], .error e⟩
  | .ok (file_ids, dir_ids_recursive) =>
    let files_ex := files_ex_of s.file_arena file_ids
    let all_dir_ids_to_fetch :=
      dir_ids_recursive.foldl btree_set_insert (btree_set_insert [] target_dir_id)
    let dirs_ex := dirs_ex_of s.dir_arena all_dir_ids_to_fetch
    ⟨s, [], .ok ⟨target_dir_id, files_ex, dirs_ex⟩⟩

/-! The operation alphabet and the committed (host-level) semantics. -/

/-- One namespace-engine call with its arguments. -/
inductive Op where
  | add_file (clock_unix_ts : Nat) (path : String) (tags : List String) (size : Nat)
      (walrus_blob_id : String) (end_epoch : Nat) (overwrite : Bool)
  | add_dir (clock_unix_ts : Nat) (path : String) (tags : List String)
  | stat (path : String)
  | list_dir (path : String)
  | rename_file (from_path : String) (to_path : String)
  | rename_dir (from_path : String) (to_path : String)
  | delete_file (path : String)
  | delete_dir (path : String)
  | get_dir_all (path : String)
deriving DecidableEq, Repr

/-- Discard the value of a read operation, keeping state/events/error. -/
def RawOutcome.forget {α : Type} (r : RawOutcome α) : RawOutcome Unit :=
  ⟨r.state, r.events, r.result.map (fun _ => ())⟩

/-- Dispatch one operation against a state, returning the raw (uncommitted)
outcome of the instruction body. -/
def apply_raw (s : WalrusfsState) : Op → RawOutcome Unit
  | .add_file ts p tg sz blob ee ow => add_file s ts p tg sz blob ee ow
  | .add_dir ts p tg => add_dir s ts p tg
  | .stat p => (stat s p).forget
  | .list_dir p => (list_dir s p).forget
  | .rename_file f t => rename_file s f t
  | .rename_dir f t => rename_dir s f t
  | .delete_file p => delete_file s p
  | .delete_dir p => delete_dir s p
  | .get_dir_all p => (get_dir_all s p).forget

/-- Modelled from the spec: the external host's atomic commit boundary (§5).
All account mutations performed by one instruction become visible together
when the instruction returns `Ok`, and are discarded entirely when it returns
an error.  The host itself is not part of lib.rs. -/
def host_commit (s : WalrusfsState) (r : RawOutcome Unit) : WalrusfsState :=
  match r.result with
  | .ok _ => r.state
  | .error _ => s

/-- The committed state after one operation. -/
def apply_committed (s : WalrusfsState) (op : Op) : WalrusfsState :=
  host_commit s (apply_raw s op)

/-- The state set up by `initialize_walrusfs` (lib.rs lines 220-244):
counter 0 and four empty containers. -/
def initial_state : WalrusfsState := ⟨0, [], [], [], []⟩

/-- The committed state reached by a call sequence from the initialized
namespace. -/
def exec_ops (ops : List Op) : WalrusfsState := ops.foldl apply_committed initial_state

/-- Whether an operation is a create (the two allocating operations). -/
def op_is_create : Op → Bool
  | .add_file _ _ _ _ _ _ _ => true
  | .add_dir _ _ _ => true
  | _ => false

/-- The ids assigned by committed successful creates along a call sequence, in
call order: each successful `add_file`/`add_dir` assigns the counter value of
its post-state. -/
def run_trace (s : WalrusfsState) : List Op → List Nat
  | [] => []
  | op :: rest =>
    match (apply_raw s op).result with
    | .error _ => run_trace s rest
    | .ok _ =>
      if op_is_create op then
        (apply_raw s op).state.obj_id_counter :: run_trace (apply_raw s op).state rest
      else
        run_trace (apply_raw s op).state rest

/-! Basic lemmas about the association-list primitives. -/

theorem assoc_get_eq_none_iff {κ α : Type} [DecidableEq κ] {v : List (KeyValue κ α)} {k : κ} :
    assoc_get v k = none ↔ k ∉ v.map (fun kv => kv.key) := by
  induction v with
  | nil => simp [assoc_get]
  | cons kv rest ih =>
    by_cases hk : kv.key = k
    · simp [assoc_get, hk]
    · simp only [assoc_get, if_neg hk, List.map_cons, List.mem_cons, ih]
      constructor
      · intro h hc
        rcases hc with hc | hc
        · exact hk hc.symm
        · exact h hc
      · intro h hc
        exact h (Or.inr hc)

theorem assoc_contains_iff {κ α : Type} [DecidableEq κ] {v : List (KeyValue κ α)} {k : κ} :
    assoc_contains v k = true ↔ k ∈ v.map (fun kv => kv.key) := by
  induction v with
  | nil => simp [assoc_contains]
  | cons kv rest ih =>
    by_cases hk : kv.key = k
    · simp [assoc_contains, hk]
    · simp only [assoc_contains, if_neg hk, List.map_cons, List.mem_cons, ih]
      constructor
      · intro h
        exact Or.inr h
      · intro h
        rcases h with h | h
        · exact absurd h.symm hk
        · exact h

theorem assoc_get_eq_some_iff {κ α : Type} [DecidableEq κ] {v : List (KeyValue κ α)} {k : κ}
    {a : α} :
    assoc_get v k = some a ↔
      ∃ l1 l2, v = l1 ++ ⟨k, a⟩ :: l2 ∧ k ∉ l1.map (fun kv => kv.key) := by
  induction v with
  | nil => simp [assoc_get]
  | cons kv rest ih =>
    obtain ⟨kk, vv⟩ := kv
    by_cases hk : kk = k
    · subst hk
      constructor
      · intro h
        have hva : vv = a := by simpa [assoc_get] using h
        subst hva
        exact ⟨[], rest, rfl, by simp⟩
      · rintro ⟨l1, l2, hv, hnot⟩
        cases l1 with
        | nil =>
          simp only [List.nil_append, List.cons.injEq, KeyValue.mk.injEq] at hv
          simp [assoc_get, hv.1.2]
        | cons kv1 l11 =>
          simp only [List.cons_append, List.cons.injEq] at hv
          simp only [List.map_cons, List.mem_cons] at hnot
          push_neg at hnot
          exact absurd (congrArg (fun x => x.key) hv.1) hnot.1
    · simp only [assoc_get, if_neg hk, ih]
      constructor
      · rintro ⟨l1, l2, hv, hnot⟩
        refine ⟨⟨kk, vv⟩ :: l1, l2, by simp [hv], ?_⟩
        simp only [List.map_cons, List.mem_cons]
        intro hc
        rcases hc with hc | hc
        · exact hk hc.symm
        · exact hnot hc
      · rintro ⟨l1, l2, hv, hnot⟩
        cases l1 with
        | nil =>
          simp only [List.nil_append, List.cons.injEq, KeyValue.mk.injEq] at hv
          exact absurd hv.1.1 hk
        | cons kv1 l11 =>
          simp only [List.cons_append, List.cons.injEq] at hv
          simp only [List.map_cons, List.mem_cons] at hnot
          push_neg at hnot
          exact ⟨l11, l2, hv.2, hnot.2⟩

theorem assoc_get_mem {κ α : Type} [DecidableEq κ] {v : List (KeyValue κ α)} {k : κ} {a : α}
    (h : assoc_get v k = some a) : (⟨k, a⟩ : KeyValue κ α) ∈ v := by
  rcases assoc_get_eq_some_iff.mp h with ⟨l1, l2, rfl, -⟩
  simp

theorem assoc_insert_of_not_mem {κ α : Type} [DecidableEq κ] {v : List (KeyValue κ α)} {k : κ}
    {a : α} (h : k ∉ v.map (fun kv => kv.key)) :
    assoc_insert v k a = (v ++ [⟨k, a⟩], none) := by
  induction v with
  | nil => simp [assoc_insert]
  | cons kv rest ih =>
    simp only [List.map_cons, List.mem_cons] at h
    push_neg at h
    simp [assoc_insert, Ne.symm h.1, ih h.2]

theorem assoc_insert_decomp {κ α : Type} [DecidableEq κ] {l1 l2 : List (KeyValue κ α)} {k : κ}
    {a b : α} (h : k ∉ l1.map (fun kv => kv.key)) :
    assoc_insert (l1 ++ ⟨k, b⟩ :: l2) k a = (l1 ++ ⟨k, a⟩ :: l2, some b) := by
  induction l1 with
  | nil => simp [assoc_insert]
  | cons kv rest ih =>
    simp only [List.map_cons, List.mem_cons] at h
    push_neg at h
    simp [assoc_insert, Ne.symm h.1, ih h.2]

theorem assoc_remove_of_not_mem {κ α : Type} [DecidableEq κ] {v : List (KeyValue κ α)} {k : κ}
    (h : k ∉ v.map (fun kv => kv.key)) :
    assoc_remove v k = (v, none) := by
  induction v with
  | nil => simp [assoc_remove]
  | cons kv rest ih =>
    simp only [List.map_cons, List.mem_cons] at h
    push_neg at h
    simp [assoc_remove, Ne.symm h.1, ih h.2]

theorem assoc_remove_decomp {κ α : Type} [DecidableEq κ] {l1 l2 : List (KeyValue κ α)} {k : κ}
    {b : α} (h : k ∉ l1.map (fun kv => kv.key)) :
    assoc_remove (l1 ++ ⟨k, b⟩ :: l2) k = (l1 ++ l2, some b) := by
  induction l1 with
  | nil => simp [assoc_remove]
  | cons kv rest ih =>
    simp only [List.map_cons, List.mem_cons] at h
    push_neg at h
    simp [assoc_remove, Ne.symm h.1, ih h.2]

theorem assoc_modify_of_not_mem {κ α : Type} [DecidableEq κ] {v : List (KeyValue κ α)} {k : κ}
    {f : α → α} (h : k ∉ v.map (fun kv => kv.key)) :
    assoc_modify v k f = v := by
  induction v with
  | nil => simp [assoc_modify]
  | cons kv rest ih =>
    simp only [List.map_cons, List.mem_cons] at h
    push_neg at h
    simp [assoc_modify, Ne.symm h.1, ih h.2]

theorem assoc_modify_decomp {κ α : Type} [DecidableEq κ] {l1 l2 : List (KeyValue κ α)} {k : κ}
    {a : α} {f : α → α} (h : k ∉ l1.map (fun kv => kv.key)) :
    assoc_modify (l1 ++ ⟨k, a⟩ :: l2) k f = l1 ++ ⟨k, f a⟩ :: l2 := by
  induction l1 with
  | nil => simp [assoc_modify]
  | cons kv rest ih =>
    simp only [List.map_cons, List.mem_cons] at h
    push_neg at h
    simp [assoc_modify, Ne.symm h.1, ih h.2]

theorem assoc_insert_snd {κ α : Type} [DecidableEq κ] {v : List (KeyValue κ α)} {k : κ} {a : α} :
    (assoc_insert v k a).2 = assoc_get v k := by
  induction v with
  | nil => simp [assoc_insert, assoc_get]
  | cons kv rest ih =>
    by_cases hk : kv.key = k
    · simp [assoc_insert, assoc_get, hk]
    · simp [assoc_insert, assoc_get, hk, ih]

theorem assoc_remove_snd {κ α : Type} [DecidableEq κ] {v : List (KeyValue κ α)} {k : κ} :
    (assoc_remove v k).2 = assoc_get v k := by
  induction v with
  | nil => simp [assoc_remove, assoc_get]
  | cons kv rest ih =>
    by_cases hk : kv.key = k
    · simp [assoc_remove, assoc_get, hk]
    · simp [assoc_remove, assoc_get, hk, ih]

theorem assoc_contains_eq_isSome {κ α : Type} [DecidableEq κ] {v : List (KeyValue κ α)}
    {k : κ} : assoc_contains v k = (assoc_get v k).isSome := by
  induction v with
  | nil => simp [assoc_contains, assoc_get]
  | cons kv rest ih =>
    by_cases hk : kv.key = k
    · simp [assoc_contains, assoc_get, hk]
    · simp [assoc_contains, assoc_get, hk, ih]

theorem assoc_get_insert_self {κ α : Type} [DecidableEq κ] {v : List (KeyValue κ α)} {k : κ}
    {a : α} : assoc_get (assoc_insert v k a).1 k = some a := by
  induction v with
  | nil => simp [assoc_insert, assoc_get]
  | cons kv rest ih =>
    by_cases hk : kv.key = k
    · simp [assoc_insert, assoc_get, hk]
    · simp [assoc_insert, assoc_get, hk, ih]

theorem assoc_get_insert_ne {κ α : Type} [DecidableEq κ] {v : List (KeyValue κ α)}
    {k k' : κ} {a : α} (h : k' ≠ k) :
    assoc_get (assoc_insert v k a).1 k' = assoc_get v k' := by
  induction v with
  | nil => simp [assoc_insert, assoc_get, Ne.symm h]
  | cons kv rest ih =>
    obtain ⟨kk, vv⟩ := kv
    by_cases hk : kk = k
    · subst hk
      simp [assoc_insert, assoc_get, Ne.symm h]
    · by_cases hk' : kk = k'
      · subst hk'
        simp [assoc_insert, assoc_get, hk]
      · simp [assoc_insert, assoc_get, hk, hk', ih]

theorem assoc_get_remove_ne {κ α : Type} [DecidableEq κ] {v : List (KeyValue κ α)}
    {k k' : κ} (h : k' ≠ k) :
    assoc_get (assoc_remove v k).1 k' = assoc_get v k' := by
  induction v with
  | nil => simp [assoc_remove, assoc_get]
  | cons kv rest ih =>
    obtain ⟨kk, vv⟩ := kv
    by_cases hk : kk = k
    · subst hk
      simp [assoc_remove, assoc_get, Ne.symm h]
    · by_cases hk' : kk = k'
      · subst hk'
        simp [assoc_remove, assoc_get, hk]
      · simp [assoc_remove, assoc_get, hk, hk', ih]

theorem assoc_remove_keys_sublist {κ α : Type} [DecidableEq κ] {v : List (KeyValue κ α)}
    {k : κ} : List.Sublist (assoc_remove v k).1 v := by
  induction v with
  | nil => simp [assoc_remove]
  | cons kv rest ih =>
    by_cases hk : kv.key = k
    · simp only [assoc_remove, if_pos hk]
      exact List.sublist_cons_self kv rest
    · simp only [assoc_remove, if_neg hk]
      exact List.Sublist.cons₂ kv ih

theorem assoc_get_remove_self {κ α : Type} [DecidableEq κ] {v : List (KeyValue κ α)} {k : κ}
    (hnd : (v.map (fun kv => kv.key)).Nodup) :
    assoc_get (assoc_remove v k).1 k = none := by
  induction v with
  | nil => simp [assoc_remove, assoc_get]
  | cons kv rest ih =>
    simp only [List.map_cons, List.nodup_cons] at hnd
    by_cases hk : kv.key = k
    · simp only [assoc_remove, if_pos hk]
      rw [assoc_get_eq_none_iff]
      rw [hk] at hnd
      exact hnd.1
    · simp only [assoc_remove, if_neg hk, assoc_get, if_neg hk]
      exact ih hnd.2

theorem assoc_get_modify {κ α : Type} [DecidableEq κ] {v : List (KeyValue κ α)} {k k' : κ}
    {f : α → α} :
    assoc_get (assoc_modify v k f) k' =
      if k' = k then (assoc_get v k).map f else assoc_get v k' := by
  induction v with
  | nil => by_cases h : k' = k <;> simp [assoc_modify, assoc_get, h]
  | cons kv rest ih =>
    obtain ⟨kk, vv⟩ := kv
    by_cases hk : kk = k
    · subst hk
      by_cases h : k' = kk
      · subst h
        simp [assoc_modify, assoc_get]
      · simp [assoc_modify, assoc_get, h, Ne.symm h]
    · by_cases hk' : kk = k'
      · subst hk'
        simp [assoc_modify, assoc_get, hk]
      · simp [assoc_modify, assoc_get, hk, hk', ih]

theorem assoc_modify_keys {κ α : Type} [DecidableEq κ] {v : List (KeyValue κ α)} {k : κ}
    {f : α → α} :
    (assoc_modify v k f).map (fun kv => kv.key) = v.map (fun kv => kv.key) := by
  induction v with
  | nil => simp [assoc_modify]
  | cons kv rest ih =>
    by_cases hk : kv.key = k
    · simp [assoc_modify, hk]
    · simp [assoc_modify, hk, ih]

theorem assoc_modify_mem {κ α : Type} [DecidableEq κ] {v : List (KeyValue κ α)} {k : κ}
    {f : α → α} {kv : KeyValue κ α} (h : kv ∈ assoc_modify v k f) :
    kv ∈ v ∨ ∃ a, assoc_get v k = some a ∧ kv = ⟨k, f a⟩ := by
  rcases hg : assoc_get v k with _ | a
  · rw [assoc_modify_of_not_mem (assoc_get_eq_none_iff.mp hg)] at h
    exact Or.inl h
  · rcases assoc_get_eq_some_iff.mp hg with ⟨l1, l2, rfl, hnot⟩
    rw [assoc_modify_decomp hnot] at h
    simp only [List.mem_append, List.mem_cons] at h
    rcases h with h | h | h
    · exact Or.inl (by simp [h])
    · exact Or.inr ⟨a, rfl, h⟩
    · exact Or.inl (by simp [h])

/-! Invariant vocabulary: the ids bound by name indexes, the arena key sets,
and the structural invariants of §3 of the design (arena consistency, name
uniqueness, single-parent bindings, increasing ids along directory edges). -/

/-- The ids bound by one name index. -/
def indexIds (v : List KeyValueStringU64) : List Nat := v.map (fun kv => kv.value)

/-- The names bound by one name index. -/
def indexKeys (v : List KeyValueStringU64) : List String := v.map (fun kv => kv.key)

/-- All ids bound inside one directory record (file children then directory
children). -/
def dirBindings (d : DirObjectAnchor) : List Nat :=
  indexIds d.children_files ++ indexIds d.children_directories

/-- Every name index of the state, as a list of id segments: the two root
indexes followed by one segment per directory-arena entry. -/
def bindingSegments (s : WalrusfsState) : List (List Nat) :=
  indexIds s.root_children_files :: indexIds s.root_children_directories ::
    s.dir_arena.map (fun kv => dirBindings kv.value)

/-- Every id bound by any name index of the state. -/
def bindingIds (s : WalrusfsState) : List Nat := (bindingSegments s).flatten

/-- The file-arena key set. -/
def fileKeys (s : WalrusfsState) : List Nat := s.file_arena.map (fun kv => kv.key)

/-- The directory-arena key set. -/
def dirKeys (s : WalrusfsState) : List Nat := s.dir_arena.map (fun kv => kv.key)

/-- The ids bound as files: by the root file index or by any directory
record's `children_files`. -/
def FileIdsBound (s : WalrusfsState) : List Nat :=
  indexIds s.root_children_files ++
    (s.dir_arena.map (fun kv => indexIds kv.value.children_files)).flatten

/-- The ids bound as directories: by the root directory index or by any
directory record's `children_directories`. -/
def DirIdsBound (s : WalrusfsState) : List Nat :=
  indexIds s.root_children_directories ++
    (s.dir_arena.map (fun kv => indexIds kv.value.children_directories)).flatten

/-- Arena consistency (spec §3 invariant 1): every id bound as a file resolves
in the file arena and every id bound as a directory resolves in the directory
arena. -/
def ArenaConsistent (s : WalrusfsState) : Prop :=
  (∀ i ∈ FileIdsBound s, (get_from_file_arena s.file_arena i).isSome = true) ∧
  (∀ i ∈ DirIdsBound s, (get_from_dir_arena s.dir_arena i).isSome = true)

/-- The tree-shape package (spec §3 invariants 2 and 3): arena keys are
duplicate-free, names are unique per index, every id has at most one binding
across all name indexes of the state (single parent, shared across the file
and directory categories), and ids strictly increase along directory edges
(children were created after their parent), which rules out cycles. -/
def TreeShape (s : WalrusfsState) : Prop :=
  (fileKeys s).Nodup ∧
  (dirKeys s).Nodup ∧
  (indexKeys s.root_children_files).Nodup ∧
  (indexKeys s.root_children_directories).Nodup ∧
  (∀ kv ∈ s.dir_arena,
    (indexKeys kv.value.children_files).Nodup ∧
    (indexKeys kv.value.children_directories).Nodup) ∧
  (bindingIds s).Nodup ∧
  (∀ kv ∈ s.dir_arena, ∀ e ∈ indexIds kv.value.children_directories, kv.key < e)

/-- The allocation counter dominates every id present anywhere in the state
(spec §3 invariant 4 and §4.1), so `counter + 1` is always fresh. -/
def CounterDom (s : WalrusfsState) : Prop :=
  (∀ i ∈ bindingIds s, i ≤ s.obj_id_counter) ∧
  (∀ i ∈ fileKeys s, i ≤ s.obj_id_counter) ∧
  (∀ i ∈ dirKeys s, i ≤ s.obj_id_counter)

/-- The full inductive invariant of the namespace engine. -/
def Inv (s : WalrusfsState) : Prop := TreeShape s ∧ CounterDom s ∧ ArenaConsistent s

/-- C1: for every operation of the namespace engine and every starting state,
if the operation returns an error then the committed state tuple (root
children-files index, root children-directories index, file arena, directory
arena, obj_id_counter) is unchanged from immediately before the call.  The
commit boundary discarding the failed call's raw mutations is the host's
(`host_commit`, modelled from spec §5). -/
theorem failed_op_leaves_state_unchanged (s : WalrusfsState) (op : Op) (e : WalrusFsError)
    (h : (apply_raw s op).result = .error e) :
    apply_committed s op = s ∧
    (apply_committed s op).root_children_files = s.root_children_files ∧
    (apply_committed s op).root_children_directories = s.root_children_directories ∧
    (apply_committed s op).file_arena = s.file_arena ∧
    (apply_committed s op).dir_arena = s.dir_arena ∧
    (apply_committed s op).obj_id_counter = s.obj_id_counter := by
  have hs : apply_committed s op = s := by
    unfold apply_committed host_commit
    rw [h]
  exact ⟨hs, by rw [hs], by rw [hs], by rw [hs], by rw [hs], by rw [hs]⟩

/-- Witness for C1 at a concrete input: `stat "/x"` on the freshly initialized
namespace fails with `PathNotFound` and commits no change. -/
theorem failed_op_leaves_state_unchanged_witness :
    (apply_raw initial_state (Op.stat "/x")).result = .error .PathNotFound ∧
    apply_committed initial_state (Op.stat "/x") = initial_state :=
  ⟨by decide,
    (failed_op_leaves_state_unchanged initial_state (Op.stat "/x") .PathNotFound
      (by decide)).1⟩

/-! Small facts about the fetch/write pairs, used when computing the raw
post-states of the operations. -/

theorem write_children_dirs_counter (s : WalrusfsState) (pid : Option Nat)
    (idx : List KeyValueStringU64) :
    (write_children_dirs s pid idx).obj_id_counter = s.obj_id_counter := by
  cases pid <;> rfl

theorem write_children_files_counter (s : WalrusfsState) (pid : Option Nat)
    (idx : List KeyValueStringU64) :
    (write_children_files s pid idx).obj_id_counter = s.obj_id_counter := by
  cases pid <;> rfl

theorem fetch_write_children_dirs (s : WalrusfsState) (pid : Option Nat)
    (idx idx0 : List KeyValueStringU64) (hf : fetch_children_dirs s pid = Except.ok idx0) :
    fetch_children_dirs (write_children_dirs s pid idx) pid = Except.ok idx := by
  cases pid with
  | none => simp [fetch_children_dirs, write_children_dirs]
  | some p =>
    simp only [fetch_children_dirs, write_children_dirs] at hf ⊢
    rcases hg : get_from_dir_arena s.dir_arena p with _ | d
    · rw [hg] at hf
      exact absurd hf (by simp)
    · simp only [get_from_dir_arena] at hg ⊢
      rw [assoc_get_modify, if_pos rfl, hg]
      rfl

theorem fetch_write_children_files (s : WalrusfsState) (pid : Option Nat)
    (idx idx0 : List KeyValueStringU64) (hf : fetch_children_files s pid = Except.ok idx0) :
    fetch_children_files (write_children_files s pid idx) pid = Except.ok idx := by
  cases pid with
  | none => simp [fetch_children_files, write_children_files]
  | some p =>
    simp only [fetch_children_files, write_children_files] at hf ⊢
    rcases hg : get_from_dir_arena s.dir_arena p with _ | d
    · rw [hg] at hf
      exact absurd hf (by simp)
    · simp only [get_from_dir_arena] at hg ⊢
      rw [assoc_get_modify, if_pos rfl, hg]
      rfl

/-- C3: `add_dir`, after resolving the parent, first reads any existing
binding for the leaf name, then allocates a new id and unconditionally writes
the leaf-to-new-id binding (visible in the raw state of both outcome
branches, together with the counter increment), and only afterward checks the
previously read binding: if one existed it fails with
`DirectoryAlreadyExists` reporting the prior directory's metadata, otherwise
it succeeds and a fresh `DirObjectAnchor` with empty child indexes is
inserted under the new id. -/
theorem add_dir_unconditional_write (s : WalrusfsState) (clock_unix_ts : Nat)
    (path : String) (tags : List String) (pid : Option Nat) (dir_name : String)
    (idx : List KeyValueStringU64)
    (hv1 : validate_path (remove_trailing_slash path) = Except.ok ())
    (hv2 : validate_tags tags = Except.ok ())
    (hr : internal_resolve_parent_id_and_name (remove_trailing_slash path)
      s.root_children_directories s.dir_arena = Except.ok (pid, dir_name))
    (hf : fetch_children_dirs s pid = Except.ok idx)
    (hpid : pid ≠ some (s.obj_id_counter + 1)) :
    (add_dir s clock_unix_ts path tags).state.obj_id_counter = s.obj_id_counter + 1 ∧
    (∃ idx2, fetch_children_dirs (add_dir s clock_unix_ts path tags).state pid = Except.ok idx2 ∧
      get_from_vec_str_key idx2 dir_name = some (s.obj_id_counter + 1)) ∧
    (∀ X d, get_from_vec_str_key idx dir_name = some X →
      get_from_dir_arena s.dir_arena X = some d →
      (add_dir s clock_unix_ts path tags).result =
        Except.error WalrusFsError.DirectoryAlreadyExists ∧
      (add_dir s clock_unix_ts path tags).events =
        [WalrusFsEvent.DirAlreadyExistsEvent path d.create_ts d.tags]) ∧
    (get_from_vec_str_key idx dir_name = none →
      (add_dir s clock_unix_ts path tags).result = Except.ok () ∧
      get_from_dir_arena (add_dir s clock_unix_ts path tags).state.dir_arena
        (s.obj_id_counter + 1) = some ⟨clock_unix_ts * 1000, tags, [], []⟩) := by
  have hf1 : fetch_children_dirs { s with obj_id_counter := s.obj_id_counter + 1 } pid =
      Except.ok idx := hf
  have hbind : get_from_vec_str_key
      (insert_into_vec_str_key idx dir_name (s.obj_id_counter + 1)).1 dir_name =
      some (s.obj_id_counter + 1) := assoc_get_insert_self
  simp only [add_dir, hv1, hv2, hr, hf]
  rcases hx : get_from_vec_str_key idx dir_name with _ | X
  · -- no prior binding: the success branch
    dsimp only
    refine ⟨?_, ?_, ?_, ?_⟩
    · exact write_children_dirs_counter _ pid _
    · refine ⟨(insert_into_vec_str_key idx dir_name (s.obj_id_counter + 1)).1, ?_, hbind⟩
      have hbase :=
        fetch_write_children_dirs { s with obj_id_counter := s.obj_id_counter + 1 } pid
          (insert_into_vec_str_key idx dir_name (s.obj_id_counter + 1)).1 idx hf1
      cases pid with
      | none => exact hbase
      | some p =>
        have hp : p ≠ s.obj_id_counter + 1 := fun hc => hpid (by rw [hc])
        simp only [fetch_children_dirs] at hbase ⊢
        rcases hg : get_from_dir_arena
            (write_children_dirs { s with obj_id_counter := s.obj_id_counter + 1 } (some p)
              (insert_into_vec_str_key idx dir_name (s.obj_id_counter + 1)).1).dir_arena p
          with _ | d
        · rw [hg] at hbase
          exact absurd hbase (by simp)
        · rw [hg] at hbase
          simp only [get_from_dir_arena, insert_into_dir_arena] at hg ⊢
          rw [assoc_get_insert_ne hp, hg]
          exact hbase
    · intro X d hX
      exact absurd hX (by simp)
    · intro _
      refine ⟨rfl, ?_⟩
      simp only [get_from_dir_arena, insert_into_dir_arena]
      exact assoc_get_insert_self
  · -- a prior binding exists: the failure branch, reached after the write
    dsimp only
    rcases hg : get_from_dir_arena
        (write_children_dirs { s with obj_id_counter := s.obj_id_counter + 1 } pid
          (insert_into_vec_str_key idx dir_name (s.obj_id_counter + 1)).1).dir_arena X
      with _ | d1
    · -- the prior id has no record even in the written state
      dsimp only
      refine ⟨?_, ?_, ?_, ?_⟩
      · exact write_children_dirs_counter _ pid _
      · exact ⟨(insert_into_vec_str_key idx dir_name (s.obj_id_counter + 1)).1,
          fetch_write_children_dirs _ pid _ idx hf1, hbind⟩
      · intro X' d hX' hd
        have hXX : X = X' := Option.some.inj hX'
        subst hXX
        exfalso
        cases pid with
        | none =>
          simp only [write_children_dirs] at hg
          rw [hg] at hd
          exact Option.noConfusion hd
        | some p =>
          simp only [write_children_dirs, get_from_dir_arena] at hg hd
          rw [assoc_get_modify] at hg
          by_cases hXp : X = p
          · rw [if_pos hXp] at hg
            rw [hXp] at hd
            rw [hd] at hg
            exact Option.noConfusion hg
          · rw [if_neg hXp] at hg
            rw [hd] at hg
            exact Option.noConfusion hg
      · intro hnone
        exact absurd hnone (by simp)
    · -- the prior record was found: DirectoryAlreadyExists with its metadata
      dsimp only
      refine ⟨?_, ?_, ?_, ?_⟩
      · exact write_children_dirs_counter _ pid _
      · exact ⟨(insert_into_vec_str_key idx dir_name (s.obj_id_counter + 1)).1,
          fetch_write_children_dirs _ pid _ idx hf1, hbind⟩
      · intro X' d hX' hd
        have hXX : X = X' := Option.some.inj hX'
        subst hXX
        have hmeta : d1.create_ts = d.create_ts ∧ d1.tags = d.tags := by
          cases pid with
          | none =>
            simp only [write_children_dirs] at hg
            rw [hg] at hd
            injection hd with hdd
            rw [hdd]
            exact ⟨rfl, rfl⟩
          | some p =>
            simp only [write_children_dirs, get_from_dir_arena] at hg hd
            rw [assoc_get_modify] at hg
            by_cases hXp : X = p
            · rw [if_pos hXp] at hg
              rw [hXp] at hd
              rw [hd] at hg
              injection hg with hgg
              rw [← hgg]
              exact ⟨rfl, rfl⟩
            · rw [if_neg hXp] at hg
              rw [hd] at hg
              injection hg with hgg
              rw [← hgg]
              exact ⟨rfl, rfl⟩
        exact ⟨rfl, by rw [hmeta.1, hmeta.2]⟩
      · intro hnone
        exact absurd hnone (by simp)

/-- Concrete state for the C3 witness: one directory named "a" with id 1
under the root. -/
def c3_state : WalrusfsState :=
  ⟨1, [], [⟨"a", 1⟩], [], [⟨1, ⟨0, [], [], []⟩⟩]⟩

/-- Witness for C3: calling `add_dir "/a"` on `c3_state` (where "a" already
exists) exercises the theorem at a concrete input. -/
theorem add_dir_unconditional_write_witness :
    (add_dir c3_state 0 "/a" []).state.obj_id_counter = c3_state.obj_id_counter + 1 ∧
    (∃ idx2, fetch_children_dirs (add_dir c3_state 0 "/a" []).state none = Except.ok idx2 ∧
      get_from_vec_str_key idx2 "a" = some (c3_state.obj_id_counter + 1)) ∧
    (∀ X d, get_from_vec_str_key [⟨"a", 1⟩] "a" = some X →
      get_from_dir_arena c3_state.dir_arena X = some d →
      (add_dir c3_state 0 "/a" []).result =
        Except.error WalrusFsError.DirectoryAlreadyExists ∧
      (add_dir c3_state 0 "/a" []).events =
        [WalrusFsEvent.DirAlreadyExistsEvent "/a" d.create_ts d.tags]) ∧
    (get_from_vec_str_key [⟨"a", 1⟩] "a" = none →
      (add_dir c3_state 0 "/a" []).result = Except.ok () ∧
      get_from_dir_arena (add_dir c3_state 0 "/a" []).state.dir_arena
        (c3_state.obj_id_counter + 1) = some ⟨0 * 1000, [], [], []⟩) :=
  add_dir_unconditional_write c3_state 0 "/a" [] none "a" [⟨"a", 1⟩]
    (by decide) (by decide) (by decide) (by decide) (by decide)

/-- C6: for every pair of resolvable from/to paths, `rename_file` and
`rename_dir` fail with `RenamePathMismatch` (leaving the raw state untouched)
whenever the two paths do not resolve to the identical `Option`-valued parent;
no cross-directory move ever succeeds. -/
theorem rename_rejects_cross_parent (s : WalrusfsState) (from_path to_path : String)
    (p1 p2 : Option Nat) (n1 n2 : String)
    (hv1 : validate_path (remove_trailing_slash from_path) = Except.ok ())
    (hv2 : validate_path (remove_trailing_slash to_path) = Except.ok ())
    (hr1 : internal_resolve_parent_id_and_name (remove_trailing_slash from_path)
      s.root_children_directories s.dir_arena = Except.ok (p1, n1))
    (hr2 : internal_resolve_parent_id_and_name (remove_trailing_slash to_path)
      s.root_children_directories s.dir_arena = Except.ok (p2, n2))
    (hne : p1 ≠ p2) :
    rename_file s from_path to_path = ⟨s, [], Except.error WalrusFsError.RenamePathMismatch⟩ ∧
    rename_dir s from_path to_path = ⟨s, [], Except.error WalrusFsError.RenamePathMismatch⟩ := by
  constructor
  · simp only [rename_file, hv1, hv2, hr1, hr2]
    rw [if_pos hne]
  · simp only [rename_dir, hv1, hv2, hr1, hr2]
    rw [if_pos hne]

/-- Concrete state for the C6 witness: directories "b" (id 1) and "a" (id 2)
under the root, one file "f" (id 3) inside "a". -/
def c6_state : WalrusfsState :=
  ⟨3, [], [⟨"b", 1⟩, ⟨"a", 2⟩], [⟨3, ⟨1000, [], 1, "bb", 1⟩⟩],
    [⟨1, ⟨1000, [], [], []⟩⟩, ⟨2, ⟨1000, [], [⟨"f", 3⟩], []⟩⟩]⟩

/-- Witness for C6: renaming "/a/f" to "/b/f" resolves to distinct parents and
is rejected by both rename operations. -/
theorem rename_rejects_cross_parent_witness :
    rename_file c6_state "/a/f" "/b/f" =
      ⟨c6_state, [], Except.error WalrusFsError.RenamePathMismatch⟩ ∧
    rename_dir c6_state "/a/f" "/b/f" =
      ⟨c6_state, [], Except.error WalrusFsError.RenamePathMismatch⟩ :=
  rename_rejects_cross_parent c6_state "/a/f" "/b/f" (some 2) (some 1) "f" "f"
    (by decide) (by decide) (by decide) (by decide) (by decide)

/-- C10: renaming an object to its own current name is rejected, not a no-op.
For each of the two rename operations independently: when the from-path and
the to-path resolve to the same parent and the same leaf name and that name
is bound in the operation-relevant child index (`children_files` for
`rename_file`, `children_directories` for `rename_dir`), the operation fails
— `rename_file` with `FileAlreadyExists`, `rename_dir` with
`DirectoryAlreadyExists` — because the to-name collision check runs while the
from-name binding is still present. -/
theorem rename_to_current_name_rejected :
    (∀ (s : WalrusfsState) (from_path to_path : String) (p : Option Nat) (n : String)
      (idxf : List KeyValueStringU64),
      validate_path (remove_trailing_slash from_path) = Except.ok () →
      validate_path (remove_trailing_slash to_path) = Except.ok () →
      internal_resolve_parent_id_and_name (remove_trailing_slash from_path)
        s.root_children_directories s.dir_arena = Except.ok (p, n) →
      internal_resolve_parent_id_and_name (remove_trailing_slash to_path)
        s.root_children_directories s.dir_arena = Except.ok (p, n) →
      fetch_children_files s p = Except.ok idxf →
      contains_key_in_vec_str idxf n = true →
      rename_file s from_path to_path =
        ⟨s, [], Except.error WalrusFsError.FileAlreadyExists⟩) ∧
    (∀ (s : WalrusfsState) (from_path to_path : String) (p : Option Nat) (n : String)
      (idxd : List KeyValueStringU64),
      validate_path (remove_trailing_slash from_path) = Except.ok () →
      validate_path (remove_trailing_slash to_path) = Except.ok () →
      internal_resolve_parent_id_and_name (remove_trailing_slash from_path)
        s.root_children_directories s.dir_arena = Except.ok (p, n) →
      internal_resolve_parent_id_and_name (remove_trailing_slash to_path)
        s.root_children_directories s.dir_arena = Except.ok (p, n) →
      fetch_children_dirs s p = Except.ok idxd →
      contains_key_in_vec_str idxd n = true →
      rename_dir s from_path to_path =
        ⟨s, [], Except.error WalrusFsError.DirectoryAlreadyExists⟩) := by
  constructor
  · intro s from_path to_path p n idxf hv1 hv2 hr1 hr2 hff hcf
    simp only [rename_file, hv1, hv2, hr1, hr2]
    rw [if_neg (by simp)]
    rw [hff]
    simp [hcf]
  · intro s from_path to_path p n idxd hv1 hv2 hr1 hr2 hfd hcd
    simp only [rename_dir, hv1, hv2, hr1, hr2]
    rw [if_neg (by simp)]
    rw [hfd]
    simp [hcd]

/-- Concrete state for the file half of the C10 witness: a single file named
"dup" under the root, no directory of that name anywhere. -/
def c10_file_state : WalrusfsState :=
  ⟨1, [⟨"dup", 1⟩], [], [⟨1, ⟨0, [], 0, "", 0⟩⟩], []⟩

/-- Concrete state for the directory half of the C10 witness: a single
directory named "dup" under the root, no file of that name anywhere. -/
def c10_dir_state : WalrusfsState :=
  ⟨1, [], [⟨"dup", 1⟩], [], [⟨1, ⟨0, [], [], []⟩⟩]⟩

/-- Witness for C10: renaming the file "/dup" to itself in a file-only
namespace fails with `FileAlreadyExists`, and renaming the directory "/dup"
to itself in a directory-only namespace fails with
`DirectoryAlreadyExists`. -/
theorem rename_to_current_name_rejected_witness :
    rename_file c10_file_state "/dup" "/dup" =
      ⟨c10_file_state, [], Except.error WalrusFsError.FileAlreadyExists⟩ ∧
    rename_dir c10_dir_state "/dup" "/dup" =
      ⟨c10_dir_state, [], Except.error WalrusFsError.DirectoryAlreadyExists⟩ :=
  ⟨rename_to_current_name_rejected.1 c10_file_state "/dup" "/dup" none "dup"
    [⟨"dup", 1⟩] (by decide) (by decide) (by decide) (by decide) (by decide) (by decide),
   rename_to_current_name_rejected.2 c10_dir_state "/dup" "/dup" none "dup"
    [⟨"dup", 1⟩] (by decide) (by decide) (by decide) (by decide) (by decide) (by decide)⟩

theorem write_children_files_file_arena (s : WalrusfsState) (pid : Option Nat)
    (idx : List KeyValueStringU64) :
    (write_children_files s pid idx).file_arena = s.file_arena := by
  cases pid <;> rfl

theorem write_children_dirs_file_arena (s : WalrusfsState) (pid : Option Nat)
    (idx : List KeyValueStringU64) :
    (write_children_dirs s pid idx).file_arena = s.file_arena := by
  cases pid <;> rfl

/-- C4: overwrite semantics of `add_file`.  When the resolved parent's
`children_files` already binds the leaf name to id `X` (with `X`'s record
present and the state satisfying counter dominance and key uniqueness for the
file arena): with `overwrite = false` the call fails with `FileAlreadyExists`
reporting `X`'s metadata and performs no mutation at all (even the raw state
is the input state); with `overwrite = true` it succeeds, removes `X`'s
record from the file arena, allocates the distinct new id `counter + 1`,
inserts the new record under it, and rebinds the leaf name to it. -/
theorem add_file_overwrite_semantics (s : WalrusfsState) (clock_unix_ts : Nat) (path : String)
    (tags : List String) (size : Nat) (walrus_blob_id : String) (end_epoch : Nat)
    (pid : Option Nat) (file_name : String) (idx : List KeyValueStringU64) (X : Nat)
    (fX : FileObjectAnchor)
    (hv1 : validate_path path = Except.ok ())
    (hv2 : validate_tags tags = Except.ok ())
    (hv3 : validate_string_len walrus_blob_id "walrus_blob_id" = Except.ok ())
    (hr : internal_resolve_parent_id_and_name path s.root_children_directories s.dir_arena =
      Except.ok (pid, file_name))
    (hf : fetch_children_files s pid = Except.ok idx)
    (hx : get_from_vec_str_key idx file_name = some X)
    (hfa : get_from_file_arena s.file_arena X = some fX)
    (hXle : X ≤ s.obj_id_counter)
    (hnd : (fileKeys s).Nodup) :
    add_file s clock_unix_ts path tags size walrus_blob_id end_epoch false =
      ⟨s, [WalrusFsEvent.FileAlreadyExistsEvent path fX.create_ts fX.tags fX.size
        fX.walrus_blob_id fX.walrus_epoch_till], Except.error WalrusFsError.FileAlreadyExists⟩ ∧
    (add_file s clock_unix_ts path tags size walrus_blob_id end_epoch true).result =
      Except.ok () ∧
    s.obj_id_counter + 1 ≠ X ∧
    get_from_file_arena
      (add_file s clock_unix_ts path tags size walrus_blob_id end_epoch true).state.file_arena
      X = none ∧
    get_from_file_arena
      (add_file s clock_unix_ts path tags size walrus_blob_id end_epoch true).state.file_arena
      (s.obj_id_counter + 1) =
      some ⟨clock_unix_ts * 1000, tags, size, walrus_blob_id, end_epoch⟩ ∧
    (∃ idx2, fetch_children_files
        (add_file s clock_unix_ts path tags size walrus_blob_id end_epoch true).state pid =
        Except.ok idx2 ∧
      get_from_vec_str_key idx2 file_name = some (s.obj_id_counter + 1)) := by
  have hYX : s.obj_id_counter + 1 ≠ X := by omega
  refine ⟨?_, ?_, hYX, ?_, ?_, ?_⟩
  · simp only [add_file, hv1, hv2, hv3, hr, hf, hx, hfa]
    simp
  · simp only [add_file, hv1, hv2, hv3, hr, hf, hx]
    rfl
  · simp only [add_file, hv1, hv2, hv3, hr, hf, hx]
    rw [if_neg (by simp)]
    simp only [add_file_finish, write_children_files_file_arena]
    simp only [get_from_file_arena, insert_into_file_arena, remove_from_file_arena]
    rw [assoc_get_insert_ne (Ne.symm hYX)]
    exact assoc_get_remove_self hnd
  · simp only [add_file, hv1, hv2, hv3, hr, hf, hx]
    rw [if_neg (by simp)]
    simp only [add_file_finish, write_children_files_file_arena]
    simp only [get_from_file_arena, insert_into_file_arena]
    exact assoc_get_insert_self
  · simp only [add_file, hv1, hv2, hv3, hr, hf, hx]
    rw [if_neg (by simp)]
    simp only [add_file_finish]
    refine ⟨(insert_into_vec_str_key idx file_name (s.obj_id_counter + 1)).1, ?_, ?_⟩
    · exact fetch_write_children_files _ pid _ idx hf
    · simp only [get_from_vec_str_key, insert_into_vec_str_key]
      exact assoc_get_insert_self

/-- Concrete state for the C4 witness: one file "x" with id 1 under the
root. -/
def c4_state : WalrusfsState :=
  ⟨1, [⟨"x", 1⟩], [], [⟨1, ⟨1000, [], 1, "b1", 1⟩⟩], []⟩

/-- Witness for C4: re-creating "/x" on `c4_state` fails without `overwrite`
and replaces the record under the fresh id 2 with `overwrite`. -/
theorem add_file_overwrite_semantics_witness :
    add_file c4_state 2 "/x" [] 2 "b2" 2 false =
      ⟨c4_state, [WalrusFsEvent.FileAlreadyExistsEvent "/x"
        (⟨1000, [], 1, "b1", 1⟩ : FileObjectAnchor).create_ts
        (⟨1000, [], 1, "b1", 1⟩ : FileObjectAnchor).tags
        (⟨1000, [], 1, "b1", 1⟩ : FileObjectAnchor).size
        (⟨1000, [], 1, "b1", 1⟩ : FileObjectAnchor).walrus_blob_id
        (⟨1000, [], 1, "b1", 1⟩ : FileObjectAnchor).walrus_epoch_till],
        Except.error WalrusFsError.FileAlreadyExists⟩ ∧
    (add_file c4_state 2 "/x" [] 2 "b2" 2 true).result = Except.ok () ∧
    c4_state.obj_id_counter + 1 ≠ 1 ∧
    get_from_file_arena (add_file c4_state 2 "/x" [] 2 "b2" 2 true).state.file_arena 1 = none ∧
    get_from_file_arena (add_file c4_state 2 "/x" [] 2 "b2" 2 true).state.file_arena
      (c4_state.obj_id_counter + 1) = some ⟨2 * 1000, [], 2, "b2", 2⟩ ∧
    (∃ idx2, fetch_children_files (add_file c4_state 2 "/x" [] 2 "b2" 2 true).state none =
        Except.ok idx2 ∧
      get_from_vec_str_key idx2 "x" = some (c4_state.obj_id_counter + 1)) :=
  add_file_overwrite_semantics c4_state 2 "/x" [] 2 "b2" 2 none "x" [⟨"x", 1⟩] 1
    ⟨1000, [], 1, "b1", 1⟩ (by decide) (by decide) (by decide) (by decide) (by decide)
    (by decide) (by decide) (by decide) (by decide)

/-! Success-shape inversion for the rename operations. -/

theorem fetch_children_files_some_inv {s : WalrusfsState} {q : Nat}
    {idx : List KeyValueStringU64} (h : fetch_children_files s (some q) = Except.ok idx) :
    ∃ d, get_from_dir_arena s.dir_arena q = some d ∧ d.children_files = idx := by
  simp only [fetch_children_files] at h
  rcases hg : get_from_dir_arena s.dir_arena q with _ | d
  · rw [hg] at h
    exact absurd h (by simp)
  · rw [hg] at h
    simp only [Except.ok.injEq] at h
    exact ⟨d, rfl, h⟩

theorem fetch_children_dirs_some_inv {s : WalrusfsState} {q : Nat}
    {idx : List KeyValueStringU64} (h : fetch_children_dirs s (some q) = Except.ok idx) :
    ∃ d, get_from_dir_arena s.dir_arena q = some d ∧ d.children_directories = idx := by
  simp only [fetch_children_dirs] at h
  rcases hg : get_from_dir_arena s.dir_arena q with _ | d
  · rw [hg] at h
    exact absurd h (by simp)
  · rw [hg] at h
    simp only [Except.ok.injEq] at h
    exact ⟨d, rfl, h⟩

theorem assoc_get_value_mem_indexIds {v : List KeyValueStringU64} {k : String} {i : Nat}
    (h : get_from_vec_str_key v k = some i) : i ∈ indexIds v :=
  List.mem_map.mpr ⟨⟨k, i⟩, assoc_get_mem h, rfl⟩

theorem rename_file_ok_inv {s s' : WalrusfsState} {from_path to_path : String}
    {ev : List WalrusFsEvent}
    (h : rename_file s from_path to_path = ⟨s', ev, Except.ok ()⟩) :
    ∃ p nf nt id idx,
      internal_resolve_parent_id_and_name (remove_trailing_slash from_path)
        s.root_children_directories s.dir_arena = Except.ok (p, nf) ∧
      internal_resolve_parent_id_and_name (remove_trailing_slash to_path)
        s.root_children_directories s.dir_arena = Except.ok (p, nt) ∧
      fetch_children_files s p = Except.ok idx ∧
      get_from_vec_str_key idx nf = some id ∧
      contains_key_in_vec_str idx nt = false ∧
      ev = [] ∧
      s' = write_children_files s p
        (insert_into_vec_str_key (remove_from_vec_str_key idx nf).1 nt id).1 := by
  simp only [rename_file] at h
  rcases h1 : validate_path (remove_trailing_slash from_path) with e1 | u1
  · simp only [h1] at h
    simp at h
  simp only [h1] at h
  rcases h2 : validate_path (remove_trailing_slash to_path) with e2 | u2
  · simp only [h2] at h
    simp at h
  simp only [h2] at h
  rcases h3 : internal_resolve_parent_id_and_name (remove_trailing_slash from_path)
      s.root_children_directories s.dir_arena with e3 | pn1
  · simp only [h3] at h
    simp at h
  simp only [h3] at h
  obtain ⟨p1, nf⟩ := pn1
  rcases h4 : internal_resolve_parent_id_and_name (remove_trailing_slash to_path)
      s.root_children_directories s.dir_arena with e4 | pn2
  · simp only [h4] at h
    simp at h
  simp only [h4] at h
  obtain ⟨p2, nt⟩ := pn2
  by_cases hpp : p1 = p2
  swap
  · rw [if_pos hpp] at h
    simp at h
  rw [if_neg (by simpa using hpp)] at h
  subst hpp
  rcases h5 : fetch_children_files s p1 with e5 | idx
  · simp only [h5] at h
    simp at h
  simp only [h5] at h
  cases hc1 : contains_key_in_vec_str idx nf with
  | false =>
    rw [if_pos (by rw [hc1])] at h
    simp at h
  | true =>
    rw [if_neg (by rw [hc1]; simp)] at h
    cases hc2 : contains_key_in_vec_str idx nt with
    | true =>
      rw [if_pos (by rw [hc2])] at h
      simp at h
    | false =>
      rw [if_neg (by rw [hc2]; simp)] at h
      rcases hrm : remove_from_vec_str_key idx nf with ⟨children1, idopt⟩
      rcases idopt with _ | id
      · simp only [hrm] at h
        simp at h
      · simp only [hrm] at h
        have hsnd : (remove_from_vec_str_key idx nf).2 = some id := by rw [hrm]
        have hget : get_from_vec_str_key idx nf = some id := by
          simp only [remove_from_vec_str_key] at hsnd
          rw [assoc_remove_snd] at hsnd
          exact hsnd
        have hfst : children1 = (remove_from_vec_str_key idx nf).1 := by
          rw [hrm]
        simp only [RawOutcome.mk.injEq] at h
        refine ⟨p1, nf, nt, id, idx, rfl, rfl, h5, hget, hc2, h.2.1.symm, ?_⟩
        rw [← h.1, hfst]

theorem rename_dir_ok_inv {s s' : WalrusfsState} {from_path to_path : String}
    {ev : List WalrusFsEvent}
    (h : rename_dir s from_path to_path = ⟨s', ev, Except.ok ()⟩) :
    ∃ p nf nt id idx,
      internal_resolve_parent_id_and_name (remove_trailing_slash from_path)
        s.root_children_directories s.dir_arena = Except.ok (p, nf) ∧
      internal_resolve_parent_id_and_name (remove_trailing_slash to_path)
        s.root_children_directories s.dir_arena = Except.ok (p, nt) ∧
      fetch_children_dirs s p = Except.ok idx ∧
      get_from_vec_str_key idx nf = some id ∧
      contains_key_in_vec_str idx nt = false ∧
      ev = [] ∧
      s' = write_children_dirs s p
        (insert_into_vec_str_key (remove_from_vec_str_key idx nf).1 nt id).1 := by
  simp only [rename_dir] at h
  rcases h1 : validate_path (remove_trailing_slash from_path) with e1 | u1
  · simp only [h1] at h
    simp at h
  simp only [h1] at h
  rcases h2 : validate_path (remove_trailing_slash to_path) with e2 | u2
  · simp only [h2] at h
    simp at h
  simp only [h2] at h
  rcases h3 : internal_resolve_parent_id_and_name (remove_trailing_slash from_path)
      s.root_children_directories s.dir_arena with e3 | pn1
  · simp only [h3] at h
    simp at h
  simp only [h3] at h
  obtain ⟨p1, nf⟩ := pn1
  rcases h4 : internal_resolve_parent_id_and_name (remove_trailing_slash to_path)
      s.root_children_directories s.dir_arena with e4 | pn2
  · simp only [h4] at h
    simp at h
  simp only [h4] at h
  obtain ⟨p2, nt⟩ := pn2
  by_cases hpp : p1 = p2
  swap
  · rw [if_pos hpp] at h
    simp at h
  rw [if_neg (by simpa using hpp)] at h
  subst hpp
  rcases h5 : fetch_children_dirs s p1 with e5 | idx
  · simp only [h5] at h
    simp at h
  simp only [h5] at h
  cases hc1 : contains_key_in_vec_str idx nf with
  | false =>
    rw [if_pos (by rw [hc1])] at h
    simp at h
  | true =>
    rw [if_neg (by rw [hc1]; simp)] at h
    cases hc2 : contains_key_in_vec_str idx nt with
    | true =>
      rw [if_pos (by rw [hc2])] at h
      simp at h
    | false =>
      rw [if_neg (by rw [hc2]; simp)] at h
      rcases hrm : remove_from_vec_str_key idx nf with ⟨children1, idopt⟩
      rcases idopt with _ | id
      · simp only [hrm] at h
        simp at h
      · simp only [hrm] at h
        have hsnd : (remove_from_vec_str_key idx nf).2 = some id := by rw [hrm]
        have hget : get_from_vec_str_key idx nf = some id := by
          simp only [remove_from_vec_str_key] at hsnd
          rw [assoc_remove_snd] at hsnd
          exact hsnd
        have hfst : children1 = (remove_from_vec_str_key idx nf).1 := by
          rw [hrm]
        simp only [RawOutcome.mk.injEq] at h
        refine ⟨p1, nf, nt, id, idx, rfl, rfl, h5, hget, hc2, h.2.1.symm, ?_⟩
        rw [← h.1, hfst]

theorem write_children_files_root_dirs (s : WalrusfsState) (pid : Option Nat)
    (idx : List KeyValueStringU64) :
    (write_children_files s pid idx).root_children_directories =
      s.root_children_directories := by
  cases pid <;> rfl

theorem write_children_dirs_root_files (s : WalrusfsState) (pid : Option Nat)
    (idx : List KeyValueStringU64) :
    (write_children_dirs s pid idx).root_children_files = s.root_children_files := by
  cases pid <;> rfl

/-- C7: rename idempotence of identity.  For each of the two rename
operations independently: whenever it succeeds, the only state change is in
the one affected name index — the from-name binding is removed and the
to-name is bound to the very same id; the renamed object's id and arena
record, every other binding in that index, the record contents of both arenas
(beyond the embedded affected index), the other name indexes and the counter
are unchanged. -/
theorem rename_frame_property :
    (∀ (s s1 : WalrusfsState) (ffrom fto : String) (ev1 : List WalrusFsEvent),
      TreeShape s →
      rename_file s ffrom fto = ⟨s1, ev1, Except.ok ()⟩ →
      ∃ p nf nt id idx,
      internal_resolve_parent_id_and_name (remove_trailing_slash ffrom)
        s.root_children_directories s.dir_arena = Except.ok (p, nf) ∧
      internal_resolve_parent_id_and_name (remove_trailing_slash fto)
        s.root_children_directories s.dir_arena = Except.ok (p, nt) ∧
      fetch_children_files s p = Except.ok idx ∧
      get_from_vec_str_key idx nf = some id ∧ nf ≠ nt ∧
      s1.obj_id_counter = s.obj_id_counter ∧
      s1.file_arena = s.file_arena ∧
      s1.root_children_directories = s.root_children_directories ∧
      (∃ idx2, fetch_children_files s1 p = Except.ok idx2 ∧
        get_from_vec_str_key idx2 nf = none ∧
        get_from_vec_str_key idx2 nt = some id ∧
        (∀ n, n ≠ nf → n ≠ nt → get_from_vec_str_key idx2 n = get_from_vec_str_key idx n)) ∧
      (p = none → s1.dir_arena = s.dir_arena) ∧
      (∀ q, p = some q →
        s1.root_children_files = s.root_children_files ∧
        (∀ q', q' ≠ q →
          get_from_dir_arena s1.dir_arena q' = get_from_dir_arena s.dir_arena q') ∧
        (∃ dq dq', get_from_dir_arena s.dir_arena q = some dq ∧
          get_from_dir_arena s1.dir_arena q = some dq' ∧
          dq'.create_ts = dq.create_ts ∧ dq'.tags = dq.tags ∧
          dq'.children_directories = dq.children_directories))) ∧
    (∀ (s s2 : WalrusfsState) (dfrom dto : String) (ev2 : List WalrusFsEvent),
      TreeShape s →
      rename_dir s dfrom dto = ⟨s2, ev2, Except.ok ()⟩ →
      ∃ p nf nt id idx,
      internal_resolve_parent_id_and_name (remove_trailing_slash dfrom)
        s.root_children_directories s.dir_arena = Except.ok (p, nf) ∧
      internal_resolve_parent_id_and_name (remove_trailing_slash dto)
        s.root_children_directories s.dir_arena = Except.ok (p, nt) ∧
      fetch_children_dirs s p = Except.ok idx ∧
      get_from_vec_str_key idx nf = some id ∧ nf ≠ nt ∧
      s2.obj_id_counter = s.obj_id_counter ∧
      s2.file_arena = s.file_arena ∧
      s2.root_children_files = s.root_children_files ∧
      get_from_dir_arena s2.dir_arena id = get_from_dir_arena s.dir_arena id ∧
      (∃ idx2, fetch_children_dirs s2 p = Except.ok idx2 ∧
        get_from_vec_str_key idx2 nf = none ∧
        get_from_vec_str_key idx2 nt = some id ∧
        (∀ n, n ≠ nf → n ≠ nt → get_from_vec_str_key idx2 n = get_from_vec_str_key idx n)) ∧
      (p = none → s2.dir_arena = s.dir_arena) ∧
      (∀ q, p = some q →
        s2.root_children_directories = s.root_children_directories ∧
        (∀ q', q' ≠ q →
          get_from_dir_arena s2.dir_arena q' = get_from_dir_arena s.dir_arena q') ∧
        (∃ dq dq', get_from_dir_arena s.dir_arena q = some dq ∧
          get_from_dir_arena s2.dir_arena q = some dq' ∧
          dq'.create_ts = dq.create_ts ∧ dq'.tags = dq.tags ∧
          dq'.children_files = dq.children_files))) := by
  constructor
  · intro s s1 ffrom fto ev1 hts hsf
    obtain ⟨htf, htd, htrf, htrd, htn, htb, hti⟩ := hts
    obtain ⟨p, nf, nt, id, idx, h3, h4, h5, hget, hc2, hev, hs'⟩ := rename_file_ok_inv hsf
    have hne : nf ≠ nt := by
      intro heq
      rw [heq] at hget
      have : contains_key_in_vec_str idx nt = true := by
        simp only [contains_key_in_vec_str, get_from_vec_str_key] at hget ⊢
        rw [assoc_contains_eq_isSome, hget]
        rfl
      rw [this] at hc2
      exact Bool.noConfusion hc2
    have hknodup : (indexKeys idx).Nodup := by
      cases p with
      | none =>
        have : idx = s.root_children_files := by
          simp only [fetch_children_files, Except.ok.injEq] at h5
          exact h5.symm
        rw [this]
        exact htrf
      | some q =>
        obtain ⟨dq, hdq, hch⟩ := fetch_children_files_some_inv h5
        have := (htn ⟨q, dq⟩ (assoc_get_mem hdq)).1
        rw [hch] at this
        exact this
    refine ⟨p, nf, nt, id, idx, h3, h4, h5, hget, hne, ?_, ?_, ?_, ?_, ?_, ?_⟩
    · rw [hs', write_children_files_counter]
    · rw [hs', write_children_files_file_arena]
    · rw [hs', write_children_files_root_dirs]
    · refine ⟨(insert_into_vec_str_key (remove_from_vec_str_key idx nf).1 nt id).1,
        ?_, ?_, ?_, ?_⟩
      · rw [hs']
        exact fetch_write_children_files s p _ idx h5
      · simp only [get_from_vec_str_key, insert_into_vec_str_key, remove_from_vec_str_key]
        rw [assoc_get_insert_ne hne]
        exact assoc_get_remove_self hknodup
      · simp only [get_from_vec_str_key, insert_into_vec_str_key]
        exact assoc_get_insert_self
      · intro n hnf hnt
        simp only [get_from_vec_str_key, insert_into_vec_str_key, remove_from_vec_str_key]
        rw [assoc_get_insert_ne hnt, assoc_get_remove_ne hnf]
    · intro hp
      rw [hs', hp]
      rfl
    · intro q hq
      rw [hq] at hs' h5
      obtain ⟨dq, hdq, hch⟩ := fetch_children_files_some_inv h5
      refine ⟨by rw [hs']; rfl, ?_, ?_⟩
      · intro q' hq'
        rw [hs']
        simp only [write_children_files, get_from_dir_arena]
        rw [assoc_get_modify, if_neg hq']
      · refine ⟨dq, { dq with children_files :=
            (insert_into_vec_str_key (remove_from_vec_str_key idx nf).1 nt id).1 },
          hdq, ?_, rfl, rfl, rfl⟩
        rw [hs']
        simp only [write_children_files, get_from_dir_arena]
        rw [assoc_get_modify, if_pos rfl]
        simp only [get_from_dir_arena] at hdq
        rw [hdq]
        rfl
  · intro s s2 dfrom dto ev2 hts hsd
    obtain ⟨htf, htd, htrf, htrd, htn, htb, hti⟩ := hts
    obtain ⟨p, nf, nt, id, idx, h3, h4, h5, hget, hc2, hev, hs'⟩ := rename_dir_ok_inv hsd
    have hne : nf ≠ nt := by
      intro heq
      rw [heq] at hget
      have : contains_key_in_vec_str idx nt = true := by
        simp only [contains_key_in_vec_str, get_from_vec_str_key] at hget ⊢
        rw [assoc_contains_eq_isSome, hget]
        rfl
      rw [this] at hc2
      exact Bool.noConfusion hc2
    have hknodup : (indexKeys idx).Nodup := by
      cases p with
      | none =>
        have : idx = s.root_children_directories := by
          simp only [fetch_children_dirs, Except.ok.injEq] at h5
          exact h5.symm
        rw [this]
        exact htrd
      | some q =>
        obtain ⟨dq, hdq, hch⟩ := fetch_children_dirs_some_inv h5
        have := (htn ⟨q, dq⟩ (assoc_get_mem hdq)).2
        rw [hch] at this
        exact this
    refine ⟨p, nf, nt, id, idx, h3, h4, h5, hget, hne, ?_, ?_, ?_, ?_, ?_, ?_, ?_⟩
    · rw [hs', write_children_dirs_counter]
    · rw [hs', write_children_dirs_file_arena]
    · rw [hs', write_children_dirs_root_files]
    · cases p with
      | none =>
        rw [hs']
        rfl
      | some q =>
        obtain ⟨dq, hdq, hch⟩ := fetch_children_dirs_some_inv h5
        have hmem : id ∈ indexIds dq.children_directories := by
          rw [hch]
          exact assoc_get_value_mem_indexIds hget
        have hqid : q < id := hti ⟨q, dq⟩ (assoc_get_mem hdq) id hmem
        have hne2 : id ≠ q := by omega
        rw [hs']
        simp only [write_children_dirs, get_from_dir_arena]
        rw [assoc_get_modify, if_neg hne2]
    · refine ⟨(insert_into_vec_str_key (remove_from_vec_str_key idx nf).1 nt id).1,
        ?_, ?_, ?_, ?_⟩
      · rw [hs']
        exact fetch_write_children_dirs s p _ idx h5
      · simp only [get_from_vec_str_key, insert_into_vec_str_key, remove_from_vec_str_key]
        rw [assoc_get_insert_ne hne]
        exact assoc_get_remove_self hknodup
      · simp only [get_from_vec_str_key, insert_into_vec_str_key]
        exact assoc_get_insert_self
      · intro n hnf hnt
        simp only [get_from_vec_str_key, insert_into_vec_str_key, remove_from_vec_str_key]
        rw [assoc_get_insert_ne hnt, assoc_get_remove_ne hnf]
    · intro hp
      rw [hs', hp]
      rfl
    · intro q hq
      rw [hq] at hs' h5
      obtain ⟨dq, hdq, hch⟩ := fetch_children_dirs_some_inv h5
      refine ⟨by rw [hs']; rfl, ?_, ?_⟩
      · intro q' hq'
        rw [hs']
        simp only [write_children_dirs, get_from_dir_arena]
        rw [assoc_get_modify, if_neg hq']
      · refine ⟨dq, { dq with children_directories :=
            (insert_into_vec_str_key (remove_from_vec_str_key idx nf).1 nt id).1 },
          hdq, ?_, rfl, rfl, rfl⟩
        rw [hs']
        simp only [write_children_dirs, get_from_dir_arena]
        rw [assoc_get_modify, if_pos rfl]
        simp only [get_from_dir_arena] at hdq
        rw [hdq]
        rfl

/-- The state after `rename_file c6_state "/a/f" "/a/g"`. -/
def c7_s1 : WalrusfsState :=
  ⟨3, [], [⟨"b", 1⟩, ⟨"a", 2⟩], [⟨3, ⟨1000, [], 1, "bb", 1⟩⟩],
    [⟨1, ⟨1000, [], [], []⟩⟩, ⟨2, ⟨1000, [], [⟨"g", 3⟩], []⟩⟩]⟩

/-- The state after `rename_dir c6_state "/b" "/c"`. -/
def c7_s2 : WalrusfsState :=
  ⟨3, [], [⟨"a", 2⟩, ⟨"c", 1⟩], [⟨3, ⟨1000, [], 1, "bb", 1⟩⟩],
    [⟨1, ⟨1000, [], [], []⟩⟩, ⟨2, ⟨1000, [], [⟨"f", 3⟩], []⟩⟩]⟩

/-- Witness for C7: renaming the file "/a/f" to "/a/g" and the directory "/b"
to "/c" on `c6_state` exercises the frame property at concrete inputs. -/
theorem rename_frame_property_witness :
    (∃ p nf nt id idx,
      internal_resolve_parent_id_and_name (remove_trailing_slash "/a/f")
        c6_state.root_children_directories c6_state.dir_arena = Except.ok (p, nf) ∧
      internal_resolve_parent_id_and_name (remove_trailing_slash "/a/g")
        c6_state.root_children_directories c6_state.dir_arena = Except.ok (p, nt) ∧
      fetch_children_files c6_state p = Except.ok idx ∧
      get_from_vec_str_key idx nf = some id ∧ nf ≠ nt ∧
      c7_s1.obj_id_counter = c6_state.obj_id_counter ∧
      c7_s1.file_arena = c6_state.file_arena ∧
      c7_s1.root_children_directories = c6_state.root_children_directories ∧
      (∃ idx2, fetch_children_files c7_s1 p = Except.ok idx2 ∧
        get_from_vec_str_key idx2 nf = none ∧
        get_from_vec_str_key idx2 nt = some id ∧
        (∀ n, n ≠ nf → n ≠ nt → get_from_vec_str_key idx2 n = get_from_vec_str_key idx n)) ∧
      (p = none → c7_s1.dir_arena = c6_state.dir_arena) ∧
      (∀ q, p = some q →
        c7_s1.root_children_files = c6_state.root_children_files ∧
        (∀ q', q' ≠ q →
          get_from_dir_arena c7_s1.dir_arena q' = get_from_dir_arena c6_state.dir_arena q') ∧
        (∃ dq dq', get_from_dir_arena c6_state.dir_arena q = some dq ∧
          get_from_dir_arena c7_s1.dir_arena q = some dq' ∧
          dq'.create_ts = dq.create_ts ∧ dq'.tags = dq.tags ∧
          dq'.children_directories = dq.children_directories))) ∧
    (∃ p nf nt id idx,
      internal_resolve_parent_id_and_name (remove_trailing_slash "/b")
        c6_state.root_children_directories c6_state.dir_arena = Except.ok (p, nf) ∧
      internal_resolve_parent_id_and_name (remove_trailing_slash "/c")
        c6_state.root_children_directories c6_state.dir_arena = Except.ok (p, nt) ∧
      fetch_children_dirs c6_state p = Except.ok idx ∧
      get_from_vec_str_key idx nf = some id ∧ nf ≠ nt ∧
      c7_s2.obj_id_counter = c6_state.obj_id_counter ∧
      c7_s2.file_arena = c6_state.file_arena ∧
      c7_s2.root_children_files = c6_state.root_children_files ∧
      get_from_dir_arena c7_s2.dir_arena id = get_from_dir_arena c6_state.dir_arena id ∧
      (∃ idx2, fetch_children_dirs c7_s2 p = Except.ok idx2 ∧
        get_from_vec_str_key idx2 nf = none ∧
        get_from_vec_str_key idx2 nt = some id ∧
        (∀ n, n ≠ nf → n ≠ nt → get_from_vec_str_key idx2 n = get_from_vec_str_key idx n)) ∧
      (p = none → c7_s2.dir_arena = c6_state.dir_arena) ∧
      (∀ q, p = some q →
        c7_s2.root_children_directories = c6_state.root_children_directories ∧
        (∀ q', q' ≠ q →
          get_from_dir_arena c7_s2.dir_arena q' = get_from_dir_arena c6_state.dir_arena q') ∧
        (∃ dq dq', get_from_dir_arena c6_state.dir_arena q = some dq ∧
          get_from_dir_arena c7_s2.dir_arena q = some dq' ∧
          dq'.create_ts = dq.create_ts ∧ dq'.tags = dq.tags ∧
          dq'.children_files = dq.children_files))) :=
  ⟨rename_frame_property.1 c6_state c7_s1 "/a/f" "/a/g" []
    (by unfold TreeShape; decide) (by decide),
   rename_frame_property.2 c6_state c7_s2 "/b" "/c" []
    (by unfold TreeShape; decide) (by decide)⟩

/-! Success-state abbreviations and inversion lemmas for the mutating
operations; each abbreviation is definitionally the state built by the
corresponding success branch. -/

/-- The state produced by a successful `add_dir`. -/
def add_dir_success_state (s : WalrusfsState) (clock_unix_ts : Nat) (tags : List String)
    (pid : Option Nat) (dir_name : String) (idx : List KeyValueStringU64) : WalrusfsState :=
  let new_dir_id := s.obj_id_counter + 1
  let s1 := write_children_dirs { s with obj_id_counter := new_dir_id } pid
    (insert_into_vec_str_key idx dir_name new_dir_id).1
  { s1 with dir_arena :=
      (insert_into_dir_arena s1.dir_arena new_dir_id ⟨clock_unix_ts * 1000, tags, [], []⟩).1 }

/-- The state produced by a successful `delete_file`. -/
def delete_file_success_state (s : WalrusfsState) (pid : Option Nat) (file_name : String)
    (idx : List KeyValueStringU64) (file_id : Nat) : WalrusfsState :=
  { write_children_files s pid (remove_from_vec_str_key idx file_name).1 with
    file_arena := (remove_from_file_arena s.file_arena file_id).1 }

/-- The state produced by a successful `delete_dir`. -/
def delete_dir_success_state (s : WalrusfsState) (pid : Option Nat) (dir_name : String)
    (idx : List KeyValueStringU64) (dir_id : Nat) (files_del dirs_del : List Nat) :
    WalrusfsState :=
  let s1 := write_children_dirs s pid (remove_from_vec_str_key idx dir_name).1
  { s1 with
    file_arena :=
      files_del.foldl (fun fa fid => (remove_from_file_arena fa fid).1) s1.file_arena,
    dir_arena := (remove_from_dir_arena
      (dirs_del.foldl (fun da did => (remove_from_dir_arena da did).1) s1.dir_arena) dir_id).1 }

theorem add_file_ok_inv {s s' : WalrusfsState} {clock_unix_ts : Nat} {path : String}
    {tags : List String} {size : Nat} {walrus_blob_id : String} {end_epoch : Nat}
    {overwrite : Bool} {ev : List WalrusFsEvent}
    (h : add_file s clock_unix_ts path tags size walrus_blob_id end_epoch overwrite =
      ⟨s', ev, Except.ok ()⟩) :
    ∃ pid file_name idx,
      validate_path path = Except.ok () ∧
      validate_tags tags = Except.ok () ∧
      validate_string_len walrus_blob_id "walrus_blob_id" = Except.ok () ∧
      internal_resolve_parent_id_and_name path s.root_children_directories s.dir_arena =
        Except.ok (pid, file_name) ∧
      fetch_children_files s pid = Except.ok idx ∧
      ((get_from_vec_str_key idx file_name = none ∧
        (⟨s', ev, Except.ok ()⟩ : RawOutcome Unit) =
          add_file_finish s clock_unix_ts path tags size walrus_blob_id end_epoch pid
            file_name idx s.file_arena) ∨
       (∃ X, get_from_vec_str_key idx file_name = some X ∧ overwrite = true ∧
        (⟨s', ev, Except.ok ()⟩ : RawOutcome Unit) =
          add_file_finish s clock_unix_ts path tags size walrus_blob_id end_epoch pid
            file_name idx (remove_from_file_arena s.file_arena X).1)) := by
  simp only [add_file] at h
  rcases h1 : validate_path path with e1 | u1
  · simp only [h1] at h
    simp at h
  simp only [h1] at h
  rcases h2 : validate_tags tags with e2 | u2
  · simp only [h2] at h
    simp at h
  simp only [h2] at h
  rcases h3 : validate_string_len walrus_blob_id "walrus_blob_id" with e3 | u3
  · simp only [h3] at h
    simp at h
  simp only [h3] at h
  rcases h4 : internal_resolve_parent_id_and_name path s.root_children_directories s.dir_arena
      with e4 | pn
  · simp only [h4] at h
    simp at h
  simp only [h4] at h
  obtain ⟨pid, file_name⟩ := pn
  rcases h5 : fetch_children_files s pid with e5 | idx
  · simp only [h5] at h
    simp at h
  simp only [h5] at h
  rcases h6 : get_from_vec_str_key idx file_name with _ | X
  · simp only [h6] at h
    exact ⟨pid, file_name, idx, rfl, rfl, rfl, rfl, h5, Or.inl ⟨h6, h.symm⟩⟩
  · simp only [h6] at h
    cases overwrite with
    | false =>
      rw [if_pos rfl] at h
      rcases hg : get_from_file_arena s.file_arena X with _ | f
      · simp only [hg] at h
        simp at h
      · simp only [hg] at h
        simp at h
    | true =>
      rw [if_neg (by simp)] at h
      exact ⟨pid, file_name, idx, rfl, rfl, rfl, rfl, h5, Or.inr ⟨X, h6, rfl, h.symm⟩⟩

theorem add_dir_ok_inv {s s' : WalrusfsState} {clock_unix_ts : Nat} {path : String}
    {tags : List String} {ev : List WalrusFsEvent}
    (h : add_dir s clock_unix_ts path tags = ⟨s', ev, Except.ok ()⟩) :
    ∃ pid dir_name idx,
      validate_path (remove_trailing_slash path) = Except.ok () ∧
      validate_tags tags = Except.ok () ∧
      internal_resolve_parent_id_and_name (remove_trailing_slash path)
        s.root_children_directories s.dir_arena = Except.ok (pid, dir_name) ∧
      fetch_children_dirs s pid = Except.ok idx ∧
      get_from_vec_str_key idx dir_name = none ∧
      ev = [WalrusFsEvent.DirAddedEvent path (clock_unix_ts * 1000) tags] ∧
      s' = add_dir_success_state s clock_unix_ts tags pid dir_name idx := by
  simp only [add_dir] at h
  rcases h1 : validate_path (remove_trailing_slash path) with e1 | u1
  · simp only [h1] at h
    simp at h
  simp only [h1] at h
  rcases h2 : validate_tags tags with e2 | u2
  · simp only [h2] at h
    simp at h
  simp only [h2] at h
  rcases h3 : internal_resolve_parent_id_and_name (remove_trailing_slash path)
      s.root_children_directories s.dir_arena with e3 | pn
  · simp only [h3] at h
    simp at h
  simp only [h3] at h
  obtain ⟨pid, dir_name⟩ := pn
  rcases h4 : fetch_children_dirs s pid with e4 | idx
  · simp only [h4] at h
    simp at h
  simp only [h4] at h
  rcases h5 : get_from_vec_str_key idx dir_name with _ | X
  · simp only [h5] at h
    simp only [RawOutcome.mk.injEq] at h
    exact ⟨pid, dir_name, idx, rfl, rfl, rfl, h4, h5, h.2.1.symm, h.1.symm⟩
  · simp only [h5] at h
    rcases hg : get_from_dir_arena
        (write_children_dirs { s with obj_id_counter := s.obj_id_counter + 1 } pid
          (insert_into_vec_str_key idx dir_name (s.obj_id_counter + 1)).1).dir_arena X
      with _ | d
    · simp only [hg] at h
      simp at h
    · simp only [hg] at h
      simp at h

theorem delete_file_ok_inv {s s' : WalrusfsState} {path : String} {ev : List WalrusFsEvent}
    (h : delete_file s path = ⟨s', ev, Except.ok ()⟩) :
    ∃ pid file_name idx file_id f,
      validate_path (remove_trailing_slash path) = Except.ok () ∧
      internal_resolve_parent_id_and_name (remove_trailing_slash path)
        s.root_children_directories s.dir_arena = Except.ok (pid, file_name) ∧
      fetch_children_files s pid = Except.ok idx ∧
      get_from_vec_str_key idx file_name = some file_id ∧
      get_from_file_arena s.file_arena file_id = some f ∧
      ev = [WalrusFsEvent.DeleteEvent path] ∧
      s' = delete_file_success_state s pid file_name idx file_id := by
  simp only [delete_file] at h
  rcases h1 : validate_path (remove_trailing_slash path) with e1 | u1
  · simp only [h1] at h
    simp at h
  simp only [h1] at h
  rcases h2 : internal_resolve_parent_id_and_name (remove_trailing_slash path)
      s.root_children_directories s.dir_arena with e2 | pn
  · simp only [h2] at h
    simp at h
  simp only [h2] at h
  obtain ⟨pid, file_name⟩ := pn
  rcases h3 : fetch_children_files s pid with e3 | idx
  · simp only [h3] at h
    simp at h
  simp only [h3] at h
  rcases hrm : remove_from_vec_str_key idx file_name with ⟨children1, idopt⟩
  rcases idopt with _ | file_id
  · simp only [hrm] at h
    simp at h
  simp only [hrm] at h
  have hsnd : (remove_from_vec_str_key idx file_name).2 = some file_id := by rw [hrm]
  have hget : get_from_vec_str_key idx file_name = some file_id := by
    simp only [remove_from_vec_str_key] at hsnd
    rw [assoc_remove_snd] at hsnd
    exact hsnd
  have hfst : children1 = (remove_from_vec_str_key idx file_name).1 := by rw [hrm]
  subst hfst
  rcases hrm2 : remove_from_file_arena
      (write_children_files s pid (remove_from_vec_str_key idx file_name).1).file_arena
      file_id with ⟨fa1, fopt⟩
  rcases fopt with _ | f
  · simp only [hrm2] at h
    simp at h
  simp only [hrm2] at h
  rw [write_children_files_file_arena] at hrm2
  have hsnd2 : (remove_from_file_arena s.file_arena file_id).2 = some f :=
    congrArg Prod.snd hrm2
  have hget2 : get_from_file_arena s.file_arena file_id = some f := by
    simp only [remove_from_file_arena] at hsnd2
    rw [assoc_remove_snd] at hsnd2
    exact hsnd2
  have hfa1 : fa1 = (remove_from_file_arena s.file_arena file_id).1 :=
    (congrArg Prod.fst hrm2).symm
  simp only [RawOutcome.mk.injEq] at h
  refine ⟨pid, file_name, idx, file_id, f, rfl, rfl, h3, hget, hget2, h.2.1.symm, ?_⟩
  rw [← h.1, hfa1]
  rfl

theorem delete_dir_ok_inv {s s' : WalrusfsState} {path : String} {ev : List WalrusFsEvent}
    (h : delete_dir s path = ⟨s', ev, Except.ok ()⟩) :
    ∃ pid dir_name idx dir_id files_del dirs_del,
      validate_path (remove_trailing_slash path) = Except.ok () ∧
      internal_resolve_parent_id_and_name (remove_trailing_slash path)
        s.root_children_directories s.dir_arena = Except.ok (pid, dir_name) ∧
      fetch_children_dirs s pid = Except.ok idx ∧
      get_from_vec_str_key idx dir_name = some dir_id ∧
      internal_recursive_get_dir_obj_ids dir_id
        (write_children_dirs s pid (remove_from_vec_str_key idx dir_name).1).dir_arena =
        Except.ok (files_del, dirs_del) ∧
      ev = [WalrusFsEvent.DeleteEvent path] ∧
      s' = delete_dir_success_state s pid dir_name idx dir_id files_del dirs_del := by
  simp only [delete_dir] at h
  rcases h1 : validate_path (remove_trailing_slash path) with e1 | u1
  · simp only [h1] at h
    simp at h
  simp only [h1] at h
  rcases h2 : internal_resolve_parent_id_and_name (remove_trailing_slash path)
      s.root_children_directories s.dir_arena with e2 | pn
  · simp only [h2] at h
    simp at h
  simp only [h2] at h
  obtain ⟨pid, dir_name⟩ := pn
  rcases h3 : fetch_children_dirs s pid with e3 | idx
  · simp only [h3] at h
    simp at h
  simp only [h3] at h
  rcases hrm : remove_from_vec_str_key idx dir_name with ⟨children1, idopt⟩
  rcases idopt with _ | dir_id
  · simp only [hrm] at h
    simp at h
  simp only [hrm] at h
  have hsnd : (remove_from_vec_str_key idx dir_name).2 = some dir_id := by rw [hrm]
  have hget : get_from_vec_str_key idx dir_name = some dir_id := by
    simp only [remove_from_vec_str_key] at hsnd
    rw [assoc_remove_snd] at hsnd
    exact hsnd
  have hfst : children1 = (remove_from_vec_str_key idx dir_name).1 := by rw [hrm]
  subst hfst
  rcases hwalk : internal_recursive_get_dir_obj_ids dir_id
      (write_children_dirs s pid (remove_from_vec_str_key idx dir_name).1).dir_arena
      with e4 | fd
  · simp only [hwalk] at h
    simp at h
  simp only [hwalk] at h
  obtain ⟨files_del, dirs_del⟩ := fd
  simp only [RawOutcome.mk.injEq] at h
  refine ⟨pid, dir_name, idx, dir_id, files_del, dirs_del, rfl, rfl, h3, hget, hwalk,
    h.2.1.symm, ?_⟩
  rw [← h.1]
  rfl

theorem stat_state (s : WalrusfsState) (path : String) : (stat s path).state = s := by
  simp only [stat]
  repeat' split
  all_goals rfl

theorem list_dir_state (s : WalrusfsState) (path : String) : (list_dir s path).state = s := by
  simp only [list_dir]
  repeat' split
  all_goals rfl

theorem get_dir_all_state (s : WalrusfsState) (path : String) :
    (get_dir_all s path).state = s := by
  simp only [get_dir_all]
  repeat' split
  all_goals rfl

theorem add_file_finish_state_counter (s : WalrusfsState) (clock_unix_ts : Nat)
    (path : String) (tags : List String) (size : Nat) (walrus_blob_id : String)
    (end_epoch : Nat) (pid : Option Nat) (file_name : String)
    (idx : List KeyValueStringU64) (fa : List KeyValueU64FileObject) :
    (add_file_finish s clock_unix_ts path tags size walrus_blob_id end_epoch pid file_name idx
      fa).state.obj_id_counter = s.obj_id_counter + 1 := by
  simp [add_file_finish, write_children_files_counter]

theorem add_dir_success_state_counter (s : WalrusfsState) (clock_unix_ts : Nat)
    (tags : List String) (pid : Option Nat) (dir_name : String)
    (idx : List KeyValueStringU64) :
    (add_dir_success_state s clock_unix_ts tags pid dir_name idx).obj_id_counter =
      s.obj_id_counter + 1 := by
  simp [add_dir_success_state, write_children_dirs_counter]

theorem delete_file_success_state_counter (s : WalrusfsState) (pid : Option Nat)
    (file_name : String) (idx : List KeyValueStringU64) (file_id : Nat) :
    (delete_file_success_state s pid file_name idx file_id).obj_id_counter =
      s.obj_id_counter := by
  simp [delete_file_success_state, write_children_files_counter]

theorem delete_dir_success_state_counter (s : WalrusfsState) (pid : Option Nat)
    (dir_name : String) (idx : List KeyValueStringU64) (dir_id : Nat)
    (files_del dirs_del : List Nat) :
    (delete_dir_success_state s pid dir_name idx dir_id files_del dirs_del).obj_id_counter =
      s.obj_id_counter := by
  simp [delete_dir_success_state, write_children_dirs_counter]

theorem apply_raw_ok_counter {s : WalrusfsState} {op : Op}
    (h : (apply_raw s op).result = Except.ok ()) :
    (apply_raw s op).state.obj_id_counter =
      (if op_is_create op then s.obj_id_counter + 1 else s.obj_id_counter) := by
  cases op with
  | add_file ts p tg sz blob ee ow =>
    simp only [apply_raw] at h ⊢
    have hfull : add_file s ts p tg sz blob ee ow =
        ⟨(add_file s ts p tg sz blob ee ow).state, (add_file s ts p tg sz blob ee ow).events,
          Except.ok ()⟩ := by
      rw [← h]
    obtain ⟨pid, name, idx, -, -, -, -, -, hbr⟩ := add_file_ok_inv hfull
    simp only [op_is_create, if_pos]
    rcases hbr with ⟨-, heq2⟩ | ⟨X, -, -, heq2⟩ <;>
    · have hc := congrArg (fun r => r.state.obj_id_counter) heq2
      simp only at hc
      rw [hc, add_file_finish_state_counter]
  | add_dir ts p tg =>
    simp only [apply_raw] at h ⊢
    have hfull : add_dir s ts p tg =
        ⟨(add_dir s ts p tg).state, (add_dir s ts p tg).events, Except.ok ()⟩ := by
      rw [← h]
    obtain ⟨pid, name, idx, -, -, -, -, -, -, hst⟩ := add_dir_ok_inv hfull
    simp only [op_is_create, if_pos]
    rw [hst, add_dir_success_state_counter]
  | stat p =>
    simp only [apply_raw, RawOutcome.forget, op_is_create, if_neg]
    rw [stat_state]
    simp
  | list_dir p =>
    simp only [apply_raw, RawOutcome.forget, op_is_create, if_neg]
    rw [list_dir_state]
    simp
  | get_dir_all p =>
    simp only [apply_raw, RawOutcome.forget, op_is_create, if_neg]
    rw [get_dir_all_state]
    simp
  | rename_file f t =>
    simp only [apply_raw] at h ⊢
    have hfull : rename_file s f t =
        ⟨(rename_file s f t).state, (rename_file s f t).events, Except.ok ()⟩ := by
      rw [← h]
    obtain ⟨p, nf, nt, id, idx, -, -, -, -, -, -, hst⟩ := rename_file_ok_inv hfull
    simp only [op_is_create, if_neg]
    rw [hst, write_children_files_counter]
    simp
  | rename_dir f t =>
    simp only [apply_raw] at h ⊢
    have hfull : rename_dir s f t =
        ⟨(rename_dir s f t).state, (rename_dir s f t).events, Except.ok ()⟩ := by
      rw [← h]
    obtain ⟨p, nf, nt, id, idx, -, -, -, -, -, -, hst⟩ := rename_dir_ok_inv hfull
    simp only [op_is_create, if_neg]
    rw [hst, write_children_dirs_counter]
    simp
  | delete_file p =>
    simp only [apply_raw] at h ⊢
    have hfull : delete_file s p =
        ⟨(delete_file s p).state, (delete_file s p).events, Except.ok ()⟩ := by
      rw [← h]
    obtain ⟨pid, name, idx, fid, fobj, -, -, -, -, -, -, hst⟩ := delete_file_ok_inv hfull
    simp only [op_is_create, if_neg]
    rw [hst, delete_file_success_state_counter]
    simp
  | delete_dir p =>
    simp only [apply_raw] at h ⊢
    have hfull : delete_dir s p =
        ⟨(delete_dir s p).state, (delete_dir s p).events, Except.ok ()⟩ := by
      rw [← h]
    obtain ⟨pid, name, idx, did, fdel, ddel, -, -, -, -, -, -, hst⟩ := delete_dir_ok_inv hfull
    simp only [op_is_create, if_neg]
    rw [hst, delete_dir_success_state_counter]
    simp

theorem run_trace_bounds : ∀ (ops : List Op) (s : WalrusfsState),
    List.Pairwise (· < ·) (run_trace s ops) ∧
    ∀ i ∈ run_trace s ops, s.obj_id_counter < i := by
  intro ops
  induction ops with
  | nil => intro s; simp [run_trace]
  | cons op rest ih =>
    intro s
    rcases hres : (apply_raw s op).result with e | u
    · simp only [run_trace, hres]
      exact ih s
    · obtain ⟨⟩ := u
      have hcnt := apply_raw_ok_counter hres
      cases hc : op_is_create op with
      | false =>
        simp only [run_trace, hres, hc]
        rw [if_neg (by simp)]
        rw [hc] at hcnt
        simp at hcnt
        obtain ⟨hp, hb⟩ := ih (apply_raw s op).state
        exact ⟨hp, fun i hi => hcnt ▸ hb i hi⟩
      | true =>
        simp only [run_trace, hres, hc, if_pos rfl]
        rw [hc] at hcnt
        simp at hcnt
        obtain ⟨hp, hb⟩ := ih (apply_raw s op).state
        constructor
        · refine List.Pairwise.cons ?_ hp
          intro i hi
          have := hb i hi
          omega
        · intro i hi
          rcases List.mem_cons.mp hi with rfl | hi2
          · omega
          · have := hb i hi2
            omega

/-- C5: id uniqueness and strict monotonicity.  Along any committed run from
the initialized namespace, the ids assigned by successful creates (`add_file`
and `add_dir` share one counter) are strictly increasing in call order, and
hence no id is ever assigned twice, even after its record has been deleted. -/
theorem create_ids_strictly_increase (ops : List Op) :
    List.Pairwise (· < ·) (run_trace initial_state ops) ∧
    (run_trace initial_state ops).Nodup := by
  obtain ⟨hp, -⟩ := run_trace_bounds ops initial_state
  exact ⟨hp, hp.imp Nat.ne_of_lt⟩

/-! Characterization of the recursive subtree walk (C9): membership of the
two result sets in terms of reachability through directory child edges, their
de-duplication (strict sortedness, as `BTreeSet` iteration yields), and the
walk's totality on arbitrary arenas, cyclic ones included (established by the
well-founded definition of `internal_recursive_walk` itself). -/

theorem btree_set_insert_pairwise {s : List Nat} {x : Nat}
    (h : List.Pairwise (· < ·) s) : List.Pairwise (· < ·) (btree_set_insert s x) := by
  induction s with
  | nil => simp [btree_set_insert]
  | cons y rest ih =>
    rcases List.pairwise_cons.mp h with ⟨hy, hrest⟩
    by_cases h1 : x < y
    · simp only [btree_set_insert, if_pos h1]
      refine List.pairwise_cons.mpr ⟨?_, h⟩
      intro a ha
      rcases List.mem_cons.mp ha with rfl | ha2
      · exact h1
      · exact h1.trans (hy a ha2)
    · by_cases h2 : x = y
      · simp only [btree_set_insert, if_neg h1, if_pos h2]
        exact h
      · simp only [btree_set_insert, if_neg h1, if_neg h2]
        refine List.pairwise_cons.mpr ⟨?_, ih hrest⟩
        intro a ha
        rcases btree_set_insert_mem.mp ha with rfl | ha2
        · omega
        · exact hy a ha2

theorem walk_children_files_fold_mem :
    ∀ (children : List KeyValueStringU64) (acc : List Nat) (i : Nat),
    i ∈ walk_children_files_fold children acc ↔ i ∈ acc ∨ i ∈ indexIds children := by
  intro children
  induction children with
  | nil =>
    intro acc i
    simp [walk_children_files_fold, indexIds]
  | cons kv rest ih =>
    intro acc i
    have hstep : walk_children_files_fold (kv :: rest) acc =
        walk_children_files_fold rest (btree_set_insert acc kv.value) := rfl
    rw [hstep, ih]
    simp only [btree_set_insert_mem, indexIds, List.map_cons, List.mem_cons]
    tauto

theorem walk_children_files_fold_pairwise :
    ∀ (children : List KeyValueStringU64) (acc : List Nat),
    List.Pairwise (· < ·) acc →
    List.Pairwise (· < ·) (walk_children_files_fold children acc) := by
  intro children
  induction children with
  | nil =>
    intro acc h
    exact h
  | cons kv rest ih =>
    intro acc h
    exact ih (btree_set_insert acc kv.value) (btree_set_insert_pairwise h)

theorem walk_children_dirs_fold_step (dir_id : Nat) (visited : List Nat)
    (kv : KeyValueStringU64) (rest : List KeyValueStringU64) (acc : List Nat × List Nat) :
    walk_children_dirs_fold dir_id visited (kv :: rest) acc =
      walk_children_dirs_fold dir_id visited rest
        (if kv.value ≠ dir_id then btree_set_insert acc.1 kv.value else acc.1,
         if kv.value ∉ visited then kv.value :: acc.2 else acc.2) := rfl

theorem walk_children_dirs_fold_mem_fst :
    ∀ (children : List KeyValueStringU64) (dir_id : Nat) (visited : List Nat)
      (acc : List Nat × List Nat) (i : Nat),
    i ∈ (walk_children_dirs_fold dir_id visited children acc).1 ↔
      i ∈ acc.1 ∨ (i ∈ indexIds children ∧ i ≠ dir_id) := by
  intro children
  induction children with
  | nil =>
    intro dir_id visited acc i
    simp [walk_children_dirs_fold, indexIds]
  | cons kv rest ih =>
    intro dir_id visited acc i
    rw [walk_children_dirs_fold_step, ih]
    simp only [indexIds, List.map_cons, List.mem_cons]
    by_cases hd : kv.value = dir_id
    · rw [if_neg (by simp [hd])]
      constructor
      · rintro (h1 | ⟨h2, h3⟩)
        · exact Or.inl h1
        · exact Or.inr ⟨Or.inr h2, h3⟩
      · rintro (h1 | ⟨h2 | h2, h3⟩)
        · exact Or.inl h1
        · exact absurd (h2.trans hd) h3
        · exact Or.inr ⟨h2, h3⟩
    · rw [if_pos hd]
      simp only [btree_set_insert_mem]
      constructor
      · rintro ((rfl | h1) | ⟨h2, h3⟩)
        · exact Or.inr ⟨Or.inl rfl, hd⟩
        · exact Or.inl h1
        · exact Or.inr ⟨Or.inr h2, h3⟩
      · rintro (h1 | ⟨h2 | h2, h3⟩)
        · exact Or.inl (Or.inr h1)
        · exact Or.inl (Or.inl h2)
        · exact Or.inr ⟨h2, h3⟩

theorem walk_children_dirs_fold_mem_snd :
    ∀ (children : List KeyValueStringU64) (dir_id : Nat) (visited : List Nat)
      (acc : List Nat × List Nat) (i : Nat),
    i ∈ (walk_children_dirs_fold dir_id visited children acc).2 ↔
      i ∈ acc.2 ∨ (i ∈ indexIds children ∧ i ∉ visited) := by
  intro children
  induction children with
  | nil =>
    intro dir_id visited acc i
    simp [walk_children_dirs_fold, indexIds]
  | cons kv rest ih =>
    intro dir_id visited acc i
    rw [walk_children_dirs_fold_step, ih]
    simp only [indexIds, List.map_cons, List.mem_cons]
    by_cases hv : kv.value ∈ visited
    · rw [if_neg (by simp [hv])]
      constructor
      · rintro (h1 | ⟨h2, h3⟩)
        · exact Or.inl h1
        · exact Or.inr ⟨Or.inr h2, h3⟩
      · rintro (h1 | ⟨h2 | h2, h3⟩)
        · exact Or.inl h1
        · exact absurd (h2 ▸ hv) h3
        · exact Or.inr ⟨h2, h3⟩
    · rw [if_pos (by simpa using hv)]
      constructor
      · rintro (h1 | ⟨h2, h3⟩)
        · rcases List.mem_cons.mp h1 with rfl | h1b
          · exact Or.inr ⟨Or.inl rfl, hv⟩
          · exact Or.inl h1b
        · exact Or.inr ⟨Or.inr h2, h3⟩
      · rintro (h1 | ⟨h2 | h2, h3⟩)
        · exact Or.inl (List.mem_cons.mpr (Or.inr h1))
        · exact Or.inl (List.mem_cons.mpr (Or.inl h2))
        · exact Or.inr ⟨h2, h3⟩

theorem walk_children_dirs_fold_pairwise_fst :
    ∀ (children : List KeyValueStringU64) (dir_id : Nat) (visited : List Nat)
      (acc : List Nat × List Nat),
    List.Pairwise (· < ·) acc.1 →
    List.Pairwise (· < ·) (walk_children_dirs_fold dir_id visited children acc).1 := by
  intro children
  induction children with
  | nil =>
    intro dir_id visited acc h
    exact h
  | cons kv rest ih =>
    intro dir_id visited acc h
    rw [walk_children_dirs_fold_step]
    refine ih dir_id visited _ ?_
    by_cases hd : kv.value ≠ dir_id
    · rw [if_pos hd]
      exact btree_set_insert_pairwise h
    · rw [if_neg hd]
      exact h

/-- Reachability from a seed set through the directory arena's child edges:
the node set the subtree walk explores. -/
inductive DirReachableFrom (dir_arena_data : List KeyValueU64DirObject) (seeds : List Nat) :
    Nat → Prop
  | seed {x : Nat} : x ∈ seeds → DirReachableFrom dir_arena_data seeds x
  | step {x y : Nat} {d : DirObjectAnchor} :
      DirReachableFrom dir_arena_data seeds x →
      get_from_dir_arena dir_arena_data x = some d →
      y ∈ indexIds d.children_directories →
      DirReachableFrom dir_arena_data seeds y

/-- Reachability from one root directory id. -/
def DirReachable (dir_arena_data : List KeyValueU64DirObject) (root x : Nat) : Prop :=
  DirReachableFrom dir_arena_data [root] x

/-- A file id bound in the `children_files` index of some directory reachable
from the root: the files the recursive walk collects. -/
def IsFileDescendant (dir_arena_data : List KeyValueU64DirObject) (root f : Nat) : Prop :=
  ∃ x d, DirReachable dir_arena_data root x ∧
    get_from_dir_arena dir_arena_data x = some d ∧ f ∈ indexIds d.children_files

theorem DirReachableFrom.mono {dir_arena_data : List KeyValueU64DirObject}
    {seeds1 seeds2 : List Nat} {x : Nat}
    (hs : ∀ a ∈ seeds1, DirReachableFrom dir_arena_data seeds2 a)
    (h : DirReachableFrom dir_arena_data seeds1 x) :
    DirReachableFrom dir_arena_data seeds2 x := by
  induction h with
  | seed hx => exact hs _ hx
  | step hr hg hm ihr => exact .step ihr hg hm

theorem DirReachableFrom_single_inv {dir_arena_data : List KeyValueU64DirObject}
    {root x : Nat} (h : DirReachableFrom dir_arena_data [root] x) :
    x = root ∨ ∃ y d, DirReachableFrom dir_arena_data [root] y ∧
      get_from_dir_arena dir_arena_data y = some d ∧
      x ∈ indexIds d.children_directories := by
  cases h with
  | seed hx => exact Or.inl (by simpa using hx)
  | step hr hg hm => exact Or.inr ⟨_, _, hr, hg, hm⟩

/-! Non-dependent unfolding equations of the well-founded walk loop, one per
branch of the `while let` body. -/

theorem internal_recursive_walk_nil (dir_arena_data : List KeyValueU64DirObject)
    (dir_id : Nat) (visited fids dids : List Nat) :
    internal_recursive_walk dir_arena_data dir_id [] visited fids dids =
      Except.ok (fids, dids) := by
  simp [internal_recursive_walk]

theorem internal_recursive_walk_skip {dir_arena_data : List KeyValueU64DirObject}
    {dir_id current : Nat} {rest visited fids dids : List Nat}
    (hv : current ∈ visited) :
    internal_recursive_walk dir_arena_data dir_id (current :: rest) visited fids dids =
      internal_recursive_walk dir_arena_data dir_id rest visited fids dids := by
  rw [internal_recursive_walk]
  rw [dif_pos hv]

theorem internal_recursive_walk_miss {dir_arena_data : List KeyValueU64DirObject}
    {dir_id current : Nat} {rest visited fids dids : List Nat}
    (hv : current ∉ visited)
    (hg : get_from_dir_arena dir_arena_data current = none) :
    internal_recursive_walk dir_arena_data dir_id (current :: rest) visited fids dids =
      Except.error WalrusFsError.ArenaMismatchError := by
  rw [internal_recursive_walk, dif_neg hv]
  split
  · rfl
  · next d heq => rw [hg] at heq; exact Option.noConfusion heq

theorem internal_recursive_walk_go {dir_arena_data : List KeyValueU64DirObject}
    {dir_id current : Nat} {rest visited fids dids : List Nat}
    {dir_object : DirObjectAnchor}
    (hv : current ∉ visited)
    (hg : get_from_dir_arena dir_arena_data current = some dir_object) :
    internal_recursive_walk dir_arena_data dir_id (current :: rest) visited fids dids =
      internal_recursive_walk dir_arena_data dir_id
        (walk_children_dirs_fold dir_id (btree_set_insert visited current)
          dir_object.children_directories (dids, rest)).2
        (btree_set_insert visited current)
        (walk_children_files_fold dir_object.children_files fids)
        (walk_children_dirs_fold dir_id (btree_set_insert visited current)
          dir_object.children_directories (dids, rest)).1 := by
  rw [internal_recursive_walk, dif_neg hv]
  split
  · next heq => rw [hg] at heq; exact Option.noConfusion heq
  · next d2 heq =>
    rw [hg] at heq
    injection heq with h2
    subst h2
    rfl

/-- Main loop invariant of the walk: along the worklist loop, the stack only
holds reachable ids, the accumulators collect sound (and sorted) file and
directory ids, and every visited directory's children have been fully captured
(files in the file set, non-root dirs in the dir set, dir children on the
visited set or the stack).  On `ok` this yields the full characterization of
the two result sets. -/
theorem walk_loop_main (dir_arena_data : List KeyValueU64DirObject) (root : Nat) :
    ∀ (stack visited fids dids : List Nat) (F D : List Nat),
    internal_recursive_walk dir_arena_data root stack visited fids dids =
      Except.ok (F, D) →
    List.Pairwise (· < ·) fids → List.Pairwise (· < ·) dids →
    (∀ v ∈ stack, DirReachableFrom dir_arena_data [root] v) →
    (∀ f ∈ fids, IsFileDescendant dir_arena_data root f) →
    (∀ y ∈ dids, DirReachableFrom dir_arena_data [root] y ∧ y ≠ root) →
    (∀ x ∈ visited, ∃ d, get_from_dir_arena dir_arena_data x = some d ∧
      (∀ f ∈ indexIds d.children_files, f ∈ fids) ∧
      (∀ y ∈ indexIds d.children_directories,
        (y ≠ root → y ∈ dids) ∧ (y ∈ visited ∨ y ∈ stack))) →
    (root ∈ stack ∨ root ∈ visited) →
    List.Pairwise (· < ·) F ∧ List.Pairwise (· < ·) D ∧
    (∀ f, f ∈ F ↔ IsFileDescendant dir_arena_data root f) ∧
    (∀ y, y ∈ D ↔ DirReachableFrom dir_arena_data [root] y ∧ y ≠ root) := by
  intro stack visited fids dids
  induction stack, visited, fids, dids
    using internal_recursive_walk.induct dir_arena_data root with
  | case1 visited fids dids =>
    intro F D hrun hfp hdp hstack hf hd hcl hroot
    rw [internal_recursive_walk_nil] at hrun
    have hpair := Except.ok.inj hrun
    obtain ⟨rfl, rfl⟩ : fids = F ∧ dids = D :=
      ⟨congrArg Prod.fst hpair, congrArg Prod.snd hpair⟩
    have hrootv : root ∈ visited := by
      rcases hroot with h | h
      · simp at h
      · exact h
    have hsub : ∀ z, DirReachableFrom dir_arena_data [root] z → z ∈ visited := by
      intro z hz
      induction hz with
      | seed hmem =>
        have hzr := List.mem_singleton.mp hmem
        rw [hzr]
        exact hrootv
      | step hr hg2 hm ih2 =>
        obtain ⟨d3, hg3, hfi3, hdi3⟩ := hcl _ ih2
        rw [hg2] at hg3
        injection hg3 with hdd
        subst hdd
        rcases (hdi3 _ hm).2 with h | h
        · exact h
        · simp at h
    refine ⟨hfp, hdp, ?_, ?_⟩
    · intro f
      constructor
      · exact hf f
      · rintro ⟨x, d, hx, hgx, hfm⟩
        obtain ⟨d3, hg3, hfi3, -⟩ := hcl x (hsub x hx)
        rw [hgx] at hg3
        injection hg3 with hdd
        subst hdd
        exact hfi3 f hfm
    · intro y
      constructor
      · exact hd y
      · rintro ⟨hy, hyne⟩
        rcases DirReachableFrom_single_inv hy with hyr | ⟨x, d, hx, hgx, hym⟩
        · exact absurd hyr hyne
        · obtain ⟨d3, hg3, -, hdi3⟩ := hcl x (hsub x hx)
          rw [hgx] at hg3
          injection hg3 with hdd
          subst hdd
          exact (hdi3 y hym).1 hyne
  | case2 current rest visited fids dids hv ih =>
    intro F D hrun hfp hdp hstack hf hd hcl hroot
    rw [internal_recursive_walk_skip hv] at hrun
    refine ih F D hrun hfp hdp ?_ hf hd ?_ ?_
    · intro v hvm
      exact hstack v (List.mem_cons_of_mem _ hvm)
    · intro x hx
      obtain ⟨d, hg, hfi, hdi⟩ := hcl x hx
      refine ⟨d, hg, hfi, ?_⟩
      intro y hym
      refine ⟨(hdi y hym).1, ?_⟩
      rcases (hdi y hym).2 with h | h
      · exact Or.inl h
      · rcases List.mem_cons.mp h with rfl | h2
        · exact Or.inl hv
        · exact Or.inr h2
    · rcases hroot with h | h
      · rcases List.mem_cons.mp h with rfl | h2
        · exact Or.inr hv
        · exact Or.inl h2
      · exact Or.inr h
  | case3 current rest visited fids dids hv hg =>
    intro F D hrun hfp hdp hstack hf hd hcl hroot
    rw [internal_recursive_walk_miss hv hg] at hrun
    exact Except.noConfusion hrun
  | case4 current rest visited fids dids hv dir_object hg ih =>
    intro F D hrun hfp hdp hstack hf hd hcl hroot
    rw [internal_recursive_walk_go hv hg] at hrun
    have hcur : DirReachableFrom dir_arena_data [root] current :=
      hstack current (List.mem_cons_self _ _)
    refine ih F D hrun ?_ ?_ ?_ ?_ ?_ ?_ ?_
    · exact walk_children_files_fold_pairwise _ _ hfp
    · exact walk_children_dirs_fold_pairwise_fst _ _ _ _ hdp
    · intro v hvm
      rcases (walk_children_dirs_fold_mem_snd _ _ _ _ _).mp hvm with h | ⟨h1, -⟩
      · exact hstack v (List.mem_cons_of_mem _ h)
      · exact .step hcur hg h1
    · intro f hfm
      rcases (walk_children_files_fold_mem _ _ _).mp hfm with h | h
      · exact hf f h
      · exact ⟨current, dir_object, hcur, hg, h⟩
    · intro y hym
      rcases (walk_children_dirs_fold_mem_fst _ _ _ _ _).mp hym with h | ⟨h1, h2⟩
      · exact hd y h
      · exact ⟨.step hcur hg h1, h2⟩
    · intro x hx
      rcases btree_set_insert_mem.mp hx with rfl | hx2
      · refine ⟨dir_object, hg, ?_, ?_⟩
        · intro f hfm
          exact (walk_children_files_fold_mem _ _ _).mpr (Or.inr hfm)
        · intro y hym
          constructor
          · intro hyne
            exact (walk_children_dirs_fold_mem_fst _ _ _ _ _).mpr (Or.inr ⟨hym, hyne⟩)
          · by_cases hyv : y ∈ btree_set_insert visited x
            · exact Or.inl hyv
            · exact Or.inr
                ((walk_children_dirs_fold_mem_snd _ _ _ _ _).mpr (Or.inr ⟨hym, hyv⟩))
      · obtain ⟨d, hgx, hfi, hdi⟩ := hcl x hx2
        refine ⟨d, hgx, ?_, ?_⟩
        · intro f hfm
          exact (walk_children_files_fold_mem _ _ _).mpr (Or.inl (hfi f hfm))
        · intro y hym
          constructor
          · intro hyne
            exact (walk_children_dirs_fold_mem_fst _ _ _ _ _).mpr
              (Or.inl ((hdi y hym).1 hyne))
          · rcases (hdi y hym).2 with h | h
            · exact Or.inl (btree_set_insert_mem.mpr (Or.inr h))
            · rcases List.mem_cons.mp h with rfl | h2
              · exact Or.inl (btree_set_insert_mem.mpr (Or.inl rfl))
              · exact Or.inr
                  ((walk_children_dirs_fold_mem_snd _ _ _ _ _).mpr (Or.inl h2))
    · rcases hroot with h | h
      · rcases List.mem_cons.mp h with rfl | h2
        · exact Or.inr (btree_set_insert_mem.mpr (Or.inl rfl))
        · exact Or.inl ((walk_children_dirs_fold_mem_snd _ _ _ _ _).mpr (Or.inl h2))
      · exact Or.inr (btree_set_insert_mem.mpr (Or.inr h))

/-- The full specification of `internal_recursive_get_dir_obj_ids` on any
arena: instantiates `walk_loop_main` at the seeded initial loop state. -/
theorem walk_spec (dir_arena_data : List KeyValueU64DirObject)
    (dir_id : Nat) (F D : List Nat)
    (h : internal_recursive_get_dir_obj_ids dir_id dir_arena_data =
      Except.ok (F, D)) :
    List.Pairwise (· < ·) F ∧ List.Pairwise (· < ·) D ∧
    (∀ f, f ∈ F ↔ IsFileDescendant dir_arena_data dir_id f) ∧
    (∀ y, y ∈ D ↔ DirReachable dir_arena_data dir_id y ∧ y ≠ dir_id) := by
  have hrun : internal_recursive_walk dir_arena_data dir_id [dir_id] [] [] [] =
      Except.ok (F, D) := h
  refine walk_loop_main dir_arena_data dir_id [dir_id] [] [] [] F D hrun
    List.Pairwise.nil List.Pairwise.nil ?_ ?_ ?_ ?_ ?_
  · intro v hvm
    exact .seed hvm
  · intro f hf
    exact absurd hf (List.not_mem_nil f)
  · intro y hy
    exact absurd hy (List.not_mem_nil y)
  · intro x hx
    exact absurd hx (List.not_mem_nil x)
  · exact Or.inl (List.mem_singleton.mpr rfl)

/-- C9: the recursive subtree walk is total on every directory arena, cyclic
ones included (witnessed by `internal_recursive_walk` being a terminating
function of its arguments), and whenever it returns without
`ArenaMismatchError` it yields two strictly sorted — hence de-duplicated —
sets: the file ids bound in the `children_files` index of every directory
reachable from the start, and the reachable directory ids excluding the
starting id itself. -/
theorem walk_characterization (dir_arena_data : List KeyValueU64DirObject)
    (dir_id : Nat) (F D : List Nat)
    (h : internal_recursive_get_dir_obj_ids dir_id dir_arena_data =
      Except.ok (F, D)) :
    List.Pairwise (· < ·) F ∧ List.Pairwise (· < ·) D ∧
    (∀ f, f ∈ F ↔ IsFileDescendant dir_arena_data dir_id f) ∧
    (∀ y, y ∈ D ↔ DirReachable dir_arena_data dir_id y ∧ y ≠ dir_id) :=
  walk_spec dir_arena_data dir_id F D h

/-- A two-directory arena whose child edges form a cycle: 1 names 2 as a
subdirectory, 2 names 1 back. -/
def c9_d1 : DirObjectAnchor := ⟨0, [], [], [⟨"two", 2⟩]⟩

/-- The second directory of the cyclic arena, pointing back at the first. -/
def c9_d2 : DirObjectAnchor := ⟨0, [], [], [⟨"one", 1⟩]⟩

/-- The cyclic directory arena itself. -/
def c9_arena : List KeyValueU64DirObject := [⟨1, c9_d1⟩, ⟨2, c9_d2⟩]

/-- Witness for C9: on the cyclic two-directory arena, the walk from 1
terminates, returns no file ids, and returns exactly the one other reachable
directory id 2 (1 itself is excluded as the starting id). -/
theorem walk_characterization_witness :
    List.Pairwise (· < ·) ([] : List Nat) ∧ List.Pairwise (· < ·) [2] ∧
    (∀ f, f ∈ ([] : List Nat) ↔ IsFileDescendant c9_arena 1 f) ∧
    (∀ y, y ∈ [2] ↔ DirReachable c9_arena 1 y ∧ y ≠ 1) := by
  apply walk_characterization c9_arena 1 [] [2]
  show internal_recursive_walk c9_arena 1 [1] [] [] [] = _
  have hv1 : (1 : Nat) ∉ ([] : List Nat) := by decide
  have hg1 : get_from_dir_arena c9_arena 1 = some c9_d1 := rfl
  rw [internal_recursive_walk_go hv1 hg1]
  show internal_recursive_walk c9_arena 1 [2] [1] [] [2] = _
  have hv2 : (2 : Nat) ∉ [1] := by decide
  have hg2 : get_from_dir_arena c9_arena 2 = some c9_d2 := rfl
  rw [internal_recursive_walk_go hv2 hg2]
  show internal_recursive_walk c9_arena 1 [] [1, 2] [] [2] = _
  rw [internal_recursive_walk_nil]

/-! Infrastructure for the delete cascade (C8) and the inductive invariant:
behaviour of batch `remove` folds over association lists, a lower bound on
reachable ids under the increasing-edge invariant, congruence of reachability
under agreeing arenas, and uniqueness of bindings under the single-parent
invariant. -/

theorem assoc_get_of_mem_nodup {κ α : Type} [DecidableEq κ] {v : List (KeyValue κ α)}
    {kv : KeyValue κ α} (hnd : (v.map (fun x => x.key)).Nodup) (h : kv ∈ v) :
    assoc_get v kv.key = some kv.value := by
  induction v with
  | nil => simp at h
  | cons kv0 rest ih =>
    simp only [List.map_cons, List.nodup_cons] at hnd
    rcases List.mem_cons.mp h with rfl | h2
    · simp [assoc_get]
    · have hne : kv0.key ≠ kv.key := by
        intro he
        apply hnd.1
        rw [he]
        exact List.mem_map_of_mem _ h2
      simp only [assoc_get, if_neg hne]
      exact ih hnd.2 h2

theorem assoc_remove_sublist {κ α : Type} [DecidableEq κ] {v : List (KeyValue κ α)}
    {k : κ} : List.Sublist (assoc_remove v k).1 v := by
  induction v with
  | nil => simp [assoc_remove]
  | cons kv rest ih =>
    by_cases hk : kv.key = k
    · simp only [assoc_remove, if_pos hk]
      exact List.sublist_cons_self kv rest
    · simp only [assoc_remove, if_neg hk]
      exact ih.cons₂ kv

theorem assoc_fold_remove_sublist {κ α : Type} [DecidableEq κ] :
    ∀ (L : List κ) (A : List (KeyValue κ α)),
    List.Sublist (L.foldl (fun a k => (assoc_remove a k).1) A) A := by
  intro L
  induction L with
  | nil =>
    intro A
    exact List.Sublist.refl A
  | cons k rest ih =>
    intro A
    exact (ih (assoc_remove A k).1).trans assoc_remove_sublist

theorem assoc_fold_remove_get_none {κ α : Type} [DecidableEq κ] :
    ∀ (L : List κ) (A : List (KeyValue κ α)) (y : κ),
    (A.map (fun kv => kv.key)).Nodup →
    (assoc_get A y = none ∨ y ∈ L) →
    assoc_get (L.foldl (fun a k => (assoc_remove a k).1) A) y = none := by
  intro L
  induction L with
  | nil =>
    intro A y hnd h
    rcases h with h | h
    · exact h
    · simp at h
  | cons k rest ih =>
    intro A y hnd h
    have hnd2 : ((assoc_remove A k).1.map (fun kv => kv.key)).Nodup := by
      refine hnd.sublist ?_
      exact assoc_remove_sublist.map _
    refine ih (assoc_remove A k).1 y hnd2 ?_
    rcases h with h | h
    · left
      by_cases hyk : y = k
      · subst hyk
        exact assoc_get_remove_self hnd
      · rw [assoc_get_remove_ne hyk]
        exact h
    · rcases List.mem_cons.mp h with rfl | h2
      · left
        exact assoc_get_remove_self hnd
      · right
        exact h2

theorem assoc_fold_remove_get_ne {κ α : Type} [DecidableEq κ] :
    ∀ (L : List κ) (A : List (KeyValue κ α)) (y : κ), y ∉ L →
    assoc_get (L.foldl (fun a k => (assoc_remove a k).1) A) y = assoc_get A y := by
  intro L
  induction L with
  | nil =>
    intro A y _
    rfl
  | cons k rest ih =>
    intro A y h
    have h1 : y ≠ k := fun he => h (he ▸ List.mem_cons_self k rest)
    have h2 : y ∉ rest := fun hm => h (List.mem_cons_of_mem k hm)
    show assoc_get (rest.foldl (fun a k2 => (assoc_remove a k2).1) (assoc_remove A k).1) y = _
    rw [ih _ y h2, assoc_get_remove_ne h1]

theorem flatten_sublist {α : Type} {L1 L2 : List (List α)} (h : List.Sublist L1 L2) :
    List.Sublist L1.flatten L2.flatten := by
  induction h with
  | slnil => simp
  | cons x h2 ih =>
    rw [List.flatten_cons]
    exact ih.trans (List.sublist_append_right x _)
  | cons₂ x h2 ih =>
    rw [List.flatten_cons, List.flatten_cons]
    exact ih.append_left x

/-- Under the increasing-edge part of the tree-shape invariant, every id
reachable from `r` is at least `r`: ids increase along directory edges. -/
theorem dir_reach_lower_bound {arena : List KeyValueU64DirObject} {r y : Nat}
    (hinc : ∀ kv ∈ arena, ∀ e ∈ indexIds kv.value.children_directories, kv.key < e)
    (h : DirReachableFrom arena [r] y) : r ≤ y := by
  induction h with
  | seed hm =>
    have h1 := List.mem_singleton.mp hm
    omega
  | step hr hg hm ih =>
    have hlt := hinc _ (assoc_get_mem hg) _ hm
    exact le_trans ih (Nat.le_of_lt hlt)

/-- Reachability is unchanged when the two arenas agree on every id at least
`r`, provided ids increase along the source arena's edges. -/
theorem dir_reach_congr {A B : List KeyValueU64DirObject} {r : Nat}
    (hincA : ∀ kv ∈ A, ∀ e ∈ indexIds kv.value.children_directories, kv.key < e)
    (hagree : ∀ x, r ≤ x → get_from_dir_arena A x = get_from_dir_arena B x)
    {y : Nat} (h : DirReachableFrom A [r] y) : DirReachableFrom B [r] y := by
  induction h with
  | seed hm => exact .seed hm
  | step hr hg hm ih =>
    have hx := dir_reach_lower_bound hincA hr
    exact .step ih ((hagree _ hx) ▸ hg) hm

/-- File descendants are unchanged under the same agreement. -/
theorem file_desc_congr {A B : List KeyValueU64DirObject} {r : Nat}
    (hincA : ∀ kv ∈ A, ∀ e ∈ indexIds kv.value.children_directories, kv.key < e)
    (hagree : ∀ x, r ≤ x → get_from_dir_arena A x = get_from_dir_arena B x)
    {f : Nat} (h : IsFileDescendant A r f) : IsFileDescendant B r f := by
  obtain ⟨x, d, hx, hg, hm⟩ := h
  have hxr : r ≤ x := dir_reach_lower_bound hincA hx
  exact ⟨x, d, dir_reach_congr hincA hagree hx, (hagree _ hxr) ▸ hg, hm⟩

/-- Membership in the union of all name indexes, segment by segment. -/
theorem binding_ids_mem {s : WalrusfsState} {z : Nat} :
    z ∈ bindingIds s ↔ z ∈ indexIds s.root_children_files ∨
      z ∈ indexIds s.root_children_directories ∨
      ∃ kv ∈ s.dir_arena, z ∈ dirBindings kv.value := by
  simp only [bindingIds, bindingSegments, List.flatten_cons, List.mem_append,
    List.mem_flatten, List.mem_map]
  constructor
  · rintro (h | h | ⟨l, ⟨kv, hkv, rfl⟩, hz⟩)
    · exact Or.inl h
    · exact Or.inr (Or.inl h)
    · exact Or.inr (Or.inr ⟨kv, hkv, hz⟩)
  · rintro (h | h | ⟨kv, hkv, hz⟩)
    · exact Or.inl h
    · exact Or.inr (Or.inl h)
    · exact Or.inr (Or.inr ⟨_, ⟨kv, hkv, rfl⟩, hz⟩)

/-- Single parent, record-segment occurrence: an id bound inside the record of
arena entry `⟨x, d⟩` is bound nowhere else — not at the root and not in any
other arena entry's record — and that record's segment is duplicate-free. -/
theorem binding_elsewhere_arena {s : WalrusfsState}
    (hnd : (bindingIds s).Nodup)
    {x : Nat} {d : DirObjectAnchor} (hx : (⟨x, d⟩ : KeyValueU64DirObject) ∈ s.dir_arena)
    {z : Nat} (hz : z ∈ dirBindings d) :
    z ∉ indexIds s.root_children_files ∧
    z ∉ indexIds s.root_children_directories ∧
    (∀ kv ∈ s.dir_arena, kv.key ≠ x → z ∉ dirBindings kv.value) := by
  obtain ⟨t1, t2, harena⟩ := List.append_of_mem hx
  have hflat : bindingIds s =
      indexIds s.root_children_files ++
        (indexIds s.root_children_directories ++
          ((t1.map (fun kv => dirBindings kv.value)).flatten ++
            (dirBindings d ++ (t2.map (fun kv => dirBindings kv.value)).flatten))) := by
    rw [bindingIds, bindingSegments, harena]
    simp [List.flatten_cons, List.map_append, List.flatten_append]
  rw [hflat, List.nodup_append] at hnd
  obtain ⟨-, hnd2, hdisj1⟩ := hnd
  rw [List.nodup_append] at hnd2
  obtain ⟨-, hnd3, hdisj2⟩ := hnd2
  rw [List.nodup_append] at hnd3
  obtain ⟨-, hnd4, hdisj3⟩ := hnd3
  rw [List.nodup_append] at hnd4
  obtain ⟨-, -, hdisj4⟩ := hnd4
  refine ⟨?_, ?_, ?_⟩
  · intro hzf
    refine hdisj1 hzf ?_
    refine List.mem_append.mpr (Or.inr ?_)
    refine List.mem_append.mpr (Or.inr ?_)
    exact List.mem_append.mpr (Or.inl hz)
  · intro hzd
    exact hdisj2 hzd (List.mem_append.mpr (Or.inr (List.mem_append.mpr (Or.inl hz))))
  · intro kv hkv hkne hzkv
    rw [harena] at hkv
    rcases List.mem_append.mp hkv with hkv1 | hkv2
    · have hzf : z ∈ (t1.map (fun kv => dirBindings kv.value)).flatten :=
        List.mem_flatten.mpr ⟨_, List.mem_map_of_mem _ hkv1, hzkv⟩
      exact hdisj3 hzf (List.mem_append.mpr (Or.inl hz))
    · rcases List.mem_cons.mp hkv2 with rfl | hkv3
      · exact hkne rfl
      · have hzf : z ∈ (t2.map (fun kv => dirBindings kv.value)).flatten :=
          List.mem_flatten.mpr ⟨_, List.mem_map_of_mem _ hkv3, hzkv⟩
        exact hdisj4 hz hzf

/-- The record segment of any arena entry is duplicate-free under the
single-parent invariant. -/
theorem binding_segment_nodup {s : WalrusfsState}
    (hnd : (bindingIds s).Nodup)
    {x : Nat} {d : DirObjectAnchor} (hx : (⟨x, d⟩ : KeyValueU64DirObject) ∈ s.dir_arena) :
    (dirBindings d).Nodup := by
  obtain ⟨t1, t2, harena⟩ := List.append_of_mem hx
  have hflat : bindingIds s =
      indexIds s.root_children_files ++
        (indexIds s.root_children_directories ++
          ((t1.map (fun kv => dirBindings kv.value)).flatten ++
            (dirBindings d ++ (t2.map (fun kv => dirBindings kv.value)).flatten))) := by
    rw [bindingIds, bindingSegments, harena]
    simp [List.flatten_cons, List.map_append, List.flatten_append]
  rw [hflat, List.nodup_append] at hnd
  obtain ⟨-, hnd2, -⟩ := hnd
  rw [List.nodup_append] at hnd2
  obtain ⟨-, hnd3, -⟩ := hnd2
  rw [List.nodup_append] at hnd3
  obtain ⟨-, hnd4, -⟩ := hnd3
  rw [List.nodup_append] at hnd4
  exact hnd4.1

/-- Single parent, root-directory-index occurrence: an id bound at the root
directory index is bound nowhere else, and that index is duplicate-free. -/
theorem binding_elsewhere_root_dirs {s : WalrusfsState}
    (hnd : (bindingIds s).Nodup) {z : Nat}
    (hz : z ∈ indexIds s.root_children_directories) :
    z ∉ indexIds s.root_children_files ∧
    (∀ kv ∈ s.dir_arena, z ∉ dirBindings kv.value) ∧
    (indexIds s.root_children_directories).Nodup := by
  have hflat : bindingIds s =
      indexIds s.root_children_files ++
        (indexIds s.root_children_directories ++
          (s.dir_arena.map (fun kv => dirBindings kv.value)).flatten) := by
    rw [bindingIds, bindingSegments]
    simp [List.flatten_cons]
  rw [hflat, List.nodup_append] at hnd
  obtain ⟨-, hnd2, hdisj1⟩ := hnd
  rw [List.nodup_append] at hnd2
  obtain ⟨hndD, -, hdisj2⟩ := hnd2
  refine ⟨?_, ?_, hndD⟩
  · intro hzf
    exact hdisj1 hzf (List.mem_append.mpr (Or.inl hz))
  · intro kv hkv hzkv
    exact hdisj2 hz (List.mem_flatten.mpr ⟨_, List.mem_map_of_mem _ hkv, hzkv⟩)

/-- Single parent, root-file-index occurrence: an id bound at the root file
index is bound nowhere else, and that index is duplicate-free. -/
theorem binding_elsewhere_root_files {s : WalrusfsState}
    (hnd : (bindingIds s).Nodup) {z : Nat}
    (hz : z ∈ indexIds s.root_children_files) :
    z ∉ indexIds s.root_children_directories ∧
    (∀ kv ∈ s.dir_arena, z ∉ dirBindings kv.value) ∧
    (indexIds s.root_children_files).Nodup := by
  have hflat : bindingIds s =
      indexIds s.root_children_files ++
        (indexIds s.root_children_directories ++
          (s.dir_arena.map (fun kv => dirBindings kv.value)).flatten) := by
    rw [bindingIds, bindingSegments]
    simp [List.flatten_cons]
  rw [hflat, List.nodup_append] at hnd
  obtain ⟨hndF, -, hdisj1⟩ := hnd
  refine ⟨?_, ?_, hndF⟩
  · intro hzd
    exact hdisj1 hz (List.mem_append.mpr (Or.inl hzd))
  · intro kv hkv hzkv
    exact hdisj1 hz (List.mem_append.mpr
      (Or.inr (List.mem_flatten.mpr ⟨_, List.mem_map_of_mem _ hkv, hzkv⟩)))

theorem write_children_dirs_arena_keys (s : WalrusfsState) (pid : Option Nat)
    (idx : List KeyValueStringU64) :
    (write_children_dirs s pid idx).dir_arena.map (fun kv => kv.key) =
      s.dir_arena.map (fun kv => kv.key) := by
  cases pid with
  | none => rfl
  | some p => exact assoc_modify_keys

theorem delete_dir_success_state_file_arena (s : WalrusfsState) (pid : Option Nat)
    (dir_name : String) (idx : List KeyValueStringU64) (dir_id : Nat)
    (files_del dirs_del : List Nat) :
    (delete_dir_success_state s pid dir_name idx dir_id files_del dirs_del).file_arena =
      files_del.foldl (fun a k => (assoc_remove a k).1) s.file_arena := by
  have h0 : (delete_dir_success_state s pid dir_name idx dir_id files_del
        dirs_del).file_arena =
      files_del.foldl (fun a k => (assoc_remove a k).1)
        (write_children_dirs s pid (remove_from_vec_str_key idx dir_name).1).file_arena := rfl
  rw [h0, write_children_dirs_file_arena]

theorem delete_dir_success_state_dir_arena (s : WalrusfsState) (pid : Option Nat)
    (dir_name : String) (idx : List KeyValueStringU64) (dir_id : Nat)
    (files_del dirs_del : List Nat) :
    (delete_dir_success_state s pid dir_name idx dir_id files_del dirs_del).dir_arena =
      (assoc_remove (dirs_del.foldl (fun a k => (assoc_remove a k).1)
        (write_children_dirs s pid (remove_from_vec_str_key idx dir_name).1).dir_arena)
        dir_id).1 := rfl

theorem delete_dir_success_state_root_files (s : WalrusfsState) (pid : Option Nat)
    (dir_name : String) (idx : List KeyValueStringU64) (dir_id : Nat)
    (files_del dirs_del : List Nat) :
    (delete_dir_success_state s pid dir_name idx dir_id files_del
      dirs_del).root_children_files = s.root_children_files := by
  have h0 : (delete_dir_success_state s pid dir_name idx dir_id files_del
        dirs_del).root_children_files =
      (write_children_dirs s pid
        (remove_from_vec_str_key idx dir_name).1).root_children_files := rfl
  rw [h0, write_children_dirs_root_files]

/-- The full specification of a successful `delete_dir` under the tree-shape
and arena-consistency invariants: the walk characterization transferred to the
pre-state, all absence facts, and the frame/monotonicity facts the inductive
invariant proof needs. -/
theorem delete_dir_spec {s s' : WalrusfsState} {path : String}
    {ev : List WalrusFsEvent}
    (hts : TreeShape s) (hac : ArenaConsistent s)
    (h : delete_dir s path = ⟨s', ev, Except.ok ()⟩) :
    ∃ (pid : Option Nat) (dir_name : String) (idx : List KeyValueStringU64)
      (dir_id : Nat) (files_del dirs_del : List Nat),
      internal_resolve_parent_id_and_name (remove_trailing_slash path)
        s.root_children_directories s.dir_arena = Except.ok (pid, dir_name) ∧
      fetch_children_dirs s pid = Except.ok idx ∧
      get_from_vec_str_key idx dir_name = some dir_id ∧
      (∀ y, y ∈ dirs_del ↔ DirReachable s.dir_arena dir_id y ∧ y ≠ dir_id) ∧
      (∀ f, f ∈ files_del ↔ IsFileDescendant s.dir_arena dir_id f) ∧
      get_from_dir_arena s'.dir_arena dir_id = none ∧
      (∀ y ∈ dirs_del, get_from_dir_arena s'.dir_arena y = none) ∧
      (∀ f ∈ files_del, get_from_file_arena s'.file_arena f = none) ∧
      (∃ idx2, fetch_children_dirs s' pid = Except.ok idx2 ∧
        get_from_vec_str_key idx2 dir_name = none) ∧
      (∀ z, z = dir_id ∨ z ∈ dirs_del ∨ z ∈ files_del → z ∉ bindingIds s') ∧
      s'.root_children_files = s.root_children_files ∧
      (List.Sublist (indexKeys s'.root_children_directories)
        (indexKeys s.root_children_directories) ∧
       List.Sublist (indexIds s'.root_children_directories)
        (indexIds s.root_children_directories)) ∧
      List.Sublist (s'.dir_arena.map (fun kv => kv.key))
        (s.dir_arena.map (fun kv => kv.key)) ∧
      (∀ kv2 ∈ s'.dir_arena, ∃ kv3 ∈ s.dir_arena, kv3.key = kv2.key ∧
        List.Sublist (indexKeys kv2.value.children_files)
          (indexKeys kv3.value.children_files) ∧
        List.Sublist (indexIds kv2.value.children_files)
          (indexIds kv3.value.children_files) ∧
        List.Sublist (indexKeys kv2.value.children_directories)
          (indexKeys kv3.value.children_directories) ∧
        List.Sublist (indexIds kv2.value.children_directories)
          (indexIds kv3.value.children_directories)) ∧
      List.Sublist (bindingIds s') (bindingIds s) ∧
      (∀ i, i ∉ files_del →
        get_from_file_arena s'.file_arena i = get_from_file_arena s.file_arena i) ∧
      (∀ i, i ≠ dir_id → i ∉ dirs_del →
        (get_from_dir_arena s'.dir_arena i).isSome =
          (get_from_dir_arena s.dir_arena i).isSome) ∧
      s'.obj_id_counter = s.obj_id_counter ∧
      List.Sublist (s'.file_arena.map (fun kv => kv.key))
        (s.file_arena.map (fun kv => kv.key)) := by
  obtain ⟨pid, dir_name, idx, dir_id, files_del, dirs_del, hval2, hres, hfetch, hget, hwalk,
    hev, hs'⟩ := delete_dir_ok_inv h
  obtain ⟨htsF, htsD, htsRF, htsRD, htsIdx, htsBind, htsInc⟩ := hts
  have hpdata : ∀ p, pid = some p → ∃ rec, get_from_dir_arena s.dir_arena p = some rec ∧
      rec.children_directories = idx := by
    intro p hp
    subst hp
    exact fetch_children_dirs_some_inv hfetch
  have hplt : ∀ p, pid = some p → p < dir_id := by
    intro p hp
    obtain ⟨rec, hgrec, hchil⟩ := hpdata p hp
    have hmem : dir_id ∈ indexIds rec.children_directories := by
      rw [hchil]
      exact assoc_get_value_mem_indexIds hget
    exact htsInc _ (assoc_get_mem hgrec) _ hmem
  have hidxnone : pid = none → idx = s.root_children_directories := by
    intro hp
    rw [hp] at hfetch
    simp only [fetch_children_dirs] at hfetch
    exact (Except.ok.inj hfetch).symm
  have hkeysA1 : (write_children_dirs s pid
      (remove_from_vec_str_key idx dir_name).1).dir_arena.map (fun kv => kv.key) =
      s.dir_arena.map (fun kv => kv.key) :=
    write_children_dirs_arena_keys s pid _
  have hndA1 : ((write_children_dirs s pid
      (remove_from_vec_str_key idx dir_name).1).dir_arena.map (fun kv => kv.key)).Nodup := by
    rw [hkeysA1]
    exact htsD
  have hagree : ∀ x, dir_id ≤ x →
      get_from_dir_arena (write_children_dirs s pid
        (remove_from_vec_str_key idx dir_name).1).dir_arena x =
      get_from_dir_arena s.dir_arena x := by
    cases pid with
    | none =>
      intro x _
      rfl
    | some p =>
      intro x hx
      have hp := hplt p rfl
      have hxp : x ≠ p := by omega
      show assoc_get (assoc_modify s.dir_arena p
        (fun d => { d with children_directories :=
          (remove_from_vec_str_key idx dir_name).1 })) x = assoc_get s.dir_arena x
      rw [assoc_get_modify, if_neg hxp]
  have hincA1 : ∀ kv ∈ (write_children_dirs s pid
      (remove_from_vec_str_key idx dir_name).1).dir_arena,
      ∀ e ∈ indexIds kv.value.children_directories, kv.key < e := by
    cases pid with
    | none => exact htsInc
    | some p =>
      intro kv hkv e he
      have hkv2 : kv ∈ assoc_modify s.dir_arena p
          (fun d => { d with children_directories :=
            (remove_from_vec_str_key idx dir_name).1 }) := hkv
      rcases assoc_modify_mem hkv2 with hin | ⟨a, hgeta, rfl⟩
      · exact htsInc kv hin e he
      · obtain ⟨rec, hgrec, hchil⟩ := hpdata p rfl
        have hgrec2 : assoc_get s.dir_arena p = some rec := hgrec
        have ha : rec = a := Option.some.inj (hgrec2.symm.trans hgeta)
        subst ha
        have he2 : e ∈ indexIds (remove_from_vec_str_key idx dir_name).1 := he
        have hsub : List.Sublist (indexIds (remove_from_vec_str_key idx dir_name).1)
            (indexIds idx) := assoc_remove_sublist.map _
        have hesub : e ∈ indexIds idx := hsub.subset he2
        show p < e
        exact htsInc _ (assoc_get_mem hgrec2) e (by rw [hchil]; exact hesub)
  obtain ⟨hFp, hDp, hFmem, hDmem⟩ := walk_spec _ dir_id files_del dirs_del hwalk
  have hagree2 : ∀ x, dir_id ≤ x → get_from_dir_arena s.dir_arena x =
      get_from_dir_arena (write_children_dirs s pid
        (remove_from_vec_str_key idx dir_name).1).dir_arena x :=
    fun x hx => (hagree x hx).symm
  have hDmemS : ∀ y, y ∈ dirs_del ↔ DirReachable s.dir_arena dir_id y ∧ y ≠ dir_id := by
    intro y
    rw [hDmem y]
    constructor
    · rintro ⟨hr, hne⟩
      exact ⟨dir_reach_congr hincA1 hagree hr, hne⟩
    · rintro ⟨hr, hne⟩
      exact ⟨dir_reach_congr htsInc hagree2 hr, hne⟩
  have hFmemS : ∀ f, f ∈ files_del ↔ IsFileDescendant s.dir_arena dir_id f := by
    intro f
    rw [hFmem f]
    constructor
    · exact file_desc_congr hincA1 hagree
    · exact file_desc_congr htsInc hagree2
  have hdarena : s'.dir_arena =
      (assoc_remove (dirs_del.foldl (fun a k => (assoc_remove a k).1)
        (write_children_dirs s pid (remove_from_vec_str_key idx dir_name).1).dir_arena)
        dir_id).1 := by
    rw [hs']
    exact delete_dir_success_state_dir_arena s pid dir_name idx dir_id files_del dirs_del
  have hfarena : s'.file_arena =
      files_del.foldl (fun a k => (assoc_remove a k).1) s.file_arena := by
    rw [hs']
    exact delete_dir_success_state_file_arena s pid dir_name idx dir_id files_del dirs_del
  have hrootF : s'.root_children_files = s.root_children_files := by
    rw [hs']
    exact delete_dir_success_state_root_files s pid dir_name idx dir_id files_del dirs_del
  have hndFold : ((dirs_del.foldl (fun a k => (assoc_remove a k).1)
      (write_children_dirs s pid
        (remove_from_vec_str_key idx dir_name).1).dir_arena).map (fun kv => kv.key)).Nodup :=
    hndA1.sublist ((assoc_fold_remove_sublist _ _).map _)
  have habs_dir_id : get_from_dir_arena s'.dir_arena dir_id = none := by
    rw [hdarena]
    exact assoc_get_remove_self hndFold
  have habs_dirs : ∀ y ∈ dirs_del, get_from_dir_arena s'.dir_arena y = none := by
    intro y hy
    have hyne : y ≠ dir_id := ((hDmem y).mp hy).2
    have h1 : assoc_get (assoc_remove (dirs_del.foldl (fun a k => (assoc_remove a k).1)
        (write_children_dirs s pid (remove_from_vec_str_key idx dir_name).1).dir_arena)
        dir_id).1 y = none := by
      rw [assoc_get_remove_ne hyne]
      exact assoc_fold_remove_get_none _ _ _ hndA1 (Or.inr hy)
    rw [hdarena]
    exact h1
  have habs_files : ∀ f ∈ files_del, get_from_file_arena s'.file_arena f = none := by
    intro f hf
    rw [hfarena]
    exact assoc_fold_remove_get_none _ _ _ htsF (Or.inr hf)
  have hsurv_parent : ∃ idx2, fetch_children_dirs s' pid = Except.ok idx2 ∧
      get_from_vec_str_key idx2 dir_name = none := by
    cases pid with
    | none =>
      refine ⟨(remove_from_vec_str_key idx dir_name).1, ?_, ?_⟩
      · have hroot : s'.root_children_directories =
            (remove_from_vec_str_key idx dir_name).1 := by
          rw [hs']
          rfl
        simp [fetch_children_dirs, hroot]
      · have hnd : (idx.map (fun kv => kv.key)).Nodup := by
          rw [hidxnone rfl]
          exact htsRD
        exact assoc_get_remove_self hnd
    | some p =>
      obtain ⟨rec, hgrec, hchil⟩ := hpdata p rfl
      have hgrec2 : assoc_get s.dir_arena p = some rec := hgrec
      have hplt2 : p < dir_id := hplt p rfl
      have hpnotdel : p ∉ dirs_del := by
        intro hp
        have h1 := (hDmem p).mp hp
        have hge := dir_reach_lower_bound hincA1 h1.1
        omega
      have hgp : get_from_dir_arena s'.dir_arena p =
          some { rec with children_directories :=
            (remove_from_vec_str_key idx dir_name).1 } := by
        have h1 : assoc_get (dirs_del.foldl (fun a k => (assoc_remove a k).1)
            (write_children_dirs s (some p)
              (remove_from_vec_str_key idx dir_name).1).dir_arena) p =
            assoc_get (write_children_dirs s (some p)
              (remove_from_vec_str_key idx dir_name).1).dir_arena p :=
          assoc_fold_remove_get_ne _ _ _ hpnotdel
        have h2 : assoc_get (write_children_dirs s (some p)
            (remove_from_vec_str_key idx dir_name).1).dir_arena p =
            some { rec with children_directories :=
              (remove_from_vec_str_key idx dir_name).1 } := by
          show assoc_get (assoc_modify s.dir_arena p
            (fun d => { d with children_directories :=
              (remove_from_vec_str_key idx dir_name).1 })) p = _
          rw [assoc_get_modify, if_pos rfl, hgrec2]
          rfl
        rw [hdarena]
        show assoc_get (assoc_remove (dirs_del.foldl (fun a k => (assoc_remove a k).1)
          (write_children_dirs s (some p)
            (remove_from_vec_str_key idx dir_name).1).dir_arena) dir_id).1 p = _
        rw [assoc_get_remove_ne (by omega : p ≠ dir_id), h1, h2]
      refine ⟨(remove_from_vec_str_key idx dir_name).1, ?_, ?_⟩
      · simp [fetch_children_dirs, hgp]
      · have hnd : (idx.map (fun kv => kv.key)).Nodup := by
          have h3 := (htsIdx _ (assoc_get_mem hgrec2)).2
          rw [hchil] at h3
          exact h3
        exact assoc_get_remove_self hnd
  have hsurv_mem : ∀ kv, kv ∈ s'.dir_arena → kv ∈ (write_children_dirs s pid
      (remove_from_vec_str_key idx dir_name).1).dir_arena := by
    intro kv hkv
    rw [hdarena] at hkv
    have h1 := assoc_remove_sublist.subset hkv
    exact (assoc_fold_remove_sublist _ _).subset h1
  have hsurv_key : ∀ kv, kv ∈ s'.dir_arena →
      (assoc_get s'.dir_arena kv.key).isSome = true := by
    intro kv hkv
    rcases hg : assoc_get s'.dir_arena kv.key with _ | a
    · exact absurd (List.mem_map_of_mem (fun x => x.key) hkv)
        (assoc_get_eq_none_iff.mp hg)
    · simp [hg]
  have hsurv_not_deleted : ∀ kv, kv ∈ s'.dir_arena →
      kv.key ≠ dir_id ∧ kv.key ∉ dirs_del := by
    intro kv hkv
    constructor
    · intro he
      have h1 := hsurv_key kv hkv
      rw [he] at h1
      have h2 : assoc_get s'.dir_arena dir_id = none := habs_dir_id
      rw [h2] at h1
      simp at h1
    · intro hmem
      have h1 := hsurv_key kv hkv
      have h2 : assoc_get s'.dir_arena kv.key = none := habs_dirs kv.key hmem
      rw [h2] at h1
      simp at h1
  have hocc : ∀ z, (z ∈ dirs_del ∨ z ∈ files_del) → ∃ x d,
      (⟨x, d⟩ : KeyValueU64DirObject) ∈ s.dir_arena ∧ z ∈ dirBindings d ∧
      get_from_dir_arena s'.dir_arena x = none := by
    intro z hz
    rcases hz with hz | hz
    · have h1 := (hDmem z).mp hz
      rcases DirReachableFrom_single_inv h1.1 with he | ⟨x, d, hxr, hgx, hm⟩
      · exact absurd he h1.2
      · have hxge : dir_id ≤ x := dir_reach_lower_bound hincA1 hxr
        have hgs : get_from_dir_arena s.dir_arena x = some d := by
          rw [← hagree x hxge]
          exact hgx
        refine ⟨x, d, assoc_get_mem hgs, List.mem_append.mpr (Or.inr hm), ?_⟩
        by_cases hxd : x = dir_id
        · rw [hxd]
          exact habs_dir_id
        · exact habs_dirs x ((hDmem x).mpr ⟨hxr, hxd⟩)
    · obtain ⟨x, d, hxr, hgx, hm⟩ := (hFmem z).mp hz
      have hxge : dir_id ≤ x := dir_reach_lower_bound hincA1 hxr
      have hgs : get_from_dir_arena s.dir_arena x = some d := by
        rw [← hagree x hxge]
        exact hgx
      refine ⟨x, d, assoc_get_mem hgs, List.mem_append.mpr (Or.inl hm), ?_⟩
      by_cases hxd : x = dir_id
      · rw [hxd]
        exact habs_dir_id
      · exact habs_dirs x ((hDmem x).mpr ⟨hxr, hxd⟩)
  have hrootDsub : ∀ z, z ∈ indexIds s'.root_children_directories →
      z ∈ indexIds s.root_children_directories := by
    cases pid with
    | none =>
      intro z hzm
      have h0 : s'.root_children_directories = (remove_from_vec_str_key idx dir_name).1 := by
        rw [hs']
        rfl
      rw [h0] at hzm
      have hsub : List.Sublist (indexIds (remove_from_vec_str_key idx dir_name).1)
          (indexIds idx) := assoc_remove_sublist.map _
      have h2 := hsub.subset hzm
      rw [hidxnone rfl] at h2
      exact h2
    | some p =>
      intro z hzm
      have h0 : s'.root_children_directories = s.root_children_directories := by
        rw [hs']
        rfl
      rw [h0] at hzm
      exact hzm
  have hseg_sub : ∀ kv2 ∈ s'.dir_arena, ∃ kv3 ∈ s.dir_arena, kv3.key = kv2.key ∧
      List.Sublist (indexKeys kv2.value.children_files)
        (indexKeys kv3.value.children_files) ∧
      List.Sublist (indexIds kv2.value.children_files)
        (indexIds kv3.value.children_files) ∧
      List.Sublist (indexKeys kv2.value.children_directories)
        (indexKeys kv3.value.children_directories) ∧
      List.Sublist (indexIds kv2.value.children_directories)
        (indexIds kv3.value.children_directories) := by
    cases pid with
    | none =>
      intro kv2 hkv2
      exact ⟨kv2, hsurv_mem kv2 hkv2, rfl, List.Sublist.refl _, List.Sublist.refl _,
        List.Sublist.refl _, List.Sublist.refl _⟩
    | some p =>
      intro kv2 hkv2
      have hkv2A : kv2 ∈ assoc_modify s.dir_arena p
          (fun d => { d with children_directories :=
            (remove_from_vec_str_key idx dir_name).1 }) := hsurv_mem kv2 hkv2
      rcases assoc_modify_mem hkv2A with hin | ⟨a, hgeta, rfl⟩
      · exact ⟨kv2, hin, rfl, List.Sublist.refl _, List.Sublist.refl _,
          List.Sublist.refl _, List.Sublist.refl _⟩
      · obtain ⟨rec, hgrec, hchil⟩ := hpdata p rfl
        have hgrec2 : assoc_get s.dir_arena p = some rec := hgrec
        have ha : rec = a := Option.some.inj (hgrec2.symm.trans hgeta)
        subst ha
        refine ⟨⟨p, rec⟩, assoc_get_mem hgrec2, rfl, List.Sublist.refl _,
          List.Sublist.refl _, ?_, ?_⟩
        · show List.Sublist (indexKeys (remove_from_vec_str_key idx dir_name).1)
            (indexKeys rec.children_directories)
          rw [hchil]
          exact assoc_remove_sublist.map _
        · show List.Sublist (indexIds (remove_from_vec_str_key idx dir_name).1)
            (indexIds rec.children_directories)
          rw [hchil]
          exact assoc_remove_sublist.map _
  have hseg_cov : ∀ kv2, kv2 ∈ s'.dir_arena → ∃ kv3 ∈ s.dir_arena, kv3.key = kv2.key ∧
      ∀ w, w ∈ dirBindings kv2.value → w ∈ dirBindings kv3.value := by
    intro kv2 hkv2
    obtain ⟨kv3, hkv3, hk, hs1, hs2, hs3, hs4⟩ := hseg_sub kv2 hkv2
    refine ⟨kv3, hkv3, hk, ?_⟩
    intro w hw
    rcases List.mem_append.mp hw with h1 | h1
    · exact List.mem_append.mpr (Or.inl (hs2.subset h1))
    · exact List.mem_append.mpr (Or.inr (hs4.subset h1))
  have hnodangle : ∀ z, z = dir_id ∨ z ∈ dirs_del ∨ z ∈ files_del →
      z ∉ bindingIds s' := by
    intro z hzdel hzmem
    rcases hzdel with rfl | hzdel2
    · cases pid with
      | none =>
        have hidx0 : idx = s.root_children_directories := hidxnone rfl
        have hoccr : z ∈ indexIds s.root_children_directories := by
          rw [← hidx0]
          exact assoc_get_value_mem_indexIds hget
        obtain ⟨hnotF, hnotA, hndD⟩ := binding_elsewhere_root_dirs htsBind hoccr
        rcases binding_ids_mem.mp hzmem with hzf | hzd | ⟨kv2, hkv2, hzkv2⟩
        · rw [hrootF] at hzf
          exact hnotF hzf
        · have h0 : s'.root_children_directories =
              (remove_from_vec_str_key idx dir_name).1 := by
            rw [hs']
            rfl
          rw [h0] at hzd
          obtain ⟨l1, l2, hsplit, hnotin⟩ := assoc_get_eq_some_iff.mp hget
          have hrm : (remove_from_vec_str_key idx dir_name).1 = l1 ++ l2 := by
            show (assoc_remove idx dir_name).1 = l1 ++ l2
            rw [hsplit, assoc_remove_decomp hnotin]
          rw [hrm] at hzd
          have hndidx : (indexIds idx).Nodup := by
            rw [hidx0]
            exact hndD
          rw [hsplit] at hndidx
          simp only [indexIds, List.map_append, List.map_cons] at hndidx hzd
          rw [List.nodup_append] at hndidx
          obtain ⟨-, hnd2, hdisj⟩ := hndidx
          rcases List.mem_append.mp hzd with h1 | h1
          · exact hdisj h1 (List.mem_cons_self _ _)
          · rw [List.nodup_cons] at hnd2
            exact hnd2.1 h1
        · have hkv2s : kv2 ∈ s.dir_arena := hsurv_mem kv2 hkv2
          exact hnotA kv2 hkv2s hzkv2
      | some p =>
        obtain ⟨rec, hgrec, hchil⟩ := hpdata p rfl
        have hgrec2 : assoc_get s.dir_arena p = some rec := hgrec
        have hoccp : z ∈ dirBindings rec := by
          refine List.mem_append.mpr (Or.inr ?_)
          rw [hchil]
          exact assoc_get_value_mem_indexIds hget
        obtain ⟨hnotF, hnotD, hnotA⟩ := binding_elsewhere_arena htsBind
          (assoc_get_mem hgrec2) hoccp
        have hsegnd : (dirBindings rec).Nodup :=
          binding_segment_nodup htsBind (assoc_get_mem hgrec2)
        rcases binding_ids_mem.mp hzmem with hzf | hzd | ⟨kv2, hkv2, hzkv2⟩
        · rw [hrootF] at hzf
          exact hnotF hzf
        · have h0 : s'.root_children_directories = s.root_children_directories := by
            rw [hs']
            rfl
          rw [h0] at hzd
          exact hnotD hzd
        · have hkv2A : kv2 ∈ assoc_modify s.dir_arena p
              (fun d => { d with children_directories :=
                (remove_from_vec_str_key idx dir_name).1 }) := hsurv_mem kv2 hkv2
          by_cases hkp : kv2.key = p
          · have h5 : assoc_get (assoc_modify s.dir_arena p
                (fun d => { d with children_directories :=
                  (remove_from_vec_str_key idx dir_name).1 })) kv2.key =
                some kv2.value := assoc_get_of_mem_nodup hndA1 hkv2A
            rw [hkp] at h5
            rw [assoc_get_modify, if_pos rfl, hgrec2] at h5
            have hval : kv2.value = { rec with children_directories :=
                (remove_from_vec_str_key idx dir_name).1 } := (Option.some.inj h5).symm
            rw [hval] at hzkv2
            have hz2 : z ∈ indexIds rec.children_files ++
                indexIds (remove_from_vec_str_key idx dir_name).1 := hzkv2
            have hsegnd2 : (indexIds rec.children_files ++ indexIds idx).Nodup := by
              have h4 : dirBindings rec = indexIds rec.children_files ++
                  indexIds rec.children_directories := rfl
              rw [h4, hchil] at hsegnd
              exact hsegnd
            rw [List.nodup_append] at hsegnd2
            obtain ⟨-, hndidx, hdisj⟩ := hsegnd2
            obtain ⟨l1, l2, hsplit, hnotin⟩ := assoc_get_eq_some_iff.mp hget
            have hrm : (remove_from_vec_str_key idx dir_name).1 = l1 ++ l2 := by
              show (assoc_remove idx dir_name).1 = l1 ++ l2
              rw [hsplit, assoc_remove_decomp hnotin]
            rcases List.mem_append.mp hz2 with h1 | h1
            · exact hdisj h1 (assoc_get_value_mem_indexIds hget)
            · rw [hrm] at h1
              rw [hsplit] at hndidx
              simp only [indexIds, List.map_append, List.map_cons] at hndidx h1
              rw [List.nodup_append] at hndidx
              obtain ⟨-, hnd2, hdisj2⟩ := hndidx
              rcases List.mem_append.mp h1 with h2 | h2
              · exact hdisj2 h2 (List.mem_cons_self _ _)
              · rw [List.nodup_cons] at hnd2
                exact hnd2.1 h2
          · rcases assoc_modify_mem hkv2A with hin | ⟨a, hgeta, rfl⟩
            · exact hnotA kv2 hin hkp hzkv2
            · exact absurd rfl hkp
    · obtain ⟨x, d, hxmem, hzx, hxdel⟩ := hocc z hzdel2
      obtain ⟨hnotF, hnotD, hnotA⟩ := binding_elsewhere_arena htsBind hxmem hzx
      rcases binding_ids_mem.mp hzmem with hzf | hzd | ⟨kv2, hkv2, hzkv2⟩
      · rw [hrootF] at hzf
        exact hnotF hzf
      · exact hnotD (hrootDsub z hzd)
      · have hk2ne : kv2.key ≠ x := by
          intro he
          have h1 := hsurv_key kv2 hkv2
          rw [he] at h1
          have h2 : assoc_get s'.dir_arena x = none := hxdel
          rw [h2] at h1
          simp at h1
        obtain ⟨kv3, hkv3, hkey3, hcov⟩ := hseg_cov kv2 hkv2
        exact hnotA kv3 hkv3 (fun he => hk2ne (hkey3.symm.trans he)) (hcov z hzkv2)
  have hrootDsubl : List.Sublist (indexKeys s'.root_children_directories)
        (indexKeys s.root_children_directories) ∧
      List.Sublist (indexIds s'.root_children_directories)
        (indexIds s.root_children_directories) := by
    cases pid with
    | none =>
      have h0 : s'.root_children_directories = (remove_from_vec_str_key idx dir_name).1 := by
        rw [hs']
        rfl
      have h1 : s.root_children_directories = idx := (hidxnone rfl).symm
      rw [h0, h1]
      exact ⟨assoc_remove_sublist.map _, assoc_remove_sublist.map _⟩
    | some p =>
      have h0 : s'.root_children_directories = s.root_children_directories := by
        rw [hs']
        rfl
      rw [h0]
      exact ⟨List.Sublist.refl _, List.Sublist.refl _⟩
  have hsubarena : List.Sublist s'.dir_arena (write_children_dirs s pid
      (remove_from_vec_str_key idx dir_name).1).dir_arena := by
    rw [hdarena]
    exact assoc_remove_sublist.trans (assoc_fold_remove_sublist _ _)
  have hdkeys : List.Sublist (s'.dir_arena.map (fun kv => kv.key))
      (s.dir_arena.map (fun kv => kv.key)) := by
    have h1 := hsubarena.map (fun kv => kv.key)
    rwa [hkeysA1] at h1
  have hfkeys : List.Sublist (s'.file_arena.map (fun kv => kv.key))
      (s.file_arena.map (fun kv => kv.key)) := by
    rw [hfarena]
    exact (assoc_fold_remove_sublist _ _).map _
  have hbind_sub : List.Sublist (bindingIds s') (bindingIds s) := by
    have hA1seg : List.Sublist
        (((write_children_dirs s pid (remove_from_vec_str_key idx dir_name).1).dir_arena.map
          (fun kv => dirBindings kv.value)).flatten)
        ((s.dir_arena.map (fun kv => dirBindings kv.value)).flatten) := by
      cases pid with
      | none => exact List.Sublist.refl _
      | some p =>
        obtain ⟨rec, hgrec, hchil⟩ := hpdata p rfl
        have hgrec2 : assoc_get s.dir_arena p = some rec := hgrec
        obtain ⟨l1, l2, hsplit, hnotin⟩ := assoc_get_eq_some_iff.mp hgrec2
        have hmod : (write_children_dirs s (some p)
            (remove_from_vec_str_key idx dir_name).1).dir_arena =
            l1 ++ ⟨p, { rec with children_directories :=
              (remove_from_vec_str_key idx dir_name).1 }⟩ :: l2 := by
          show assoc_modify s.dir_arena p _ = _
          rw [hsplit, assoc_modify_decomp hnotin]
        rw [hmod, hsplit]
        simp only [List.map_append, List.map_cons, List.flatten_append, List.flatten_cons]
        refine List.Sublist.append_left ?_ _
        refine List.Sublist.append ?_ (List.Sublist.refl _)
        show List.Sublist (indexIds rec.children_files ++
          indexIds (remove_from_vec_str_key idx dir_name).1)
          (indexIds rec.children_files ++ indexIds rec.children_directories)
        refine (List.Sublist.refl _).append ?_
        rw [hchil]
        exact assoc_remove_sublist.map _
    have hsseg : List.Sublist
        ((s'.dir_arena.map (fun kv => dirBindings kv.value)).flatten)
        (((write_children_dirs s pid
          (remove_from_vec_str_key idx dir_name).1).dir_arena.map
            (fun kv => dirBindings kv.value)).flatten) :=
      flatten_sublist (hsubarena.map _)
    have h1 : bindingIds s' = indexIds s'.root_children_files ++
        (indexIds s'.root_children_directories ++
          (s'.dir_arena.map (fun kv => dirBindings kv.value)).flatten) := by
      simp [bindingIds, bindingSegments]
    have h2 : bindingIds s = indexIds s.root_children_files ++
        (indexIds s.root_children_directories ++
          (s.dir_arena.map (fun kv => dirBindings kv.value)).flatten) := by
      simp [bindingIds, bindingSegments]
    rw [h1, h2, hrootF]
    exact (List.Sublist.refl _).append (hrootDsubl.2.append (hsseg.trans hA1seg))
  have hfilefr : ∀ i, i ∉ files_del →
      get_from_file_arena s'.file_arena i = get_from_file_arena s.file_arena i := by
    intro i hi
    rw [hfarena]
    exact assoc_fold_remove_get_ne _ _ _ hi
  have hdirfr : ∀ i, i ≠ dir_id → i ∉ dirs_del →
      (get_from_dir_arena s'.dir_arena i).isSome =
      (get_from_dir_arena s.dir_arena i).isSome := by
    intro i hne hni
    have h1 : get_from_dir_arena s'.dir_arena i = get_from_dir_arena
        (write_children_dirs s pid (remove_from_vec_str_key idx dir_name).1).dir_arena i := by
      rw [hdarena]
      show assoc_get _ i = _
      rw [assoc_get_remove_ne hne, assoc_fold_remove_get_ne _ _ _ hni]
      rfl
    rw [h1]
    cases pid with
    | none => rfl
    | some p =>
      show (assoc_get (assoc_modify s.dir_arena p
        (fun d => { d with children_directories :=
          (remove_from_vec_str_key idx dir_name).1 })) i).isSome = _
      rw [assoc_get_modify]
      by_cases hip : i = p
      · rw [if_pos hip, hip]
        exact Option.isSome_map
      · rw [if_neg hip]
        rfl
  have hcounter : s'.obj_id_counter = s.obj_id_counter := by
    rw [hs']
    exact delete_dir_success_state_counter s pid dir_name idx dir_id files_del dirs_del
  exact ⟨pid, dir_name, idx, dir_id, files_del, dirs_del, hres, hfetch, hget, hDmemS,
    hFmemS, habs_dir_id, habs_dirs, habs_files, hsurv_parent, hnodangle, hrootF,
    hrootDsubl, hdkeys, hseg_sub, hbind_sub, hfilefr, hdirfr, hcounter, hfkeys⟩

/-- C8: delete cascade completeness.  From any state satisfying the tree-shape
and arena-consistency invariants, a successful `delete_dir` targeting the
directory bound as `dir_id`: the two sets the walk collected are exactly the
file descendants and the proper reachable directories of `dir_id` in the
pre-state; afterwards `dir_id` and every collected directory id is absent
from the directory arena, every collected file id is absent from the file
arena, the parent's `children_directories` no longer binds the deleted name,
and no name index surviving the call binds any deleted id. -/
theorem delete_cascade_completeness {s s' : WalrusfsState} {path : String}
    {ev : List WalrusFsEvent}
    (hts : TreeShape s) (hac : ArenaConsistent s)
    (h : delete_dir s path = ⟨s', ev, Except.ok ()⟩) :
    ∃ (pid : Option Nat) (dir_name : String) (idx : List KeyValueStringU64)
      (dir_id : Nat) (files_del dirs_del : List Nat),
      internal_resolve_parent_id_and_name (remove_trailing_slash path)
        s.root_children_directories s.dir_arena = Except.ok (pid, dir_name) ∧
      fetch_children_dirs s pid = Except.ok idx ∧
      get_from_vec_str_key idx dir_name = some dir_id ∧
      (∀ y, y ∈ dirs_del ↔ DirReachable s.dir_arena dir_id y ∧ y ≠ dir_id) ∧
      (∀ f, f ∈ files_del ↔ IsFileDescendant s.dir_arena dir_id f) ∧
      get_from_dir_arena s'.dir_arena dir_id = none ∧
      (∀ y ∈ dirs_del, get_from_dir_arena s'.dir_arena y = none) ∧
      (∀ f ∈ files_del, get_from_file_arena s'.file_arena f = none) ∧
      (∃ idx2, fetch_children_dirs s' pid = Except.ok idx2 ∧
        get_from_vec_str_key idx2 dir_name = none) ∧
      (∀ z, z = dir_id ∨ z ∈ dirs_del ∨ z ∈ files_del → z ∉ bindingIds s') := by
  obtain ⟨pid, dir_name, idx, dir_id, files_del, dirs_del, h1, h2, h3, h4, h5, h6, h7, h8,
    h9, h10, -⟩ := delete_dir_spec hts hac h
  exact ⟨pid, dir_name, idx, dir_id, files_del, dirs_del, h1, h2, h3, h4, h5, h6, h7, h8,
    h9, h10⟩

/-- A concrete invariant-satisfying state for the delete cascade: one
directory "a" (id 1, empty record) bound at the root. -/
def c8_state : WalrusfsState := ⟨2, [], [⟨"a", 1⟩], [], [⟨1, ⟨0, [], [], []⟩⟩]⟩

/-- The state after `delete_dir c8_state "/a"`. -/
def c8_state2 : WalrusfsState := ⟨2, [], [], [], []⟩

/-- Witness for C8: deleting "/a" on `c8_state` (which satisfies both
invariants) exercises the cascade theorem at a concrete input. -/
theorem delete_cascade_completeness_witness :
    ∃ (pid : Option Nat) (dir_name : String) (idx : List KeyValueStringU64)
      (dir_id : Nat) (files_del dirs_del : List Nat),
      internal_resolve_parent_id_and_name (remove_trailing_slash "/a")
        c8_state.root_children_directories c8_state.dir_arena =
        Except.ok (pid, dir_name) ∧
      fetch_children_dirs c8_state pid = Except.ok idx ∧
      get_from_vec_str_key idx dir_name = some dir_id ∧
      (∀ y, y ∈ dirs_del ↔ DirReachable c8_state.dir_arena dir_id y ∧ y ≠ dir_id) ∧
      (∀ f, f ∈ files_del ↔ IsFileDescendant c8_state.dir_arena dir_id f) ∧
      get_from_dir_arena c8_state2.dir_arena dir_id = none ∧
      (∀ y ∈ dirs_del, get_from_dir_arena c8_state2.dir_arena y = none) ∧
      (∀ f ∈ files_del, get_from_file_arena c8_state2.file_arena f = none) ∧
      (∃ idx2, fetch_children_dirs c8_state2 pid = Except.ok idx2 ∧
        get_from_vec_str_key idx2 dir_name = none) ∧
      (∀ z, z = dir_id ∨ z ∈ dirs_del ∨ z ∈ files_del → z ∉ bindingIds c8_state2) := by
  have hv1 : (1 : Nat) ∉ ([] : List Nat) := by decide
  have hg1 : get_from_dir_arena [(⟨1, ⟨0, [], [], []⟩⟩ : KeyValueU64DirObject)] 1 =
      some ⟨0, [], [], []⟩ := rfl
  have hwalkc : internal_recursive_get_dir_obj_ids 1
      [(⟨1, ⟨0, [], [], []⟩⟩ : KeyValueU64DirObject)] = Except.ok ([], []) := by
    show internal_recursive_walk [⟨1, ⟨0, [], [], []⟩⟩] 1 [1] [] [] [] = _
    rw [internal_recursive_walk_go hv1 hg1]
    show internal_recursive_walk [⟨1, ⟨0, [], [], []⟩⟩] 1 [] [1] [] [] = _
    rw [internal_recursive_walk_nil]
  have h1 : delete_dir c8_state "/a" =
      match internal_recursive_get_dir_obj_ids 1
        [(⟨1, ⟨0, [], [], []⟩⟩ : KeyValueU64DirObject)] with
      | Except.error e =>
        (⟨⟨2, [], [], [], [⟨1, ⟨0, [], [], []⟩⟩]⟩, [], Except.error e⟩ : RawOutcome Unit)
      | Except.ok (files_to_delete, dirs_to_delete_recursive) =>
        ⟨{ (⟨2, [], [], [], [⟨1, ⟨0, [], [], []⟩⟩]⟩ : WalrusfsState) with
            file_arena := files_to_delete.foldl
              (fun fa fid => (remove_from_file_arena fa fid).1)
              (⟨2, [], [], [], [⟨1, ⟨0, [], [], []⟩⟩]⟩ : WalrusfsState).file_arena,
            dir_arena := (remove_from_dir_arena
              (dirs_to_delete_recursive.foldl
                (fun da did => (remove_from_dir_arena da did).1)
                (⟨2, [], [], [], [⟨1, ⟨0, [], [], []⟩⟩]⟩ : WalrusfsState).dir_arena) 1).1 },
          [WalrusFsEvent.DeleteEvent "/a"], Except.ok ()⟩ := rfl
  have hdel : delete_dir c8_state "/a" =
      ⟨c8_state2, [WalrusFsEvent.DeleteEvent "/a"], Except.ok ()⟩ := by
    rw [h1, hwalkc]
    rfl
  exact delete_cascade_completeness (by unfold TreeShape; decide)
    (by unfold ArenaConsistent; decide) hdel

/-! The inductive invariant (C2): the full invariant holds initially and is
preserved by every committed operation. -/

theorem apply_committed_of_error {s : WalrusfsState} {op : Op} {e : WalrusFsError}
    (h : (apply_raw s op).result = Except.error e) : apply_committed s op = s := by
  unfold apply_committed host_commit
  rw [h]

theorem FileIdsBound_mem {s : WalrusfsState} {i : Nat} :
    i ∈ FileIdsBound s ↔ i ∈ indexIds s.root_children_files ∨
      ∃ kv ∈ s.dir_arena, i ∈ indexIds kv.value.children_files := by
  simp only [FileIdsBound, List.mem_append, List.mem_flatten, List.mem_map]
  constructor
  · rintro (h | ⟨l, ⟨kv, hkv, rfl⟩, hz⟩)
    · exact Or.inl h
    · exact Or.inr ⟨kv, hkv, hz⟩
  · rintro (h | ⟨kv, hkv, hz⟩)
    · exact Or.inl h
    · exact Or.inr ⟨_, ⟨kv, hkv, rfl⟩, hz⟩

theorem DirIdsBound_mem {s : WalrusfsState} {i : Nat} :
    i ∈ DirIdsBound s ↔ i ∈ indexIds s.root_children_directories ∨
      ∃ kv ∈ s.dir_arena, i ∈ indexIds kv.value.children_directories := by
  simp only [DirIdsBound, List.mem_append, List.mem_flatten, List.mem_map]
  constructor
  · rintro (h | ⟨l, ⟨kv, hkv, rfl⟩, hz⟩)
    · exact Or.inl h
    · exact Or.inr ⟨kv, hkv, hz⟩
  · rintro (h | ⟨kv, hkv, hz⟩)
    · exact Or.inl h
    · exact Or.inr ⟨_, ⟨kv, hkv, rfl⟩, hz⟩

theorem file_bound_sub_binding {s : WalrusfsState} {i : Nat}
    (h : i ∈ FileIdsBound s) : i ∈ bindingIds s := by
  rcases FileIdsBound_mem.mp h with h1 | ⟨kv, hkv, hz⟩
  · exact binding_ids_mem.mpr (Or.inl h1)
  · exact binding_ids_mem.mpr (Or.inr (Or.inr ⟨kv, hkv, List.mem_append.mpr (Or.inl hz)⟩))

theorem dir_bound_sub_binding {s : WalrusfsState} {i : Nat}
    (h : i ∈ DirIdsBound s) : i ∈ bindingIds s := by
  rcases DirIdsBound_mem.mp h with h1 | ⟨kv, hkv, hz⟩
  · exact binding_ids_mem.mpr (Or.inr (Or.inl h1))
  · exact binding_ids_mem.mpr (Or.inr (Or.inr ⟨kv, hkv, List.mem_append.mpr (Or.inr hz)⟩))

theorem write_children_files_get_isSome (s : WalrusfsState) (pid : Option Nat)
    (idx2 : List KeyValueStringU64) (i : Nat) :
    (get_from_dir_arena (write_children_files s pid idx2).dir_arena i).isSome =
    (get_from_dir_arena s.dir_arena i).isSome := by
  cases pid with
  | none => rfl
  | some q =>
    show (assoc_get (assoc_modify s.dir_arena q
      (fun d => { d with children_files := idx2 })) i).isSome = _
    rw [assoc_get_modify]
    by_cases hip : i = q
    · rw [if_pos hip, hip]
      exact Option.isSome_map
    · rw [if_neg hip]
      rfl

theorem write_children_dirs_get_isSome (s : WalrusfsState) (pid : Option Nat)
    (idx2 : List KeyValueStringU64) (i : Nat) :
    (get_from_dir_arena (write_children_dirs s pid idx2).dir_arena i).isSome =
    (get_from_dir_arena s.dir_arena i).isSome := by
  cases pid with
  | none => rfl
  | some q =>
    show (assoc_get (assoc_modify s.dir_arena q
      (fun d => { d with children_directories := idx2 })) i).isSome = _
    rw [assoc_get_modify]
    by_cases hip : i = q
    · rw [if_pos hip, hip]
      exact Option.isSome_map
    · rw [if_neg hip]
      rfl

theorem write_children_files_arena_keys (s : WalrusfsState) (pid : Option Nat)
    (idx : List KeyValueStringU64) :
    (write_children_files s pid idx).dir_arena.map (fun kv => kv.key) =
      s.dir_arena.map (fun kv => kv.key) := by
  cases pid with
  | none => rfl
  | some p => exact assoc_modify_keys

theorem counter_dom_transfer {s t : WalrusfsState} (hc : CounterDom s)
    (h1 : t.obj_id_counter = s.obj_id_counter)
    (h2 : ∀ i ∈ bindingIds t, i ∈ bindingIds s)
    (h3 : ∀ i ∈ fileKeys t, i ∈ fileKeys s)
    (h4 : ∀ i ∈ dirKeys t, i ∈ dirKeys s) : CounterDom t := by
  obtain ⟨c1, c2, c3⟩ := hc
  refine ⟨?_, ?_, ?_⟩
  · intro i hi
    rw [h1]
    exact c1 i (h2 i hi)
  · intro i hi
    rw [h1]
    exact c2 i (h3 i hi)
  · intro i hi
    rw [h1]
    exact c3 i (h4 i hi)

theorem perm_extract {α : Type} (A X B : List α) (n : α) :
    List.Perm (A ++ ((X ++ [n]) ++ B)) (n :: (A ++ (X ++ B))) := by
  have h1 : A ++ ((X ++ [n]) ++ B) = A ++ (X ++ (n :: B)) := by simp
  rw [h1]
  have h2 : List.Perm (X ++ n :: B) (n :: (X ++ B)) := List.perm_middle
  exact (h2.append_left A).trans List.perm_middle

theorem perm_bubble {α : Type} {C R R2 : List α} {n : α} (h : List.Perm R (n :: R2)) :
    List.Perm (C ++ R) (n :: (C ++ R2)) := (h.append_left C).trans List.perm_middle

theorem arena_consistent_transfer {s t : WalrusfsState}
    (hac : ArenaConsistent s)
    (hf : ∀ i, i ∈ FileIdsBound t → i ∈ FileIdsBound s)
    (hdq : ∀ i, i ∈ DirIdsBound t → i ∈ DirIdsBound s)
    (hfa : ∀ i, (get_from_file_arena t.file_arena i).isSome =
      (get_from_file_arena s.file_arena i).isSome)
    (hda : ∀ i, (get_from_dir_arena t.dir_arena i).isSome =
      (get_from_dir_arena s.dir_arena i).isSome) : ArenaConsistent t :=
  ⟨fun i hi => by rw [hfa i]; exact hac.1 i (hf i hi),
   fun i hi => by rw [hda i]; exact hac.2 i (hdq i hi)⟩

/-- `bindingIds` of a state whose directory arena is split around one entry. -/
theorem bindingIds_split {s : WalrusfsState} {q : Nat} {rec : DirObjectAnchor}
    {t1 t2 : List KeyValueU64DirObject}
    (hsplit : s.dir_arena = t1 ++ ⟨q, rec⟩ :: t2) :
    bindingIds s = indexIds s.root_children_files ++
      (indexIds s.root_children_directories ++
        ((t1.map (fun kv => dirBindings kv.value)).flatten ++
          ((indexIds rec.children_files ++ indexIds rec.children_directories) ++
            (t2.map (fun kv => dirBindings kv.value)).flatten))) := by
  rw [bindingIds, bindingSegments, hsplit]
  simp [dirBindings, List.map_append]

theorem bindingIds_write_files_none (s : WalrusfsState) (idx2 : List KeyValueStringU64) :
    bindingIds (write_children_files s none idx2) =
      indexIds idx2 ++ (indexIds s.root_children_directories ++
        (s.dir_arena.map (fun kv => dirBindings kv.value)).flatten) := by
  simp [bindingIds, bindingSegments, write_children_files]

theorem bindingIds_write_dirs_none (s : WalrusfsState) (idx2 : List KeyValueStringU64) :
    bindingIds (write_children_dirs s none idx2) =
      indexIds s.root_children_files ++ (indexIds idx2 ++
        (s.dir_arena.map (fun kv => dirBindings kv.value)).flatten) := by
  simp [bindingIds, bindingSegments, write_children_dirs]

theorem write_files_some_arena {s : WalrusfsState} {q : Nat} {rec : DirObjectAnchor}
    {t1 t2 : List KeyValueU64DirObject}
    (hsplit : s.dir_arena = t1 ++ ⟨q, rec⟩ :: t2)
    (hnotin : q ∉ t1.map (fun kv => kv.key)) (idx2 : List KeyValueStringU64) :
    (write_children_files s (some q) idx2).dir_arena =
      t1 ++ ⟨q, { rec with children_files := idx2 }⟩ :: t2 := by
  show assoc_modify s.dir_arena q _ = _
  rw [hsplit, assoc_modify_decomp hnotin]

theorem write_dirs_some_arena {s : WalrusfsState} {q : Nat} {rec : DirObjectAnchor}
    {t1 t2 : List KeyValueU64DirObject}
    (hsplit : s.dir_arena = t1 ++ ⟨q, rec⟩ :: t2)
    (hnotin : q ∉ t1.map (fun kv => kv.key)) (idx2 : List KeyValueStringU64) :
    (write_children_dirs s (some q) idx2).dir_arena =
      t1 ++ ⟨q, { rec with children_directories := idx2 }⟩ :: t2 := by
  show assoc_modify s.dir_arena q _ = _
  rw [hsplit, assoc_modify_decomp hnotin]

theorem bindingIds_write_files_some {s : WalrusfsState} {q : Nat} {rec : DirObjectAnchor}
    {t1 t2 : List KeyValueU64DirObject}
    (hsplit : s.dir_arena = t1 ++ ⟨q, rec⟩ :: t2)
    (hnotin : q ∉ t1.map (fun kv => kv.key)) (idx2 : List KeyValueStringU64) :
    bindingIds (write_children_files s (some q) idx2) =
      indexIds s.root_children_files ++
      (indexIds s.root_children_directories ++
        ((t1.map (fun kv => dirBindings kv.value)).flatten ++
          ((indexIds idx2 ++ indexIds rec.children_directories) ++
            (t2.map (fun kv => dirBindings kv.value)).flatten))) := by
  rw [bindingIds, bindingSegments, write_files_some_arena hsplit hnotin idx2]
  simp [dirBindings, List.map_append, write_children_files]

theorem bindingIds_write_dirs_some {s : WalrusfsState} {q : Nat} {rec : DirObjectAnchor}
    {t1 t2 : List KeyValueU64DirObject}
    (hsplit : s.dir_arena = t1 ++ ⟨q, rec⟩ :: t2)
    (hnotin : q ∉ t1.map (fun kv => kv.key)) (idx2 : List KeyValueStringU64) :
    bindingIds (write_children_dirs s (some q) idx2) =
      indexIds s.root_children_files ++
      (indexIds s.root_children_directories ++
        ((t1.map (fun kv => dirBindings kv.value)).flatten ++
          ((indexIds rec.children_files ++ indexIds idx2) ++
            (t2.map (fun kv => dirBindings kv.value)).flatten))) := by
  rw [bindingIds, bindingSegments, write_dirs_some_arena hsplit hnotin idx2]
  simp [dirBindings, List.map_append, write_children_dirs]

/-- The initialized namespace satisfies the full invariant. -/
theorem inv_initial : Inv initial_state := by
  refine ⟨?_, ?_, ?_⟩
  · unfold TreeShape
    decide
  · unfold CounterDom
    decide
  · unfold ArenaConsistent
    decide

/-- A successful `rename_file` preserves the full invariant. -/
theorem preserve_rename_file {s s' : WalrusfsState} {fp tp : String}
    {ev : List WalrusFsEvent} (hinv : Inv s)
    (h : rename_file s fp tp = ⟨s', ev, Except.ok ()⟩) : Inv s' := by
  obtain ⟨hts, hcd, hac⟩ := hinv
  obtain ⟨htsF, htsD, htsRF, htsRD, htsIdx, htsBind, htsInc⟩ := hts
  obtain ⟨p, nf, nt, id, idx, hr1, hr2, hfetch, hget, hcont, hev, hs'⟩ := rename_file_ok_inv h
  have hcont2 : assoc_contains idx nt = false := hcont
  have hnt : nt ∉ idx.map (fun kv => kv.key) := by
    intro hm
    rw [assoc_contains_iff.mpr hm] at hcont2
    exact Bool.noConfusion hcont2
  obtain ⟨l1, l2, hsplit, hnotin⟩ := assoc_get_eq_some_iff.mp hget
  have hrm : (remove_from_vec_str_key idx nf).1 = l1 ++ l2 := by
    show (assoc_remove idx nf).1 = l1 ++ l2
    rw [hsplit, assoc_remove_decomp hnotin]
  have hnt2 : nt ∉ (l1 ++ l2).map (fun kv => kv.key) := by
    intro hm
    apply hnt
    rw [hsplit]
    simp only [List.map_append, List.map_cons, List.mem_append, List.mem_cons] at hm ⊢
    tauto
  have hNI : (insert_into_vec_str_key (remove_from_vec_str_key idx nf).1 nt id).1 =
      (l1 ++ l2) ++ [⟨nt, id⟩] := by
    rw [hrm]
    show (assoc_insert (l1 ++ l2) nt id).1 = _
    rw [assoc_insert_of_not_mem hnt2]
  have hnames : (idx.map (fun kv => kv.key)).Nodup →
      (((l1 ++ l2) ++ [(⟨nt, id⟩ : KeyValueStringU64)]).map (fun kv => kv.key)).Nodup := by
    intro hnd
    rw [hsplit] at hnd
    simp only [List.map_append, List.map_cons, List.map_nil, List.append_assoc] at hnd ⊢
    rw [List.nodup_middle, List.nodup_cons] at hnd
    obtain ⟨hnf2, hrest⟩ := hnd
    simp only [List.map_append] at hnt2
    have h2 : List.Perm (l2.map (fun kv => kv.key) ++ [nt])
        (nt :: l2.map (fun kv => kv.key)) := List.perm_append_comm
    have hp := perm_bubble (C := l1.map (fun kv => kv.key)) h2
    exact hp.nodup_iff.mpr (List.nodup_cons.mpr ⟨hnt2, hrest⟩)
  have hidsNI : indexIds ((l1 ++ l2) ++ [(⟨nt, id⟩ : KeyValueStringU64)]) =
      indexIds l1 ++ (indexIds l2 ++ [id]) := by
    simp [indexIds]
  have hidsIdx : indexIds idx = indexIds l1 ++ (id :: indexIds l2) := by
    rw [hsplit]
    simp [indexIds]
  have hidsSub : ∀ i, i ∈ indexIds ((l1 ++ l2) ++ [(⟨nt, id⟩ : KeyValueStringU64)]) →
      i ∈ indexIds idx := by
    intro i hi
    rw [hidsNI] at hi
    rw [hidsIdx]
    simp only [List.mem_append, List.mem_cons, List.mem_singleton,
      List.not_mem_nil, or_false] at hi ⊢
    tauto
  have hidsPerm : List.Perm (indexIds ((l1 ++ l2) ++ [(⟨nt, id⟩ : KeyValueStringU64)]))
      (indexIds idx) := by
    rw [hidsNI, hidsIdx]
    have h2 : List.Perm (indexIds l2 ++ [id]) (id :: indexIds l2) := List.perm_append_comm
    exact h2.append_left _
  cases p with
  | none =>
    have hidx : idx = s.root_children_files := by
      have h0 : fetch_children_files s none = Except.ok s.root_children_files := rfl
      rw [h0] at hfetch
      exact (Except.ok.inj hfetch).symm
    have hs'R : s'.root_children_files = (l1 ++ l2) ++ [⟨nt, id⟩] := by
      rw [hs']
      show (insert_into_vec_str_key (remove_from_vec_str_key idx nf).1 nt id).1 =
        (l1 ++ l2) ++ [⟨nt, id⟩]
      exact hNI
    have hs'D : s'.root_children_directories = s.root_children_directories := by
      rw [hs']
      rfl
    have hs'fa : s'.file_arena = s.file_arena := by
      rw [hs']
      rfl
    have hs'da : s'.dir_arena = s.dir_arena := by
      rw [hs']
      rfl
    have hs'c : s'.obj_id_counter = s.obj_id_counter := by
      rw [hs']
      rfl
    have hbind' : bindingIds s' =
        indexIds ((l1 ++ l2) ++ [(⟨nt, id⟩ : KeyValueStringU64)]) ++
        (indexIds s.root_children_directories ++
          (s.dir_arena.map (fun kv => dirBindings kv.value)).flatten) := by
      rw [hs', bindingIds_write_files_none, hNI]
    have hbindS : bindingIds s = indexIds idx ++
        (indexIds s.root_children_directories ++
          (s.dir_arena.map (fun kv => dirBindings kv.value)).flatten) := by
      have h0 : bindingIds s = indexIds s.root_children_files ++
          (indexIds s.root_children_directories ++
            (s.dir_arena.map (fun kv => dirBindings kv.value)).flatten) := by
        simp [bindingIds, bindingSegments]
      rw [h0, ← hidx]
    have hperm : List.Perm (bindingIds s') (bindingIds s) := by
      rw [hbind', hbindS]
      exact hidsPerm.append_right _
    refine ⟨⟨?_, ?_, ?_, ?_, ?_, ?_, ?_⟩, ?_, ?_⟩
    · unfold fileKeys
      rw [hs'fa]
      exact htsF
    · unfold dirKeys
      rw [hs'da]
      exact htsD
    · unfold indexKeys
      rw [hs'R]
      exact hnames (by rw [hidx]; exact htsRF)
    · unfold indexKeys
      rw [hs'D]
      exact htsRD
    · intro kv hkv
      rw [hs'da] at hkv
      exact htsIdx kv hkv
    · exact hperm.nodup_iff.mpr htsBind
    · intro kv hkv
      rw [hs'da] at hkv
      exact htsInc kv hkv
    · refine counter_dom_transfer hcd hs'c ?_ ?_ ?_
      · intro i hi
        exact hperm.mem_iff.mp hi
      · intro i hi
        unfold fileKeys at hi ⊢
        rw [hs'fa] at hi
        exact hi
      · intro i hi
        unfold dirKeys at hi ⊢
        rw [hs'da] at hi
        exact hi
    · refine arena_consistent_transfer hac ?_ ?_ ?_ ?_
      · intro i hi
        rcases FileIdsBound_mem.mp hi with h1 | ⟨kv, hkv, hz⟩
        · rw [hs'R] at h1
          refine FileIdsBound_mem.mpr (Or.inl ?_)
          rw [← hidx]
          exact hidsSub i h1
        · rw [hs'da] at hkv
          exact FileIdsBound_mem.mpr (Or.inr ⟨kv, hkv, hz⟩)
      · intro i hi
        rcases DirIdsBound_mem.mp hi with h1 | ⟨kv, hkv, hz⟩
        · rw [hs'D] at h1
          exact DirIdsBound_mem.mpr (Or.inl h1)
        · rw [hs'da] at hkv
          exact DirIdsBound_mem.mpr (Or.inr ⟨kv, hkv, hz⟩)
      · intro i
        rw [hs'fa]
      · intro i
        rw [hs'da]
  | some q =>
    obtain ⟨rec, hgrec, hchil⟩ := fetch_children_files_some_inv hfetch
    have hgrec2 : assoc_get s.dir_arena q = some rec := hgrec
    obtain ⟨t1, t2, harena, hqnot⟩ := assoc_get_eq_some_iff.mp hgrec2
    have hqmem : (⟨q, rec⟩ : KeyValueU64DirObject) ∈ s.dir_arena := assoc_get_mem hgrec2
    have hmem_t1 : ∀ kv ∈ t1, kv ∈ s.dir_arena := by
      intro kv h1
      rw [harena]
      exact List.mem_append.mpr (Or.inl h1)
    have hmem_t2 : ∀ kv ∈ t2, kv ∈ s.dir_arena := by
      intro kv h2
      rw [harena]
      exact List.mem_append.mpr (Or.inr (List.mem_cons.mpr (Or.inr h2)))
    have harena' : s'.dir_arena = t1 ++ ⟨q, { rec with children_files :=
        (l1 ++ l2) ++ [⟨nt, id⟩] }⟩ :: t2 := by
      rw [hs', write_files_some_arena harena hqnot _, hNI]
    have hs'R : s'.root_children_files = s.root_children_files := by
      rw [hs']
      rfl
    have hs'D : s'.root_children_directories = s.root_children_directories := by
      rw [hs']
      rfl
    have hs'fa : s'.file_arena = s.file_arena := by
      rw [hs']
      rfl
    have hs'c : s'.obj_id_counter = s.obj_id_counter := by
      rw [hs']
      rfl
    have hkeys' : s'.dir_arena.map (fun kv => kv.key) =
        s.dir_arena.map (fun kv => kv.key) := by
      rw [hs']
      exact write_children_files_arena_keys s (some q) _
    have hperm : List.Perm (bindingIds s') (bindingIds s) := by
      rw [hs', bindingIds_write_files_some harena hqnot _, hNI,
        bindingIds_split harena, hchil]
      exact ((((hidsPerm.append_right _).append_right _).append_left _).append_left
        _).append_left _
    refine ⟨⟨?_, ?_, ?_, ?_, ?_, ?_, ?_⟩, ?_, ?_⟩
    · unfold fileKeys
      rw [hs'fa]
      exact htsF
    · unfold dirKeys
      rw [hkeys']
      exact htsD
    · unfold indexKeys
      rw [hs'R]
      exact htsRF
    · unfold indexKeys
      rw [hs'D]
      exact htsRD
    · intro kv hkv
      rw [harena'] at hkv
      rcases List.mem_append.mp hkv with h1 | h1
      · exact htsIdx kv (hmem_t1 kv h1)
      · rcases List.mem_cons.mp h1 with rfl | h2
        · constructor
          · show (((l1 ++ l2) ++
              [(⟨nt, id⟩ : KeyValueStringU64)]).map (fun kv => kv.key)).Nodup
            refine hnames ?_
            have h3 := (htsIdx _ hqmem).1
            rw [hchil] at h3
            exact h3
          · show (indexKeys rec.children_directories).Nodup
            exact (htsIdx _ hqmem).2
        · exact htsIdx kv (hmem_t2 kv h2)
    · exact hperm.nodup_iff.mpr htsBind
    · intro kv hkv
      rw [harena'] at hkv
      rcases List.mem_append.mp hkv with h1 | h1
      · exact htsInc kv (hmem_t1 kv h1)
      · rcases List.mem_cons.mp h1 with rfl | h2
        · intro e he
          show q < e
          exact htsInc _ hqmem e he
        · exact htsInc kv (hmem_t2 kv h2)
    · refine counter_dom_transfer hcd hs'c ?_ ?_ ?_
      · intro i hi
        exact hperm.mem_iff.mp hi
      · intro i hi
        unfold fileKeys at hi ⊢
        rw [hs'fa] at hi
        exact hi
      · intro i hi
        unfold dirKeys at hi ⊢
        rw [hkeys'] at hi
        exact hi
    · refine arena_consistent_transfer hac ?_ ?_ ?_ ?_
      · intro i hi
        rcases FileIdsBound_mem.mp hi with h1 | ⟨kv, hkv, hz⟩
        · rw [hs'R] at h1
          exact FileIdsBound_mem.mpr (Or.inl h1)
        · rw [harena'] at hkv
          rcases List.mem_append.mp hkv with h1 | h1
          · exact FileIdsBound_mem.mpr (Or.inr ⟨kv, hmem_t1 kv h1, hz⟩)
          · rcases List.mem_cons.mp h1 with rfl | h2
            · have hz2 : i ∈ indexIds ((l1 ++ l2) ++
                  [(⟨nt, id⟩ : KeyValueStringU64)]) := hz
              have hz3 := hidsSub i hz2
              rw [← hchil] at hz3
              exact FileIdsBound_mem.mpr (Or.inr ⟨⟨q, rec⟩, hqmem, hz3⟩)
            · exact FileIdsBound_mem.mpr (Or.inr ⟨kv, hmem_t2 kv h2, hz⟩)
      · intro i hi
        rcases DirIdsBound_mem.mp hi with h1 | ⟨kv, hkv, hz⟩
        · rw [hs'D] at h1
          exact DirIdsBound_mem.mpr (Or.inl h1)
        · rw [harena'] at hkv
          rcases List.mem_append.mp hkv with h1 | h1
          · exact DirIdsBound_mem.mpr (Or.inr ⟨kv, hmem_t1 kv h1, hz⟩)
          · rcases List.mem_cons.mp h1 with rfl | h2
            · have hz2 : i ∈ indexIds rec.children_directories := hz
              exact DirIdsBound_mem.mpr (Or.inr ⟨⟨q, rec⟩, hqmem, hz2⟩)
            · exact DirIdsBound_mem.mpr (Or.inr ⟨kv, hmem_t2 kv h2, hz⟩)
      · intro i
        rw [hs'fa]
      · intro i
        rw [hs']
        exact write_children_files_get_isSome s (some q) _ i

/-- A successful `rename_dir` preserves the full invariant. -/
theorem preserve_rename_dir {s s' : WalrusfsState} {fp tp : String}
    {ev : List WalrusFsEvent} (hinv : Inv s)
    (h : rename_dir s fp tp = ⟨s', ev, Except.ok ()⟩) : Inv s' := by
  obtain ⟨hts, hcd, hac⟩ := hinv
  obtain ⟨htsF, htsD, htsRF, htsRD, htsIdx, htsBind, htsInc⟩ := hts
  obtain ⟨p, nf, nt, id, idx, hr1, hr2, hfetch, hget, hcont, hev, hs'⟩ := rename_dir_ok_inv h
  have hcont2 : assoc_contains idx nt = false := hcont
  have hnt : nt ∉ idx.map (fun kv => kv.key) := by
    intro hm
    rw [assoc_contains_iff.mpr hm] at hcont2
    exact Bool.noConfusion hcont2
  obtain ⟨l1, l2, hsplit, hnotin⟩ := assoc_get_eq_some_iff.mp hget
  have hrm : (remove_from_vec_str_key idx nf).1 = l1 ++ l2 := by
    show (assoc_remove idx nf).1 = l1 ++ l2
    rw [hsplit, assoc_remove_decomp hnotin]
  have hnt2 : nt ∉ (l1 ++ l2).map (fun kv => kv.key) := by
    intro hm
    apply hnt
    rw [hsplit]
    simp only [List.map_append, List.map_cons, List.mem_append, List.mem_cons] at hm ⊢
    tauto
  have hNI : (insert_into_vec_str_key (remove_from_vec_str_key idx nf).1 nt id).1 =
      (l1 ++ l2) ++ [⟨nt, id⟩] := by
    rw [hrm]
    show (assoc_insert (l1 ++ l2) nt id).1 = _
    rw [assoc_insert_of_not_mem hnt2]
  have hnames : (idx.map (fun kv => kv.key)).Nodup →
      (((l1 ++ l2) ++ [(⟨nt, id⟩ : KeyValueStringU64)]).map (fun kv => kv.key)).Nodup := by
    intro hnd
    rw [hsplit] at hnd
    simp only [List.map_append, List.map_cons, List.map_nil, List.append_assoc] at hnd ⊢
    rw [List.nodup_middle, List.nodup_cons] at hnd
    obtain ⟨hnf2, hrest⟩ := hnd
    simp only [List.map_append] at hnt2
    have h2 : List.Perm (l2.map (fun kv => kv.key) ++ [nt])
        (nt :: l2.map (fun kv => kv.key)) := List.perm_append_comm
    have hp := perm_bubble (C := l1.map (fun kv => kv.key)) h2
    exact hp.nodup_iff.mpr (List.nodup_cons.mpr ⟨hnt2, hrest⟩)
  have hidsNI : indexIds ((l1 ++ l2) ++ [(⟨nt, id⟩ : KeyValueStringU64)]) =
      indexIds l1 ++ (indexIds l2 ++ [id]) := by
    simp [indexIds]
  have hidsIdx : indexIds idx = indexIds l1 ++ (id :: indexIds l2) := by
    rw [hsplit]
    simp [indexIds]
  have hidsSub : ∀ i, i ∈ indexIds ((l1 ++ l2) ++ [(⟨nt, id⟩ : KeyValueStringU64)]) →
      i ∈ indexIds idx := by
    intro i hi
    rw [hidsNI] at hi
    rw [hidsIdx]
    simp only [List.mem_append, List.mem_cons, List.mem_singleton,
      List.not_mem_nil, or_false] at hi ⊢
    tauto
  have hidsPerm : List.Perm (indexIds ((l1 ++ l2) ++ [(⟨nt, id⟩ : KeyValueStringU64)]))
      (indexIds idx) := by
    rw [hidsNI, hidsIdx]
    have h2 : List.Perm (indexIds l2 ++ [id]) (id :: indexIds l2) := List.perm_append_comm
    exact h2.append_left _
  cases p with
  | none =>
    have hidx : idx = s.root_children_directories := by
      have h0 : fetch_children_dirs s none = Except.ok s.root_children_directories := rfl
      rw [h0] at hfetch
      exact (Except.ok.inj hfetch).symm
    have hs'R : s'.root_children_files = s.root_children_files := by
      rw [hs']
      rfl
    have hs'D : s'.root_children_directories = (l1 ++ l2) ++ [⟨nt, id⟩] := by
      rw [hs']
      show (insert_into_vec_str_key (remove_from_vec_str_key idx nf).1 nt id).1 =
        (l1 ++ l2) ++ [⟨nt, id⟩]
      exact hNI
    have hs'fa : s'.file_arena = s.file_arena := by
      rw [hs']
      rfl
    have hs'da : s'.dir_arena = s.dir_arena := by
      rw [hs']
      rfl
    have hs'c : s'.obj_id_counter = s.obj_id_counter := by
      rw [hs']
      rfl
    have hbind' : bindingIds s' = indexIds s.root_children_files ++
        (indexIds ((l1 ++ l2) ++ [(⟨nt, id⟩ : KeyValueStringU64)]) ++
          (s.dir_arena.map (fun kv => dirBindings kv.value)).flatten) := by
      rw [hs', bindingIds_write_dirs_none, hNI]
    have hbindS : bindingIds s = indexIds s.root_children_files ++
        (indexIds idx ++
          (s.dir_arena.map (fun kv => dirBindings kv.value)).flatten) := by
      have h0 : bindingIds s = indexIds s.root_children_files ++
          (indexIds s.root_children_directories ++
            (s.dir_arena.map (fun kv => dirBindings kv.value)).flatten) := by
        simp [bindingIds, bindingSegments]
      rw [h0, ← hidx]
    have hperm : List.Perm (bindingIds s') (bindingIds s) := by
      rw [hbind', hbindS]
      exact (hidsPerm.append_right _).append_left _
    refine ⟨⟨?_, ?_, ?_, ?_, ?_, ?_, ?_⟩, ?_, ?_⟩
    · unfold fileKeys
      rw [hs'fa]
      exact htsF
    · unfold dirKeys
      rw [hs'da]
      exact htsD
    · unfold indexKeys
      rw [hs'R]
      exact htsRF
    · unfold indexKeys
      rw [hs'D]
      exact hnames (by rw [hidx]; exact htsRD)
    · intro kv hkv
      rw [hs'da] at hkv
      exact htsIdx kv hkv
    · exact hperm.nodup_iff.mpr htsBind
    · intro kv hkv
      rw [hs'da] at hkv
      exact htsInc kv hkv
    · refine counter_dom_transfer hcd hs'c ?_ ?_ ?_
      · intro i hi
        exact hperm.mem_iff.mp hi
      · intro i hi
        unfold fileKeys at hi ⊢
        rw [hs'fa] at hi
        exact hi
      · intro i hi
        unfold dirKeys at hi ⊢
        rw [hs'da] at hi
        exact hi
    · refine arena_consistent_transfer hac ?_ ?_ ?_ ?_
      · intro i hi
        rcases FileIdsBound_mem.mp hi with h1 | ⟨kv, hkv, hz⟩
        · rw [hs'R] at h1
          exact FileIdsBound_mem.mpr (Or.inl h1)
        · rw [hs'da] at hkv
          exact FileIdsBound_mem.mpr (Or.inr ⟨kv, hkv, hz⟩)
      · intro i hi
        rcases DirIdsBound_mem.mp hi with h1 | ⟨kv, hkv, hz⟩
        · rw [hs'D] at h1
          refine DirIdsBound_mem.mpr (Or.inl ?_)
          rw [← hidx]
          exact hidsSub i h1
        · rw [hs'da] at hkv
          exact DirIdsBound_mem.mpr (Or.inr ⟨kv, hkv, hz⟩)
      · intro i
        rw [hs'fa]
      · intro i
        rw [hs'da]
  | some q =>
    obtain ⟨rec, hgrec, hchil⟩ := fetch_children_dirs_some_inv hfetch
    have hgrec2 : assoc_get s.dir_arena q = some rec := hgrec
    obtain ⟨t1, t2, harena, hqnot⟩ := assoc_get_eq_some_iff.mp hgrec2
    have hqmem : (⟨q, rec⟩ : KeyValueU64DirObject) ∈ s.dir_arena := assoc_get_mem hgrec2
    have hmem_t1 : ∀ kv ∈ t1, kv ∈ s.dir_arena := by
      intro kv h1
      rw [harena]
      exact List.mem_append.mpr (Or.inl h1)
    have hmem_t2 : ∀ kv ∈ t2, kv ∈ s.dir_arena := by
      intro kv h2
      rw [harena]
      exact List.mem_append.mpr (Or.inr (List.mem_cons.mpr (Or.inr h2)))
    have harena' : s'.dir_arena = t1 ++ ⟨q, { rec with children_directories :=
        (l1 ++ l2) ++ [⟨nt, id⟩] }⟩ :: t2 := by
      rw [hs', write_dirs_some_arena harena hqnot _, hNI]
    have hs'R : s'.root_children_files = s.root_children_files := by
      rw [hs']
      rfl
    have hs'D : s'.root_children_directories = s.root_children_directories := by
      rw [hs']
      rfl
    have hs'fa : s'.file_arena = s.file_arena := by
      rw [hs']
      rfl
    have hs'c : s'.obj_id_counter = s.obj_id_counter := by
      rw [hs']
      rfl
    have hkeys' : s'.dir_arena.map (fun kv => kv.key) =
        s.dir_arena.map (fun kv => kv.key) := by
      rw [hs']
      exact write_children_dirs_arena_keys s (some q) _
    have hperm : List.Perm (bindingIds s') (bindingIds s) := by
      rw [hs', bindingIds_write_dirs_some harena hqnot _, hNI,
        bindingIds_split harena, hchil]
      exact ((((hidsPerm.append_left _).append_right _).append_left _).append_left
        _).append_left _
    refine ⟨⟨?_, ?_, ?_, ?_, ?_, ?_, ?_⟩, ?_, ?_⟩
    · unfold fileKeys
      rw [hs'fa]
      exact htsF
    · unfold dirKeys
      rw [hkeys']
      exact htsD
    · unfold indexKeys
      rw [hs'R]
      exact htsRF
    · unfold indexKeys
      rw [hs'D]
      exact htsRD
    · intro kv hkv
      rw [harena'] at hkv
      rcases List.mem_append.mp hkv with h1 | h1
      · exact htsIdx kv (hmem_t1 kv h1)
      · rcases List.mem_cons.mp h1 with rfl | h2
        · constructor
          · show (indexKeys rec.children_files).Nodup
            exact (htsIdx _ hqmem).1
          · show (((l1 ++ l2) ++
              [(⟨nt, id⟩ : KeyValueStringU64)]).map (fun kv => kv.key)).Nodup
            refine hnames ?_
            have h3 := (htsIdx _ hqmem).2
            rw [hchil] at h3
            exact h3
        · exact htsIdx kv (hmem_t2 kv h2)
    · exact hperm.nodup_iff.mpr htsBind
    · intro kv hkv
      rw [harena'] at hkv
      rcases List.mem_append.mp hkv with h1 | h1
      · exact htsInc kv (hmem_t1 kv h1)
      · rcases List.mem_cons.mp h1 with rfl | h2
        · intro e he
          show q < e
          have he2 : e ∈ indexIds ((l1 ++ l2) ++ [(⟨nt, id⟩ : KeyValueStringU64)]) := he
          have he3 := hidsSub e he2
          rw [← hchil] at he3
          exact htsInc _ hqmem e he3
        · exact htsInc kv (hmem_t2 kv h2)
    · refine counter_dom_transfer hcd hs'c ?_ ?_ ?_
      · intro i hi
        exact hperm.mem_iff.mp hi
      · intro i hi
        unfold fileKeys at hi ⊢
        rw [hs'fa] at hi
        exact hi
      · intro i hi
        unfold dirKeys at hi ⊢
        rw [hkeys'] at hi
        exact hi
    · refine arena_consistent_transfer hac ?_ ?_ ?_ ?_
      · intro i hi
        rcases FileIdsBound_mem.mp hi with h1 | ⟨kv, hkv, hz⟩
        · rw [hs'R] at h1
          exact FileIdsBound_mem.mpr (Or.inl h1)
        · rw [harena'] at hkv
          rcases List.mem_append.mp hkv with h1 | h1
          · exact FileIdsBound_mem.mpr (Or.inr ⟨kv, hmem_t1 kv h1, hz⟩)
          · rcases List.mem_cons.mp h1 with rfl | h2
            · have hz2 : i ∈ indexIds rec.children_files := hz
              exact FileIdsBound_mem.mpr (Or.inr ⟨⟨q, rec⟩, hqmem, hz2⟩)
            · exact FileIdsBound_mem.mpr (Or.inr ⟨kv, hmem_t2 kv h2, hz⟩)
      · intro i hi
        rcases DirIdsBound_mem.mp hi with h1 | ⟨kv, hkv, hz⟩
        · rw [hs'D] at h1
          exact DirIdsBound_mem.mpr (Or.inl h1)
        · rw [harena'] at hkv
          rcases List.mem_append.mp hkv with h1 | h1
          · exact DirIdsBound_mem.mpr (Or.inr ⟨kv, hmem_t1 kv h1, hz⟩)
          · rcases List.mem_cons.mp h1 with rfl | h2
            · have hz2 : i ∈ indexIds ((l1 ++ l2) ++
                  [(⟨nt, id⟩ : KeyValueStringU64)]) := hz
              have hz3 := hidsSub i hz2
              rw [← hchil] at hz3
              exact DirIdsBound_mem.mpr (Or.inr ⟨⟨q, rec⟩, hqmem, hz3⟩)
            · exact DirIdsBound_mem.mpr (Or.inr ⟨kv, hmem_t2 kv h2, hz⟩)
      · intro i
        rw [hs'fa]
      · intro i
        rw [hs']
        exact write_children_dirs_get_isSome s (some q) _ i

/-- A successful `delete_file` preserves the full invariant. -/
theorem preserve_delete_file {s s' : WalrusfsState} {pth : String}
    {ev : List WalrusFsEvent} (hinv : Inv s)
    (h : delete_file s pth = ⟨s', ev, Except.ok ()⟩) : Inv s' := by
  obtain ⟨hts, hcd, hac⟩ := hinv
  obtain ⟨htsF, htsD, htsRF, htsRD, htsIdx, htsBind, htsInc⟩ := hts
  obtain ⟨p, fn, idx, fid, f, hv1, hres, hfetch, hget, hgetf, hev, hs'⟩ := delete_file_ok_inv h
  obtain ⟨l1, l2, hsplit, hnotin⟩ := assoc_get_eq_some_iff.mp hget
  have hrm : (remove_from_vec_str_key idx fn).1 = l1 ++ l2 := by
    show (assoc_remove idx fn).1 = l1 ++ l2
    rw [hsplit, assoc_remove_decomp hnotin]
  have hsubidx : List.Sublist (l1 ++ l2) idx := by
    rw [hsplit]
    exact (List.sublist_cons_self _ _).append_left l1
  have hidmem : fid ∈ indexIds idx := assoc_get_value_mem_indexIds hget
  have hs'fa : s'.file_arena = (assoc_remove s.file_arena fid).1 := by
    rw [hs']
    rfl
  have hs'c : s'.obj_id_counter = s.obj_id_counter := by
    rw [hs']
    show (write_children_files s p (remove_from_vec_str_key idx fn).1).obj_id_counter = _
    exact write_children_files_counter s p _
  have hbindeq : bindingIds s' =
      bindingIds (write_children_files s p (remove_from_vec_str_key idx fn).1) := by
    rw [hs']
    rfl
  have hfileKeys2 : List.Sublist (fileKeys s') (fileKeys s) := by
    unfold fileKeys
    rw [hs'fa]
    exact assoc_remove_sublist.map _
  cases p with
  | none =>
    have hidx : idx = s.root_children_files := by
      have h0 : fetch_children_files s none = Except.ok s.root_children_files := rfl
      rw [h0] at hfetch
      exact (Except.ok.inj hfetch).symm
    have hs'R : s'.root_children_files = l1 ++ l2 := by
      rw [hs']
      show (remove_from_vec_str_key idx fn).1 = l1 ++ l2
      exact hrm
    have hs'D : s'.root_children_directories = s.root_children_directories := by
      rw [hs']
      rfl
    have hs'da : s'.dir_arena = s.dir_arena := by
      rw [hs']
      rfl
    have hoccr : fid ∈ indexIds s.root_children_files := by
      rw [← hidx]
      exact hidmem
    obtain ⟨hnotD, hnotA, hndIdsRF⟩ := binding_elsewhere_root_files htsBind hoccr
    have hfidnot : ∀ i, i ∈ FileIdsBound s' → i ≠ fid := by
      intro i hi hieq
      subst hieq
      rcases FileIdsBound_mem.mp hi with h1 | ⟨kv, hkv, hz⟩
      · rw [hs'R] at h1
        have hndids : (indexIds idx).Nodup := by
          rw [hidx]
          exact hndIdsRF
        rw [hsplit] at hndids
        simp only [indexIds, List.map_append, List.map_cons] at hndids h1
        rw [List.nodup_middle, List.nodup_cons] at hndids
        exact hndids.1 h1
      · rw [hs'da] at hkv
        exact hnotA kv hkv (List.mem_append.mpr (Or.inl hz))
    have hbind2 : bindingIds s' = indexIds (l1 ++ l2) ++
        (indexIds s.root_children_directories ++
          (s.dir_arena.map (fun kv => dirBindings kv.value)).flatten) := by
      rw [hbindeq, bindingIds_write_files_none, hrm]
    have hbindS : bindingIds s = indexIds idx ++
        (indexIds s.root_children_directories ++
          (s.dir_arena.map (fun kv => dirBindings kv.value)).flatten) := by
      have h0 : bindingIds s = indexIds s.root_children_files ++
          (indexIds s.root_children_directories ++
            (s.dir_arena.map (fun kv => dirBindings kv.value)).flatten) := by
        simp [bindingIds, bindingSegments]
      rw [h0, ← hidx]
    have hbindsub : List.Sublist (bindingIds s') (bindingIds s) := by
      rw [hbind2, hbindS]
      exact (hsubidx.map _).append_right _
    refine ⟨⟨?_, ?_, ?_, ?_, ?_, ?_, ?_⟩, ?_, ?_⟩
    · exact htsF.sublist hfileKeys2
    · unfold dirKeys
      rw [hs'da]
      exact htsD
    · unfold indexKeys
      rw [hs'R]
      refine htsRF.sublist ?_
      have h2 := hsubidx.map (fun kv => kv.key)
      rw [hidx] at h2
      exact h2
    · unfold indexKeys
      rw [hs'D]
      exact htsRD
    · intro kv hkv
      rw [hs'da] at hkv
      exact htsIdx kv hkv
    · exact htsBind.sublist hbindsub
    · intro kv hkv
      rw [hs'da] at hkv
      exact htsInc kv hkv
    · refine counter_dom_transfer hcd hs'c ?_ ?_ ?_
      · intro i hi
        exact hbindsub.subset hi
      · intro i hi
        exact hfileKeys2.subset hi
      · intro i hi
        unfold dirKeys at hi ⊢
        rw [hs'da] at hi
        exact hi
    · constructor
      · intro i hi
        have hine := hfidnot i hi
        have hiS : i ∈ FileIdsBound s := by
          rcases FileIdsBound_mem.mp hi with h1 | ⟨kv, hkv, hz⟩
          · rw [hs'R] at h1
            refine FileIdsBound_mem.mpr (Or.inl ?_)
            rw [← hidx]
            exact (hsubidx.map _).subset h1
          · rw [hs'da] at hkv
            exact FileIdsBound_mem.mpr (Or.inr ⟨kv, hkv, hz⟩)
        have h2 := hac.1 i hiS
        rw [hs'fa]
        show (assoc_get (assoc_remove s.file_arena fid).1 i).isSome = true
        rw [assoc_get_remove_ne hine]
        exact h2
      · intro i hi
        have hiS : i ∈ DirIdsBound s := by
          rcases DirIdsBound_mem.mp hi with h1 | ⟨kv, hkv, hz⟩
          · rw [hs'D] at h1
            exact DirIdsBound_mem.mpr (Or.inl h1)
          · rw [hs'da] at hkv
            exact DirIdsBound_mem.mpr (Or.inr ⟨kv, hkv, hz⟩)
        have h2 := hac.2 i hiS
        rw [hs'da]
        exact h2
  | some q =>
    obtain ⟨rec, hgrec, hchil⟩ := fetch_children_files_some_inv hfetch
    have hgrec2 : assoc_get s.dir_arena q = some rec := hgrec
    obtain ⟨t1, t2, harena, hqnot⟩ := assoc_get_eq_some_iff.mp hgrec2
    have hqmem : (⟨q, rec⟩ : KeyValueU64DirObject) ∈ s.dir_arena := assoc_get_mem hgrec2
    have hmem_t1 : ∀ kv ∈ t1, kv ∈ s.dir_arena := by
      intro kv h1
      rw [harena]
      exact List.mem_append.mpr (Or.inl h1)
    have hmem_t2 : ∀ kv ∈ t2, kv ∈ s.dir_arena := by
      intro kv h2
      rw [harena]
      exact List.mem_append.mpr (Or.inr (List.mem_cons.mpr (Or.inr h2)))
    have harena' : s'.dir_arena = t1 ++ ⟨q, { rec with children_files := l1 ++ l2 }⟩ :: t2 := by
      rw [hs']
      show (write_children_files s (some q) (remove_from_vec_str_key idx fn).1).dir_arena = _
      rw [write_files_some_arena harena hqnot _, hrm]
    have hs'R : s'.root_children_files = s.root_children_files := by
      rw [hs']
      rfl
    have hs'D : s'.root_children_directories = s.root_children_directories := by
      rw [hs']
      rfl
    have hkeys2 : s'.dir_arena.map (fun kv => kv.key) =
        s.dir_arena.map (fun kv => kv.key) := by
      rw [hs']
      show (write_children_files s (some q)
        (remove_from_vec_str_key idx fn).1).dir_arena.map (fun kv => kv.key) = _
      exact write_children_files_arena_keys s (some q) _
    have hframe : ∀ i, (get_from_dir_arena s'.dir_arena i).isSome =
        (get_from_dir_arena s.dir_arena i).isSome := by
      intro i
      rw [hs']
      show (get_from_dir_arena (write_children_files s (some q)
        (remove_from_vec_str_key idx fn).1).dir_arena i).isSome = _
      exact write_children_files_get_isSome s (some q) _ i
    have hoccp : fid ∈ dirBindings rec := by
      refine List.mem_append.mpr (Or.inl ?_)
      rw [hchil]
      exact hidmem
    obtain ⟨hnotF, hnotD, hnotA⟩ := binding_elsewhere_arena htsBind hqmem hoccp
    have hsegnd : (dirBindings rec).Nodup := binding_segment_nodup htsBind hqmem
    have hnd2 : (s'.dir_arena.map (fun kv => kv.key)).Nodup := by
      rw [hkeys2]
      exact htsD
    have hgq2 : assoc_get s'.dir_arena q =
        some { rec with children_files := l1 ++ l2 } := by
      rw [hs']
      show assoc_get (assoc_modify s.dir_arena q
        (fun d => { d with children_files := (remove_from_vec_str_key idx fn).1 })) q = _
      rw [assoc_get_modify, if_pos rfl, hgrec2, hrm]
      rfl
    have hfidnot : ∀ i, i ∈ FileIdsBound s' → i ≠ fid := by
      intro i hi hieq
      subst hieq
      rcases FileIdsBound_mem.mp hi with h1 | ⟨kv2, hkv2, hz⟩
      · rw [hs'R] at h1
        exact hnotF h1
      · by_cases hkq : kv2.key = q
        · have h5 : assoc_get s'.dir_arena kv2.key = some kv2.value :=
            assoc_get_of_mem_nodup hnd2 hkv2
          rw [hkq, hgq2] at h5
          have hval : kv2.value = { rec with children_files := l1 ++ l2 } :=
            (Option.some.inj h5).symm
          rw [hval] at hz
          have hz2 : i ∈ indexIds (l1 ++ l2) := hz
          have hndF2 : (indexIds rec.children_files).Nodup := by
            have h6 : (indexIds rec.children_files ++
                indexIds rec.children_directories).Nodup := hsegnd
            rw [List.nodup_append] at h6
            exact h6.1
          rw [hchil, hsplit] at hndF2
          simp only [indexIds, List.map_append, List.map_cons] at hndF2 hz2
          rw [List.nodup_middle, List.nodup_cons] at hndF2
          exact hndF2.1 hz2
        · have hkv2A : kv2 ∈ assoc_modify s.dir_arena q
              (fun d => { d with children_files :=
                (remove_from_vec_str_key idx fn).1 }) := by
            rw [hs'] at hkv2
            exact hkv2
          rcases assoc_modify_mem hkv2A with hin | ⟨a, hgeta, rfl⟩
          · exact hnotA kv2 hin hkq (List.mem_append.mpr (Or.inl hz))
          · exact hkq rfl
    have hbindsub : List.Sublist (bindingIds s') (bindingIds s) := by
      rw [hbindeq, bindingIds_write_files_some harena hqnot _, hrm,
        bindingIds_split harena, hchil]
      exact ((((((hsubidx.map (fun kv => kv.value)).append
        (List.Sublist.refl _)).append (List.Sublist.refl _)).append_left
        _).append_left _).append_left _)
    refine ⟨⟨?_, ?_, ?_, ?_, ?_, ?_, ?_⟩, ?_, ?_⟩
    · exact htsF.sublist hfileKeys2
    · unfold dirKeys
      rw [hkeys2]
      exact htsD
    · unfold indexKeys
      rw [hs'R]
      exact htsRF
    · unfold indexKeys
      rw [hs'D]
      exact htsRD
    · intro kv hkv
      rw [harena'] at hkv
      rcases List.mem_append.mp hkv with h1 | h1
      · exact htsIdx kv (hmem_t1 kv h1)
      · rcases List.mem_cons.mp h1 with rfl | h2
        · constructor
          · show ((l1 ++ l2).map (fun kv => kv.key)).Nodup
            refine ((htsIdx _ hqmem).1).sublist ?_
            have h3 := hsubidx.map (fun kv => kv.key)
            rw [← hchil] at h3
            exact h3
          · show (indexKeys rec.children_directories).Nodup
            exact (htsIdx _ hqmem).2
        · exact htsIdx kv (hmem_t2 kv h2)
    · exact htsBind.sublist hbindsub
    · intro kv hkv
      rw [harena'] at hkv
      rcases List.mem_append.mp hkv with h1 | h1
      · exact htsInc kv (hmem_t1 kv h1)
      · rcases List.mem_cons.mp h1 with rfl | h2
        · intro e he
          show q < e
          exact htsInc _ hqmem e he
        · exact htsInc kv (hmem_t2 kv h2)
    · refine counter_dom_transfer hcd hs'c ?_ ?_ ?_
      · intro i hi
        exact hbindsub.subset hi
      · intro i hi
        exact hfileKeys2.subset hi
      · intro i hi
        unfold dirKeys at hi ⊢
        rw [hkeys2] at hi
        exact hi
    · constructor
      · intro i hi
        have hine := hfidnot i hi
        have hiS : i ∈ FileIdsBound s := by
          rcases FileIdsBound_mem.mp hi with h1 | ⟨kv2, hkv2, hz⟩
          · rw [hs'R] at h1
            exact FileIdsBound_mem.mpr (Or.inl h1)
          · rw [harena'] at hkv2
            rcases List.mem_append.mp hkv2 with h1 | h1
            · exact FileIdsBound_mem.mpr (Or.inr ⟨kv2, hmem_t1 kv2 h1, hz⟩)
            · rcases List.mem_cons.mp h1 with rfl | h2
              · have hz2 : i ∈ indexIds (l1 ++ l2) := hz
                have hz3 := (hsubidx.map (fun kv => kv.value)).subset hz2
                rw [← hchil] at hz3
                exact FileIdsBound_mem.mpr (Or.inr ⟨⟨q, rec⟩, hqmem, hz3⟩)
              · exact FileIdsBound_mem.mpr (Or.inr ⟨kv2, hmem_t2 kv2 h2, hz⟩)
        have h2 := hac.1 i hiS
        rw [hs'fa]
        show (assoc_get (assoc_remove s.file_arena fid).1 i).isSome = true
        rw [assoc_get_remove_ne hine]
        exact h2
      · intro i hi
        have hiS : i ∈ DirIdsBound s := by
          rcases DirIdsBound_mem.mp hi with h1 | ⟨kv2, hkv2, hz⟩
          · rw [hs'D] at h1
            exact DirIdsBound_mem.mpr (Or.inl h1)
          · rw [harena'] at hkv2
            rcases List.mem_append.mp hkv2 with h1 | h1
            · exact DirIdsBound_mem.mpr (Or.inr ⟨kv2, hmem_t1 kv2 h1, hz⟩)
            · rcases List.mem_cons.mp h1 with rfl | h2
              · have hz2 : i ∈ indexIds rec.children_directories := hz
                exact DirIdsBound_mem.mpr (Or.inr ⟨⟨q, rec⟩, hqmem, hz2⟩)
              · exact DirIdsBound_mem.mpr (Or.inr ⟨kv2, hmem_t2 kv2 h2, hz⟩)
        have h2 := hac.2 i hiS
        rw [hframe i]
        exact h2

/-- A successful `add_dir` preserves the full invariant. -/
theorem preserve_add_dir {s s' : WalrusfsState} {ts : Nat} {pth : String}
    {tg : List String} {ev : List WalrusFsEvent} (hinv : Inv s)
    (h : add_dir s ts pth tg = ⟨s', ev, Except.ok ()⟩) : Inv s' := by
  obtain ⟨hts, hcd, hac⟩ := hinv
  obtain ⟨htsF, htsD, htsRF, htsRD, htsIdx, htsBind, htsInc⟩ := hts
  obtain ⟨hcdB, hcdF, hcdD⟩ := hcd
  obtain ⟨p, dn, idx, hv1, hv2, hres, hfetch, hgetn, hev, hs'⟩ := add_dir_ok_inv h
  have hnamefresh : dn ∉ idx.map (fun kv => kv.key) := assoc_get_eq_none_iff.mp hgetn
  have hidx2 : (insert_into_vec_str_key idx dn (s.obj_id_counter + 1)).1 =
      idx ++ [⟨dn, s.obj_id_counter + 1⟩] := by
    show (assoc_insert idx dn (s.obj_id_counter + 1)).1 = _
    rw [assoc_insert_of_not_mem hnamefresh]
  have hNb : s.obj_id_counter + 1 ∉ bindingIds s := by
    intro hm
    have := hcdB _ hm
    omega
  have hNf : s.obj_id_counter + 1 ∉ fileKeys s := by
    intro hm
    have := hcdF _ hm
    omega
  have hNd : s.obj_id_counter + 1 ∉ dirKeys s := by
    intro hm
    have := hcdD _ hm
    omega
  cases p with
  | none =>
    have hidx : idx = s.root_children_directories := by
      have h0 : fetch_children_dirs s none = Except.ok s.root_children_directories := rfl
      rw [h0] at hfetch
      exact (Except.ok.inj hfetch).symm
    have hs'R : s'.root_children_files = s.root_children_files := by
      rw [hs']
      rfl
    have hs'D : s'.root_children_directories = idx ++ [⟨dn, s.obj_id_counter + 1⟩] := by
      rw [hs']
      show (insert_into_vec_str_key idx dn (s.obj_id_counter + 1)).1 = _
      exact hidx2
    have hs'fa : s'.file_arena = s.file_arena := by
      rw [hs']
      rfl
    have hs'da : s'.dir_arena =
        s.dir_arena ++ [⟨s.obj_id_counter + 1, ⟨ts * 1000, tg, [], []⟩⟩] := by
      rw [hs']
      show (assoc_insert s.dir_arena (s.obj_id_counter + 1) ⟨ts * 1000, tg, [], []⟩).1 = _
      rw [assoc_insert_of_not_mem hNd]
    have hs'c : s'.obj_id_counter = s.obj_id_counter + 1 := by
      rw [hs']
      rfl
    have hgN : get_from_dir_arena s'.dir_arena (s.obj_id_counter + 1) =
        some ⟨ts * 1000, tg, [], []⟩ := by
      rw [hs']
      show assoc_get (assoc_insert s.dir_arena (s.obj_id_counter + 1)
        ⟨ts * 1000, tg, [], []⟩).1 (s.obj_id_counter + 1) = _
      exact assoc_get_insert_self
    have hgne : ∀ i, i ≠ s.obj_id_counter + 1 →
        get_from_dir_arena s'.dir_arena i = get_from_dir_arena s.dir_arena i := by
      intro i hi
      rw [hs']
      show assoc_get (assoc_insert s.dir_arena (s.obj_id_counter + 1)
        ⟨ts * 1000, tg, [], []⟩).1 i = _
      exact assoc_get_insert_ne hi
    have hbind2 : bindingIds s' = indexIds s.root_children_files ++
        (indexIds idx ++ ((s.obj_id_counter + 1) ::
          (s.dir_arena.map (fun kv => dirBindings kv.value)).flatten)) := by
      simp only [bindingIds, bindingSegments]
      rw [hs'R, hs'D, hs'da]
      simp [dirBindings, indexIds]
    have hbindS : bindingIds s = indexIds s.root_children_files ++
        (indexIds idx ++
          (s.dir_arena.map (fun kv => dirBindings kv.value)).flatten) := by
      have h0 : bindingIds s = indexIds s.root_children_files ++
          (indexIds s.root_children_directories ++
            (s.dir_arena.map (fun kv => dirBindings kv.value)).flatten) := by
        simp [bindingIds, bindingSegments]
      rw [h0, ← hidx]
    have hperm : List.Perm (bindingIds s')
        ((s.obj_id_counter + 1) :: bindingIds s) := by
      rw [hbind2, hbindS]
      exact perm_bubble List.perm_middle
    refine ⟨⟨?_, ?_, ?_, ?_, ?_, ?_, ?_⟩, ?_, ?_⟩
    · unfold fileKeys
      rw [hs'fa]
      exact htsF
    · unfold dirKeys
      rw [hs'da]
      simp only [List.map_append, List.map_cons, List.map_nil]
      rw [List.nodup_append]
      refine ⟨htsD, by simp, ?_⟩
      intro a ha hb
      rw [List.mem_singleton] at hb
      subst hb
      exact hNd ha
    · unfold indexKeys
      rw [hs'R]
      exact htsRF
    · unfold indexKeys
      rw [hs'D]
      simp only [List.map_append, List.map_cons, List.map_nil]
      rw [List.nodup_append]
      refine ⟨by rw [hidx]; exact htsRD, by simp, ?_⟩
      intro a ha hb
      rw [List.mem_singleton] at hb
      subst hb
      exact hnamefresh ha
    · intro kv hkv
      rw [hs'da] at hkv
      rcases List.mem_append.mp hkv with h1 | h1
      · exact htsIdx kv h1
      · rw [List.mem_singleton] at h1
        subst h1
        exact ⟨by simp [indexKeys], by simp [indexKeys]⟩
    · exact hperm.nodup_iff.mpr (List.nodup_cons.mpr ⟨hNb, htsBind⟩)
    · intro kv hkv
      rw [hs'da] at hkv
      rcases List.mem_append.mp hkv with h1 | h1
      · exact htsInc kv h1
      · rw [List.mem_singleton] at h1
        subst h1
        intro e he
        simp [indexIds] at he
    · refine ⟨?_, ?_, ?_⟩
      · intro i hi
        rw [hs'c]
        rcases List.mem_cons.mp (hperm.mem_iff.mp hi) with h1 | h1
        · omega
        · have := hcdB i h1
          omega
      · intro i hi
        rw [hs'c]
        have hi2 : i ∈ fileKeys s := by
          unfold fileKeys at hi ⊢
          rw [hs'fa] at hi
          exact hi
        have := hcdF i hi2
        omega
      · intro i hi
        rw [hs'c]
        unfold dirKeys at hi
        rw [hs'da] at hi
        simp only [List.map_append, List.map_cons, List.map_nil,
          List.mem_append, List.mem_singleton] at hi
        rcases hi with h1 | h1
        · have := hcdD i h1
          omega
        · omega
    · constructor
      · intro i hi
        have hiS : i ∈ FileIdsBound s := by
          rcases FileIdsBound_mem.mp hi with h1 | ⟨kv, hkv, hz⟩
          · rw [hs'R] at h1
            exact FileIdsBound_mem.mpr (Or.inl h1)
          · rw [hs'da] at hkv
            rcases List.mem_append.mp hkv with h1 | h1
            · exact FileIdsBound_mem.mpr (Or.inr ⟨kv, h1, hz⟩)
            · rw [List.mem_singleton] at h1
              subst h1
              simp [indexIds] at hz
        have h2 := hac.1 i hiS
        rw [hs'fa]
        exact h2
      · intro i hi
        by_cases hiN : i = s.obj_id_counter + 1
        · subst hiN
          rw [hgN]
          rfl
        · have hiS : i ∈ DirIdsBound s := by
            rcases DirIdsBound_mem.mp hi with h1 | ⟨kv, hkv, hz⟩
            · rw [hs'D] at h1
              simp only [indexIds, List.map_append, List.map_cons, List.map_nil,
                List.mem_append, List.mem_singleton] at h1
              rcases h1 with h1 | h1
              · refine DirIdsBound_mem.mpr (Or.inl ?_)
                rw [← hidx]
                exact h1
              · exact absurd h1 hiN
            · rw [hs'da] at hkv
              rcases List.mem_append.mp hkv with h1 | h1
              · exact DirIdsBound_mem.mpr (Or.inr ⟨kv, h1, hz⟩)
              · rw [List.mem_singleton] at h1
                subst h1
                simp [indexIds] at hz
          have h2 := hac.2 i hiS
          rw [hgne i hiN]
          exact h2
  | some q =>
    obtain ⟨rec, hgrec, hchil⟩ := fetch_children_dirs_some_inv hfetch
    have hgrec2 : assoc_get s.dir_arena q = some rec := hgrec
    obtain ⟨t1, t2, harena, hqnot⟩ := assoc_get_eq_some_iff.mp hgrec2
    have hqmem : (⟨q, rec⟩ : KeyValueU64DirObject) ∈ s.dir_arena := assoc_get_mem hgrec2
    have hmem_t1 : ∀ kv ∈ t1, kv ∈ s.dir_arena := by
      intro kv h1
      rw [harena]
      exact List.mem_append.mpr (Or.inl h1)
    have hmem_t2 : ∀ kv ∈ t2, kv ∈ s.dir_arena := by
      intro kv h2
      rw [harena]
      exact List.mem_append.mpr (Or.inr (List.mem_cons.mpr (Or.inr h2)))
    have hqlt : q < s.obj_id_counter + 1 := by
      have hq : q ∈ dirKeys s := by
        unfold dirKeys
        exact List.mem_map_of_mem (fun kv => kv.key) hqmem
      have := hcdD q hq
      omega
    have hW : (write_children_dirs { s with obj_id_counter := s.obj_id_counter + 1 }
        (some q) (insert_into_vec_str_key idx dn (s.obj_id_counter + 1)).1).dir_arena =
        t1 ++ ⟨q, { rec with children_directories :=
          idx ++ [⟨dn, s.obj_id_counter + 1⟩] }⟩ :: t2 := by
      show assoc_modify s.dir_arena q _ = _
      rw [hidx2, harena, assoc_modify_decomp hqnot]
    have hWkeys : (write_children_dirs { s with obj_id_counter := s.obj_id_counter + 1 }
        (some q) (insert_into_vec_str_key idx dn
          (s.obj_id_counter + 1)).1).dir_arena.map (fun kv => kv.key) =
        s.dir_arena.map (fun kv => kv.key) :=
      write_children_dirs_arena_keys _ (some q) _
    have hNd2 : s.obj_id_counter + 1 ∉ (write_children_dirs
        { s with obj_id_counter := s.obj_id_counter + 1 } (some q)
        (insert_into_vec_str_key idx dn
          (s.obj_id_counter + 1)).1).dir_arena.map (fun kv => kv.key) := by
      rw [hWkeys]
      exact hNd
    have hs'R : s'.root_children_files = s.root_children_files := by
      rw [hs']
      rfl
    have hs'D : s'.root_children_directories = s.root_children_directories := by
      rw [hs']
      rfl
    have hs'fa : s'.file_arena = s.file_arena := by
      rw [hs']
      rfl
    have hs'c : s'.obj_id_counter = s.obj_id_counter + 1 := by
      rw [hs']
      rfl
    have hs'da : s'.dir_arena =
        (t1 ++ ⟨q, { rec with children_directories :=
          idx ++ [⟨dn, s.obj_id_counter + 1⟩] }⟩ :: t2) ++
        [⟨s.obj_id_counter + 1, ⟨ts * 1000, tg, [], []⟩⟩] := by
      rw [hs']
      show (assoc_insert (write_children_dirs
        { s with obj_id_counter := s.obj_id_counter + 1 } (some q)
        (insert_into_vec_str_key idx dn (s.obj_id_counter + 1)).1).dir_arena
        (s.obj_id_counter + 1) ⟨ts * 1000, tg, [], []⟩).1 = _
      rw [assoc_insert_of_not_mem hNd2, hW]
    have hgN : get_from_dir_arena s'.dir_arena (s.obj_id_counter + 1) =
        some ⟨ts * 1000, tg, [], []⟩ := by
      rw [hs']
      show assoc_get (assoc_insert (write_children_dirs
        { s with obj_id_counter := s.obj_id_counter + 1 } (some q)
        (insert_into_vec_str_key idx dn (s.obj_id_counter + 1)).1).dir_arena
        (s.obj_id_counter + 1) ⟨ts * 1000, tg, [], []⟩).1 (s.obj_id_counter + 1) = _
      exact assoc_get_insert_self
    have hgne : ∀ i, i ≠ s.obj_id_counter + 1 →
        (get_from_dir_arena s'.dir_arena i).isSome =
        (get_from_dir_arena s.dir_arena i).isSome := by
      intro i hi
      rw [hs']
      show (assoc_get (assoc_insert (write_children_dirs
        { s with obj_id_counter := s.obj_id_counter + 1 } (some q)
        (insert_into_vec_str_key idx dn (s.obj_id_counter + 1)).1).dir_arena
        (s.obj_id_counter + 1) ⟨ts * 1000, tg, [], []⟩).1 i).isSome = _
      rw [assoc_get_insert_ne hi]
      exact write_children_dirs_get_isSome _ (some q) _ i
    have hbind2 : bindingIds s' = indexIds s.root_children_files ++
        (indexIds s.root_children_directories ++
          ((t1.map (fun kv => dirBindings kv.value)).flatten ++
            (indexIds rec.children_files ++ (indexIds idx ++ ((s.obj_id_counter + 1) ::
              (t2.map (fun kv => dirBindings kv.value)).flatten))))) := by
      simp only [bindingIds, bindingSegments]
      rw [hs'R, hs'D, hs'da]
      simp [dirBindings, indexIds]
    have hbindS : bindingIds s = indexIds s.root_children_files ++
        (indexIds s.root_children_directories ++
          ((t1.map (fun kv => dirBindings kv.value)).flatten ++
            (indexIds rec.children_files ++ (indexIds idx ++
              (t2.map (fun kv => dirBindings kv.value)).flatten)))) := by
      rw [bindingIds_split harena, hchil]
      simp [List.append_assoc]
    have hperm : List.Perm (bindingIds s')
        ((s.obj_id_counter + 1) :: bindingIds s) := by
      rw [hbind2, hbindS]
      exact perm_bubble (perm_bubble (perm_bubble (perm_bubble List.perm_middle)))
    refine ⟨⟨?_, ?_, ?_, ?_, ?_, ?_, ?_⟩, ?_, ?_⟩
    · unfold fileKeys
      rw [hs'fa]
      exact htsF
    · unfold dirKeys
      rw [hs'da]
      have h2 : (t1 ++ ⟨q, { rec with children_directories :=
          idx ++ [⟨dn, s.obj_id_counter + 1⟩] }⟩ :: t2).map (fun kv => kv.key) =
          s.dir_arena.map (fun kv => kv.key) := by
        rw [harena]
        simp
      rw [List.map_append, List.nodup_append, h2]
      refine ⟨htsD, by simp, ?_⟩
      intro a ha hb
      simp only [List.map_cons, List.map_nil, List.mem_singleton] at hb
      subst hb
      exact hNd ha
    · unfold indexKeys
      rw [hs'R]
      exact htsRF
    · unfold indexKeys
      rw [hs'D]
      exact htsRD
    · intro kv hkv
      rw [hs'da] at hkv
      rcases List.mem_append.mp hkv with h1 | h1
      · rcases List.mem_append.mp h1 with h2 | h2
        · exact htsIdx kv (hmem_t1 kv h2)
        · rcases List.mem_cons.mp h2 with rfl | h3
          · constructor
            · show (indexKeys rec.children_files).Nodup
              exact (htsIdx _ hqmem).1
            · show ((idx ++ [(⟨dn, s.obj_id_counter + 1⟩ : KeyValueStringU64)]).map
                (fun kv => kv.key)).Nodup
              simp only [List.map_append, List.map_cons, List.map_nil]
              rw [List.nodup_append]
              refine ⟨?_, by simp, ?_⟩
              · have h3 := (htsIdx _ hqmem).2
                rw [hchil] at h3
                exact h3
              · intro a ha hb
                rw [List.mem_singleton] at hb
                subst hb
                exact hnamefresh ha
          · exact htsIdx kv (hmem_t2 kv h3)
      · rw [List.mem_singleton] at h1
        subst h1
        exact ⟨by simp [indexKeys], by simp [indexKeys]⟩
    · exact hperm.nodup_iff.mpr (List.nodup_cons.mpr ⟨hNb, htsBind⟩)
    · intro kv hkv
      rw [hs'da] at hkv
      rcases List.mem_append.mp hkv with h1 | h1
      · rcases List.mem_append.mp h1 with h2 | h2
        · exact htsInc kv (hmem_t1 kv h2)
        · rcases List.mem_cons.mp h2 with rfl | h3
          · intro e he
            show q < e
            have he2 : e ∈ indexIds (idx ++
                [(⟨dn, s.obj_id_counter + 1⟩ : KeyValueStringU64)]) := he
            simp only [indexIds, List.map_append, List.map_cons, List.map_nil,
              List.mem_append, List.mem_singleton] at he2
            rcases he2 with h4 | h4
            · have h5 : e ∈ indexIds rec.children_directories := by
                rw [hchil]
                exact h4
              exact htsInc _ hqmem e h5
            · omega
          · exact htsInc kv (hmem_t2 kv h3)
      · rw [List.mem_singleton] at h1
        subst h1
        intro e he
        simp [indexIds] at he
    · refine ⟨?_, ?_, ?_⟩
      · intro i hi
        rw [hs'c]
        rcases List.mem_cons.mp (hperm.mem_iff.mp hi) with h1 | h1
        · omega
        · have := hcdB i h1
          omega
      · intro i hi
        rw [hs'c]
        have hi2 : i ∈ fileKeys s := by
          unfold fileKeys at hi ⊢
          rw [hs'fa] at hi
          exact hi
        have := hcdF i hi2
        omega
      · intro i hi
        rw [hs'c]
        unfold dirKeys at hi
        rw [hs'da] at hi
        simp only [List.map_append, List.map_cons, List.map_nil,
          List.mem_append, List.mem_cons, List.mem_singleton] at hi
        rcases hi with (h1 | h1) | h1
        · have h2 : i ∈ dirKeys s := by
            unfold dirKeys
            rw [harena]
            simp only [List.map_append, List.map_cons, List.mem_append, List.mem_cons]
            exact Or.inl h1
          have := hcdD i h2
          omega
        · rcases h1 with h1 | h1
          · have h2 : i ∈ dirKeys s := by
              unfold dirKeys
              rw [harena]
              simp only [List.map_append, List.map_cons, List.mem_append, List.mem_cons]
              rw [h1]
              exact Or.inr (Or.inl rfl)
            have := hcdD i h2
            omega
          · have h2 : i ∈ dirKeys s := by
              unfold dirKeys
              rw [harena]
              simp only [List.map_append, List.map_cons, List.mem_append, List.mem_cons]
              exact Or.inr (Or.inr h1)
            have := hcdD i h2
            omega
        · rcases h1 with h1 | h1
          · omega
          · simp at h1
    · constructor
      · intro i hi
        have hiS : i ∈ FileIdsBound s := by
          rcases FileIdsBound_mem.mp hi with h1 | ⟨kv, hkv, hz⟩
          · rw [hs'R] at h1
            exact FileIdsBound_mem.mpr (Or.inl h1)
          · rw [hs'da] at hkv
            rcases List.mem_append.mp hkv with h1 | h1
            · rcases List.mem_append.mp h1 with h2 | h2
              · exact FileIdsBound_mem.mpr (Or.inr ⟨kv, hmem_t1 kv h2, hz⟩)
              · rcases List.mem_cons.mp h2 with rfl | h3
                · have hz2 : i ∈ indexIds rec.children_files := hz
                  exact FileIdsBound_mem.mpr (Or.inr ⟨⟨q, rec⟩, hqmem, hz2⟩)
                · exact FileIdsBound_mem.mpr (Or.inr ⟨kv, hmem_t2 kv h3, hz⟩)
            · rw [List.mem_singleton] at h1
              subst h1
              simp [indexIds] at hz
        have h2 := hac.1 i hiS
        rw [hs'fa]
        exact h2
      · intro i hi
        by_cases hiN : i = s.obj_id_counter + 1
        · subst hiN
          rw [hgN]
          rfl
        · have hiS : i ∈ DirIdsBound s := by
            rcases DirIdsBound_mem.mp hi with h1 | ⟨kv, hkv, hz⟩
            · rw [hs'D] at h1
              exact DirIdsBound_mem.mpr (Or.inl h1)
            · rw [hs'da] at hkv
              rcases List.mem_append.mp hkv with h1 | h1
              · rcases List.mem_append.mp h1 with h2 | h2
                · exact DirIdsBound_mem.mpr (Or.inr ⟨kv, hmem_t1 kv h2, hz⟩)
                · rcases List.mem_cons.mp h2 with rfl | h3
                  · have hz2 : i ∈ indexIds (idx ++
                        [(⟨dn, s.obj_id_counter + 1⟩ : KeyValueStringU64)]) := hz
                    simp only [indexIds, List.map_append, List.map_cons, List.map_nil,
                      List.mem_append, List.mem_singleton] at hz2
                    rcases hz2 with h4 | h4
                    · have h5 : i ∈ indexIds rec.children_directories := by
                        rw [hchil]
                        exact h4
                      exact DirIdsBound_mem.mpr (Or.inr ⟨⟨q, rec⟩, hqmem, h5⟩)
                    · exact absurd h4 hiN
                  · exact DirIdsBound_mem.mpr (Or.inr ⟨kv, hmem_t2 kv h3, hz⟩)
              · rw [List.mem_singleton] at h1
                subst h1
                simp [indexIds] at hz
          have h2 := hac.2 i hiS
          rw [hgne i hiN]
          exact h2

/-- A successful `add_file` preserves the full invariant (both the fresh-create
branch and the overwrite branch). -/
theorem preserve_add_file {s s' : WalrusfsState} {ts : Nat} {pth : String}
    {tg : List String} {size : Nat} {wb : String} {ee : Nat} {ovw : Bool}
    {ev : List WalrusFsEvent} (hinv : Inv s)
    (h : add_file s ts pth tg size wb ee ovw = ⟨s', ev, Except.ok ()⟩) : Inv s' := by
  obtain ⟨hts, hcd, hac⟩ := hinv
  obtain ⟨htsF, htsD, htsRF, htsRD, htsIdx, htsBind, htsInc⟩ := hts
  obtain ⟨hcdB, hcdF, hcdD⟩ := hcd
  obtain ⟨pid, fn, idx, hv1, hv2, hv3, hres, hfetch, hbranch⟩ := add_file_ok_inv h
  have hNb : s.obj_id_counter + 1 ∉ bindingIds s := by
    intro hm
    have := hcdB _ hm
    omega
  have hNf : s.obj_id_counter + 1 ∉ fileKeys s := by
    intro hm
    have := hcdF _ hm
    omega
  rcases hbranch with ⟨hgetn, h7⟩ | ⟨X, hgetX, hovw, h7⟩
  · -- fresh create: the leaf name was unbound
    have hnamefresh : fn ∉ idx.map (fun kv => kv.key) := assoc_get_eq_none_iff.mp hgetn
    have hidx2 : (insert_into_vec_str_key idx fn (s.obj_id_counter + 1)).1 =
        idx ++ [⟨fn, s.obj_id_counter + 1⟩] := by
      show (assoc_insert idx fn (s.obj_id_counter + 1)).1 = _
      rw [assoc_insert_of_not_mem hnamefresh]
    have hs' : s' = write_children_files
        { s with
          obj_id_counter := s.obj_id_counter + 1
          file_arena := (insert_into_file_arena s.file_arena (s.obj_id_counter + 1)
            ⟨ts * 1000, tg, size, wb, ee⟩).1 } pid
        (insert_into_vec_str_key idx fn (s.obj_id_counter + 1)).1 :=
      congrArg RawOutcome.state h7
    have hs'fa : s'.file_arena = s.file_arena ++
        [⟨s.obj_id_counter + 1, ⟨ts * 1000, tg, size, wb, ee⟩⟩] := by
      rw [hs', write_children_files_file_arena]
      show (assoc_insert s.file_arena (s.obj_id_counter + 1)
        ⟨ts * 1000, tg, size, wb, ee⟩).1 = _
      rw [assoc_insert_of_not_mem hNf]
    have hgNf : get_from_file_arena s'.file_arena (s.obj_id_counter + 1) =
        some ⟨ts * 1000, tg, size, wb, ee⟩ := by
      rw [hs', write_children_files_file_arena]
      show assoc_get (assoc_insert s.file_arena (s.obj_id_counter + 1)
        ⟨ts * 1000, tg, size, wb, ee⟩).1 (s.obj_id_counter + 1) = _
      exact assoc_get_insert_self
    have hgnef : ∀ i, i ≠ s.obj_id_counter + 1 →
        get_from_file_arena s'.file_arena i = get_from_file_arena s.file_arena i := by
      intro i hi
      rw [hs', write_children_files_file_arena]
      show assoc_get (assoc_insert s.file_arena (s.obj_id_counter + 1)
        ⟨ts * 1000, tg, size, wb, ee⟩).1 i = _
      exact assoc_get_insert_ne hi
    have hs'D : s'.root_children_directories = s.root_children_directories := by
      rw [hs', write_children_files_root_dirs]
    have hs'c : s'.obj_id_counter = s.obj_id_counter + 1 := by
      rw [hs', write_children_files_counter]
    have hfkeys : fileKeys s' = fileKeys s ++ [s.obj_id_counter + 1] := by
      unfold fileKeys
      rw [hs'fa]
      simp
    have hfnodup : (fileKeys s').Nodup := by
      rw [hfkeys, List.nodup_append]
      refine ⟨htsF, by simp, ?_⟩
      intro a ha hb
      rw [List.mem_singleton] at hb
      subst hb
      exact hNf ha
    cases pid with
    | none =>
      have hidx : idx = s.root_children_files := by
        have h0 : fetch_children_files s none = Except.ok s.root_children_files := rfl
        rw [h0] at hfetch
        exact (Except.ok.inj hfetch).symm
      have hs'R : s'.root_children_files = idx ++ [⟨fn, s.obj_id_counter + 1⟩] := by
        rw [hs']
        show (insert_into_vec_str_key idx fn (s.obj_id_counter + 1)).1 = _
        exact hidx2
      have hs'da : s'.dir_arena = s.dir_arena := by
        rw [hs']
        rfl
      have hbind2 : bindingIds s' = indexIds idx ++ ((s.obj_id_counter + 1) ::
          (indexIds s.root_children_directories ++
            (s.dir_arena.map (fun kv => dirBindings kv.value)).flatten)) := by
        rw [hs', bindingIds_write_files_none, hidx2]
        simp [indexIds]
      have hbindS : bindingIds s = indexIds idx ++
          (indexIds s.root_children_directories ++
            (s.dir_arena.map (fun kv => dirBindings kv.value)).flatten) := by
        have h0 : bindingIds s = indexIds s.root_children_files ++
            (indexIds s.root_children_directories ++
              (s.dir_arena.map (fun kv => dirBindings kv.value)).flatten) := by
          simp [bindingIds, bindingSegments]
        rw [h0, ← hidx]
      have hperm : List.Perm (bindingIds s')
          ((s.obj_id_counter + 1) :: bindingIds s) := by
        rw [hbind2, hbindS]
        exact List.perm_middle
      refine ⟨⟨?_, ?_, ?_, ?_, ?_, ?_, ?_⟩, ?_, ?_⟩
      · exact hfnodup
      · unfold dirKeys
        rw [hs'da]
        exact htsD
      · unfold indexKeys
        rw [hs'R]
        simp only [List.map_append, List.map_cons, List.map_nil]
        rw [List.nodup_append]
        refine ⟨by rw [hidx]; exact htsRF, by simp, ?_⟩
        intro a ha hb
        rw [List.mem_singleton] at hb
        subst hb
        exact hnamefresh ha
      · unfold indexKeys
        rw [hs'D]
        exact htsRD
      · intro kv hkv
        rw [hs'da] at hkv
        exact htsIdx kv hkv
      · exact hperm.nodup_iff.mpr (List.nodup_cons.mpr ⟨hNb, htsBind⟩)
      · intro kv hkv
        rw [hs'da] at hkv
        exact htsInc kv hkv
      · refine ⟨?_, ?_, ?_⟩
        · intro i hi
          rw [hs'c]
          rcases List.mem_cons.mp (hperm.mem_iff.mp hi) with h1 | h1
          · omega
          · have := hcdB i h1
            omega
        · intro i hi
          rw [hs'c]
          rw [hfkeys] at hi
          rcases List.mem_append.mp hi with h1 | h1
          · have := hcdF i h1
            omega
          · rw [List.mem_singleton] at h1
            omega
        · intro i hi
          rw [hs'c]
          have hi2 : i ∈ dirKeys s := by
            unfold dirKeys at hi ⊢
            rw [hs'da] at hi
            exact hi
          have := hcdD i hi2
          omega
      · constructor
        · intro i hi
          by_cases hiN : i = s.obj_id_counter + 1
          · subst hiN
            rw [hgNf]
            rfl
          · have hiS : i ∈ FileIdsBound s := by
              rcases FileIdsBound_mem.mp hi with h1 | ⟨kv, hkv, hz⟩
              · rw [hs'R] at h1
                simp only [indexIds, List.map_append, List.map_cons, List.map_nil,
                  List.mem_append, List.mem_singleton] at h1
                rcases h1 with h1 | h1
                · refine FileIdsBound_mem.mpr (Or.inl ?_)
                  rw [← hidx]
                  exact h1
                · exact absurd h1 hiN
              · rw [hs'da] at hkv
                exact FileIdsBound_mem.mpr (Or.inr ⟨kv, hkv, hz⟩)
            rw [hgnef i hiN]
            exact hac.1 i hiS
        · intro i hi
          have hiS : i ∈ DirIdsBound s := by
            rcases DirIdsBound_mem.mp hi with h1 | ⟨kv, hkv, hz⟩
            · rw [hs'D] at h1
              exact DirIdsBound_mem.mpr (Or.inl h1)
            · rw [hs'da] at hkv
              exact DirIdsBound_mem.mpr (Or.inr ⟨kv, hkv, hz⟩)
          show (get_from_dir_arena s'.dir_arena i).isSome = true
          rw [hs'da]
          exact hac.2 i hiS
    | some q =>
      obtain ⟨rec, hgrec, hchil⟩ := fetch_children_files_some_inv hfetch
      have hgrec2 : assoc_get s.dir_arena q = some rec := hgrec
      obtain ⟨t1, t2, harena, hqnot⟩ := assoc_get_eq_some_iff.mp hgrec2
      have hqmem : (⟨q, rec⟩ : KeyValueU64DirObject) ∈ s.dir_arena := assoc_get_mem hgrec2
      have hmem_t1 : ∀ kv ∈ t1, kv ∈ s.dir_arena := by
        intro kv h1
        rw [harena]
        exact List.mem_append.mpr (Or.inl h1)
      have hmem_t2 : ∀ kv ∈ t2, kv ∈ s.dir_arena := by
        intro kv h2
        rw [harena]
        exact List.mem_append.mpr (Or.inr (List.mem_cons.mpr (Or.inr h2)))
      have hs'R : s'.root_children_files = s.root_children_files := by
        rw [hs']
        rfl
      have hs'D2 : s'.root_children_directories = s.root_children_directories := by
        rw [hs']
        rfl
      have hdarena : s'.dir_arena = t1 ++ ⟨q, { rec with children_files :=
          idx ++ [⟨fn, s.obj_id_counter + 1⟩] }⟩ :: t2 := by
        rw [hs', hidx2]
        show (write_children_files s (some q)
          (idx ++ [⟨fn, s.obj_id_counter + 1⟩])).dir_arena = _
        exact write_files_some_arena harena hqnot _
      have hkeys' : s'.dir_arena.map (fun kv => kv.key) =
          s.dir_arena.map (fun kv => kv.key) := by
        rw [hdarena, harena]
        simp
      have hdirfr : ∀ i, (get_from_dir_arena s'.dir_arena i).isSome =
          (get_from_dir_arena s.dir_arena i).isSome := by
        intro i
        rw [hs']
        show (get_from_dir_arena (write_children_files s (some q)
          (insert_into_vec_str_key idx fn (s.obj_id_counter + 1)).1).dir_arena i).isSome = _
        exact write_children_files_get_isSome s (some q) _ i
      have hbind2 : bindingIds s' = indexIds s.root_children_files ++
          (indexIds s.root_children_directories ++
            ((t1.map (fun kv => dirBindings kv.value)).flatten ++
              (indexIds idx ++ ((s.obj_id_counter + 1) ::
                (indexIds rec.children_directories ++
                  (t2.map (fun kv => dirBindings kv.value)).flatten))))) := by
        rw [hs']
        show bindingIds (write_children_files s (some q)
          (insert_into_vec_str_key idx fn (s.obj_id_counter + 1)).1) = _
        rw [hidx2, bindingIds_write_files_some harena hqnot]
        simp [indexIds]
      have hbindS : bindingIds s = indexIds s.root_children_files ++
          (indexIds s.root_children_directories ++
            ((t1.map (fun kv => dirBindings kv.value)).flatten ++
              (indexIds idx ++ (indexIds rec.children_directories ++
                (t2.map (fun kv => dirBindings kv.value)).flatten)))) := by
        rw [bindingIds_split harena, hchil]
        simp [List.append_assoc]
      have hperm : List.Perm (bindingIds s')
          ((s.obj_id_counter + 1) :: bindingIds s) := by
        rw [hbind2, hbindS]
        exact perm_bubble (perm_bubble (perm_bubble List.perm_middle))
      refine ⟨⟨?_, ?_, ?_, ?_, ?_, ?_, ?_⟩, ?_, ?_⟩
      · exact hfnodup
      · unfold dirKeys
        rw [hkeys']
        exact htsD
      · unfold indexKeys
        rw [hs'R]
        exact htsRF
      · unfold indexKeys
        rw [hs'D2]
        exact htsRD
      · intro kv hkv
        rw [hdarena] at hkv
        rcases List.mem_append.mp hkv with h1 | h1
        · exact htsIdx kv (hmem_t1 kv h1)
        · rcases List.mem_cons.mp h1 with rfl | h2
          · constructor
            · show ((idx ++ [(⟨fn, s.obj_id_counter + 1⟩ : KeyValueStringU64)]).map
                (fun kv => kv.key)).Nodup
              simp only [List.map_append, List.map_cons, List.map_nil]
              rw [List.nodup_append]
              refine ⟨?_, by simp, ?_⟩
              · have h3 := (htsIdx _ hqmem).1
                rw [hchil] at h3
                exact h3
              · intro a ha hb
                rw [List.mem_singleton] at hb
                subst hb
                exact hnamefresh ha
            · show (indexKeys rec.children_directories).Nodup
              exact (htsIdx _ hqmem).2
          · exact htsIdx kv (hmem_t2 kv h2)
      · exact hperm.nodup_iff.mpr (List.nodup_cons.mpr ⟨hNb, htsBind⟩)
      · intro kv hkv
        rw [hdarena] at hkv
        rcases List.mem_append.mp hkv with h1 | h1
        · exact htsInc kv (hmem_t1 kv h1)
        · rcases List.mem_cons.mp h1 with rfl | h2
          · intro e he
            have he2 : e ∈ indexIds rec.children_directories := he
            exact htsInc _ hqmem e he2
          · exact htsInc kv (hmem_t2 kv h2)
      · refine ⟨?_, ?_, ?_⟩
        · intro i hi
          rw [hs'c]
          rcases List.mem_cons.mp (hperm.mem_iff.mp hi) with h1 | h1
          · omega
          · have := hcdB i h1
            omega
        · intro i hi
          rw [hs'c]
          rw [hfkeys] at hi
          rcases List.mem_append.mp hi with h1 | h1
          · have := hcdF i h1
            omega
          · rw [List.mem_singleton] at h1
            omega
        · intro i hi
          rw [hs'c]
          have hi2 : i ∈ dirKeys s := by
            unfold dirKeys at hi ⊢
            rw [hkeys'] at hi
            exact hi
          have := hcdD i hi2
          omega
      · constructor
        · intro i hi
          by_cases hiN : i = s.obj_id_counter + 1
          · subst hiN
            rw [hgNf]
            rfl
          · have hiS : i ∈ FileIdsBound s := by
              rcases FileIdsBound_mem.mp hi with h1 | ⟨kv, hkv, hz⟩
              · rw [hs'R] at h1
                exact FileIdsBound_mem.mpr (Or.inl h1)
              · rw [hdarena] at hkv
                rcases List.mem_append.mp hkv with h1 | h1
                · exact FileIdsBound_mem.mpr (Or.inr ⟨kv, hmem_t1 kv h1, hz⟩)
                · rcases List.mem_cons.mp h1 with rfl | h2
                  · have hz2 : i ∈ indexIds (idx ++
                        [(⟨fn, s.obj_id_counter + 1⟩ : KeyValueStringU64)]) := hz
                    simp only [indexIds, List.map_append, List.map_cons, List.map_nil,
                      List.mem_append, List.mem_singleton] at hz2
                    rcases hz2 with h3 | h3
                    · have h4 : i ∈ indexIds rec.children_files := by
                        rw [hchil]
                        exact h3
                      exact FileIdsBound_mem.mpr (Or.inr ⟨⟨q, rec⟩, hqmem, h4⟩)
                    · exact absurd h3 hiN
                  · exact FileIdsBound_mem.mpr (Or.inr ⟨kv, hmem_t2 kv h2, hz⟩)
            rw [hgnef i hiN]
            exact hac.1 i hiS
        · intro i hi
          have hiS : i ∈ DirIdsBound s := by
            rcases DirIdsBound_mem.mp hi with h1 | ⟨kv, hkv, hz⟩
            · rw [hs'D2] at h1
              exact DirIdsBound_mem.mpr (Or.inl h1)
            · rw [hdarena] at hkv
              rcases List.mem_append.mp hkv with h1 | h1
              · exact DirIdsBound_mem.mpr (Or.inr ⟨kv, hmem_t1 kv h1, hz⟩)
              · rcases List.mem_cons.mp h1 with rfl | h2
                · have hz2 : i ∈ indexIds rec.children_directories := hz
                  exact DirIdsBound_mem.mpr (Or.inr ⟨⟨q, rec⟩, hqmem, hz2⟩)
                · exact DirIdsBound_mem.mpr (Or.inr ⟨kv, hmem_t2 kv h2, hz⟩)
          show (get_from_dir_arena s'.dir_arena i).isSome = true
          rw [hdirfr i]
          exact hac.2 i hiS
  · -- overwrite: the leaf name was bound to X, overwrite = true
    obtain ⟨l1, l2, hidxdec, hfn1⟩ := assoc_get_eq_some_iff.mp hgetX
    have hidx2 : (insert_into_vec_str_key idx fn (s.obj_id_counter + 1)).1 =
        l1 ++ ⟨fn, s.obj_id_counter + 1⟩ :: l2 := by
      show (assoc_insert idx fn (s.obj_id_counter + 1)).1 = _
      rw [hidxdec, assoc_insert_decomp hfn1]
    have hnames2 : (l1 ++ (⟨fn, s.obj_id_counter + 1⟩ : KeyValueStringU64) :: l2).map
        (fun kv => kv.key) = idx.map (fun kv => kv.key) := by
      rw [hidxdec]
      simp
    have hids_old : indexIds idx = indexIds l1 ++ X :: indexIds l2 := by
      rw [hidxdec]
      simp [indexIds]
    have hXidx : X ∈ indexIds idx := by
      rw [hids_old]
      exact List.mem_append.mpr (Or.inr (List.mem_cons.mpr (Or.inl rfl)))
    have hXbound : X ∈ FileIdsBound s := by
      cases pid with
      | none =>
        have hidx : idx = s.root_children_files := by
          have h0 : fetch_children_files s none = Except.ok s.root_children_files := rfl
          rw [h0] at hfetch
          exact (Except.ok.inj hfetch).symm
        refine FileIdsBound_mem.mpr (Or.inl ?_)
        rw [← hidx]
        exact hXidx
      | some q =>
        obtain ⟨rec, hgrec, hchil⟩ := fetch_children_files_some_inv hfetch
        refine FileIdsBound_mem.mpr (Or.inr ⟨⟨q, rec⟩, assoc_get_mem hgrec, ?_⟩)
        rw [hchil]
        exact hXidx
    have hs' : s' = write_children_files
        { s with
          obj_id_counter := s.obj_id_counter + 1
          file_arena := (insert_into_file_arena
            (remove_from_file_arena s.file_arena X).1 (s.obj_id_counter + 1)
            ⟨ts * 1000, tg, size, wb, ee⟩).1 } pid
        (insert_into_vec_str_key idx fn (s.obj_id_counter + 1)).1 :=
      congrArg RawOutcome.state h7
    have hFAkeys_sub : List.Sublist
        ((remove_from_file_arena s.file_arena X).1.map (fun kv => kv.key))
        (s.file_arena.map (fun kv => kv.key)) :=
      assoc_remove_keys_sublist.map _
    have hNFA : s.obj_id_counter + 1 ∉
        (remove_from_file_arena s.file_arena X).1.map (fun kv => kv.key) :=
      fun hm => hNf (hFAkeys_sub.subset hm)
    have hs'fa : s'.file_arena = (remove_from_file_arena s.file_arena X).1 ++
        [⟨s.obj_id_counter + 1, ⟨ts * 1000, tg, size, wb, ee⟩⟩] := by
      rw [hs', write_children_files_file_arena]
      show (assoc_insert (remove_from_file_arena s.file_arena X).1 (s.obj_id_counter + 1)
        ⟨ts * 1000, tg, size, wb, ee⟩).1 = _
      rw [assoc_insert_of_not_mem hNFA]
    have hgNf : get_from_file_arena s'.file_arena (s.obj_id_counter + 1) =
        some ⟨ts * 1000, tg, size, wb, ee⟩ := by
      rw [hs', write_children_files_file_arena]
      show assoc_get (assoc_insert (remove_from_file_arena s.file_arena X).1
        (s.obj_id_counter + 1) ⟨ts * 1000, tg, size, wb, ee⟩).1 (s.obj_id_counter + 1) = _
      exact assoc_get_insert_self
    have hgnef : ∀ i, i ≠ s.obj_id_counter + 1 →
        get_from_file_arena s'.file_arena i =
        get_from_file_arena (remove_from_file_arena s.file_arena X).1 i := by
      intro i hi
      rw [hs', write_children_files_file_arena]
      show assoc_get (assoc_insert (remove_from_file_arena s.file_arena X).1
        (s.obj_id_counter + 1) ⟨ts * 1000, tg, size, wb, ee⟩).1 i = _
      exact assoc_get_insert_ne hi
    have hgremne : ∀ i, i ≠ X →
        get_from_file_arena (remove_from_file_arena s.file_arena X).1 i =
        get_from_file_arena s.file_arena i :=
      fun i hi => assoc_get_remove_ne hi
    have hs'D : s'.root_children_directories = s.root_children_directories := by
      rw [hs', write_children_files_root_dirs]
    have hs'c : s'.obj_id_counter = s.obj_id_counter + 1 := by
      rw [hs', write_children_files_counter]
    have hfkeys : fileKeys s' =
        (remove_from_file_arena s.file_arena X).1.map (fun kv => kv.key) ++
          [s.obj_id_counter + 1] := by
      unfold fileKeys
      rw [hs'fa]
      simp
    have hfnodup : (fileKeys s').Nodup := by
      rw [hfkeys, List.nodup_append]
      refine ⟨htsF.sublist hFAkeys_sub, by simp, ?_⟩
      intro a ha hb
      rw [List.mem_singleton] at hb
      subst hb
      exact hNFA ha
    cases pid with
    | none =>
      have hidx : idx = s.root_children_files := by
        have h0 : fetch_children_files s none = Except.ok s.root_children_files := rfl
        rw [h0] at hfetch
        exact (Except.ok.inj hfetch).symm
      have hs'R : s'.root_children_files = l1 ++ ⟨fn, s.obj_id_counter + 1⟩ :: l2 := by
        rw [hs']
        show (insert_into_vec_str_key idx fn (s.obj_id_counter + 1)).1 = _
        exact hidx2
      have hs'da : s'.dir_arena = s.dir_arena := by
        rw [hs']
        rfl
      have hbind2 : bindingIds s' = indexIds l1 ++ ((s.obj_id_counter + 1) ::
          (indexIds l2 ++ (indexIds s.root_children_directories ++
            (s.dir_arena.map (fun kv => dirBindings kv.value)).flatten))) := by
        rw [hs', bindingIds_write_files_none, hidx2]
        simp [indexIds]
      have hbindS : bindingIds s = indexIds l1 ++ (X ::
          (indexIds l2 ++ (indexIds s.root_children_directories ++
            (s.dir_arena.map (fun kv => dirBindings kv.value)).flatten))) := by
        have h0 : bindingIds s = indexIds s.root_children_files ++
            (indexIds s.root_children_directories ++
              (s.dir_arena.map (fun kv => dirBindings kv.value)).flatten) := by
          simp [bindingIds, bindingSegments]
        rw [h0, ← hidx, hids_old]
        simp
      have hpermN : List.Perm (bindingIds s') ((s.obj_id_counter + 1) ::
          (indexIds l1 ++ (indexIds l2 ++ (indexIds s.root_children_directories ++
            (s.dir_arena.map (fun kv => dirBindings kv.value)).flatten)))) := by
        rw [hbind2]
        exact List.perm_middle
      have hpermX : List.Perm (bindingIds s) (X ::
          (indexIds l1 ++ (indexIds l2 ++ (indexIds s.root_children_directories ++
            (s.dir_arena.map (fun kv => dirBindings kv.value)).flatten)))) := by
        rw [hbindS]
        exact List.perm_middle
      have hXR := hpermX.nodup_iff.mp htsBind
      have hRnd := (List.nodup_cons.mp hXR).2
      have hXnotR := (List.nodup_cons.mp hXR).1
      have hNR : s.obj_id_counter + 1 ∉ (indexIds l1 ++ (indexIds l2 ++
          (indexIds s.root_children_directories ++
            (s.dir_arena.map (fun kv => dirBindings kv.value)).flatten))) :=
        fun hm => hNb (hpermX.mem_iff.mpr (List.mem_cons.mpr (Or.inr hm)))
      refine ⟨⟨?_, ?_, ?_, ?_, ?_, ?_, ?_⟩, ?_, ?_⟩
      · exact hfnodup
      · unfold dirKeys
        rw [hs'da]
        exact htsD
      · unfold indexKeys
        rw [hs'R, hnames2, hidx]
        exact htsRF
      · unfold indexKeys
        rw [hs'D]
        exact htsRD
      · intro kv hkv
        rw [hs'da] at hkv
        exact htsIdx kv hkv
      · exact hpermN.nodup_iff.mpr (List.nodup_cons.mpr ⟨hNR, hRnd⟩)
      · intro kv hkv
        rw [hs'da] at hkv
        exact htsInc kv hkv
      · refine ⟨?_, ?_, ?_⟩
        · intro i hi
          rw [hs'c]
          rcases List.mem_cons.mp (hpermN.mem_iff.mp hi) with h1 | h1
          · omega
          · have h2 : i ∈ bindingIds s :=
              hpermX.mem_iff.mpr (List.mem_cons.mpr (Or.inr h1))
            have := hcdB i h2
            omega
        · intro i hi
          rw [hs'c]
          rw [hfkeys] at hi
          rcases List.mem_append.mp hi with h1 | h1
          · have h2 : i ∈ fileKeys s := hFAkeys_sub.subset h1
            have := hcdF i h2
            omega
          · rw [List.mem_singleton] at h1
            omega
        · intro i hi
          rw [hs'c]
          have hi2 : i ∈ dirKeys s := by
            unfold dirKeys at hi ⊢
            rw [hs'da] at hi
            exact hi
          have := hcdD i hi2
          omega
      · constructor
        · intro i hi
          by_cases hiN : i = s.obj_id_counter + 1
          · subst hiN
            rw [hgNf]
            rfl
          · have hiR : i ∈ (indexIds l1 ++ (indexIds l2 ++
                (indexIds s.root_children_directories ++
                  (s.dir_arena.map (fun kv => dirBindings kv.value)).flatten))) := by
              rcases List.mem_cons.mp
                  (hpermN.mem_iff.mp (file_bound_sub_binding hi)) with h1 | h1
              · exact absurd h1 hiN
              · exact h1
            have hiX : i ≠ X := fun he => hXnotR (he ▸ hiR)
            have hiS : i ∈ FileIdsBound s := by
              rcases FileIdsBound_mem.mp hi with h1 | ⟨kv, hkv, hz⟩
              · rw [hs'R] at h1
                simp only [indexIds, List.map_append, List.map_cons,
                  List.mem_append, List.mem_cons] at h1
                have h2 : i ∈ indexIds idx := by
                  rw [hids_old]
                  simp only [List.mem_append, List.mem_cons]
                  rcases h1 with h1 | h1 | h1
                  · exact Or.inl h1
                  · exact absurd h1 hiN
                  · exact Or.inr (Or.inr h1)
                refine FileIdsBound_mem.mpr (Or.inl ?_)
                rw [← hidx]
                exact h2
              · rw [hs'da] at hkv
                exact FileIdsBound_mem.mpr (Or.inr ⟨kv, hkv, hz⟩)
            rw [hgnef i hiN, hgremne i hiX]
            exact hac.1 i hiS
        · intro i hi
          have hiS : i ∈ DirIdsBound s := by
            rcases DirIdsBound_mem.mp hi with h1 | ⟨kv, hkv, hz⟩
            · rw [hs'D] at h1
              exact DirIdsBound_mem.mpr (Or.inl h1)
            · rw [hs'da] at hkv
              exact DirIdsBound_mem.mpr (Or.inr ⟨kv, hkv, hz⟩)
          show (get_from_dir_arena s'.dir_arena i).isSome = true
          rw [hs'da]
          exact hac.2 i hiS
    | some q =>
      obtain ⟨rec, hgrec, hchil⟩ := fetch_children_files_some_inv hfetch
      have hgrec2 : assoc_get s.dir_arena q = some rec := hgrec
      obtain ⟨t1, t2, harena, hqnot⟩ := assoc_get_eq_some_iff.mp hgrec2
      have hqmem : (⟨q, rec⟩ : KeyValueU64DirObject) ∈ s.dir_arena := assoc_get_mem hgrec2
      have hmem_t1 : ∀ kv ∈ t1, kv ∈ s.dir_arena := by
        intro kv h1
        rw [harena]
        exact List.mem_append.mpr (Or.inl h1)
      have hmem_t2 : ∀ kv ∈ t2, kv ∈ s.dir_arena := by
        intro kv h2
        rw [harena]
        exact List.mem_append.mpr (Or.inr (List.mem_cons.mpr (Or.inr h2)))
      have hs'R : s'.root_children_files = s.root_children_files := by
        rw [hs']
        rfl
      have hs'D2 : s'.root_children_directories = s.root_children_directories := by
        rw [hs']
        rfl
      have hdarena : s'.dir_arena = t1 ++ ⟨q, { rec with children_files :=
          l1 ++ ⟨fn, s.obj_id_counter + 1⟩ :: l2 }⟩ :: t2 := by
        rw [hs', hidx2]
        show (write_children_files s (some q)
          (l1 ++ ⟨fn, s.obj_id_counter + 1⟩ :: l2)).dir_arena = _
        exact write_files_some_arena harena hqnot _
      have hkeys' : s'.dir_arena.map (fun kv => kv.key) =
          s.dir_arena.map (fun kv => kv.key) := by
        rw [hdarena, harena]
        simp
      have hdirfr : ∀ i, (get_from_dir_arena s'.dir_arena i).isSome =
          (get_from_dir_arena s.dir_arena i).isSome := by
        intro i
        rw [hs']
        show (get_from_dir_arena (write_children_files s (some q)
          (insert_into_vec_str_key idx fn (s.obj_id_counter + 1)).1).dir_arena i).isSome = _
        exact write_children_files_get_isSome s (some q) _ i
      have hbind2 : bindingIds s' = indexIds s.root_children_files ++
          (indexIds s.root_children_directories ++
            ((t1.map (fun kv => dirBindings kv.value)).flatten ++
              (indexIds l1 ++ ((s.obj_id_counter + 1) ::
                (indexIds l2 ++ (indexIds rec.children_directories ++
                  (t2.map (fun kv => dirBindings kv.value)).flatten)))))) := by
        rw [hs']
        show bindingIds (write_children_files s (some q)
          (insert_into_vec_str_key idx fn (s.obj_id_counter + 1)).1) = _
        rw [hidx2, bindingIds_write_files_some harena hqnot]
        simp [indexIds]
      have hbindS : bindingIds s = indexIds s.root_children_files ++
          (indexIds s.root_children_directories ++
            ((t1.map (fun kv => dirBindings kv.value)).flatten ++
              (indexIds l1 ++ (X ::
                (indexIds l2 ++ (indexIds rec.children_directories ++
                  (t2.map (fun kv => dirBindings kv.value)).flatten)))))) := by
        rw [bindingIds_split harena, hchil, hids_old]
        simp [List.append_assoc]
      have hpermN : List.Perm (bindingIds s') ((s.obj_id_counter + 1) ::
          (indexIds s.root_children_files ++
            (indexIds s.root_children_directories ++
              ((t1.map (fun kv => dirBindings kv.value)).flatten ++
                (indexIds l1 ++ (indexIds l2 ++ (indexIds rec.children_directories ++
                  (t2.map (fun kv => dirBindings kv.value)).flatten))))))) := by
        rw [hbind2]
        exact perm_bubble (perm_bubble (perm_bubble List.perm_middle))
      have hpermX : List.Perm (bindingIds s) (X ::
          (indexIds s.root_children_files ++
            (indexIds s.root_children_directories ++
              ((t1.map (fun kv => dirBindings kv.value)).flatten ++
                (indexIds l1 ++ (indexIds l2 ++ (indexIds rec.children_directories ++
                  (t2.map (fun kv => dirBindings kv.value)).flatten))))))) := by
        rw [hbindS]
        exact perm_bubble (perm_bubble (perm_bubble List.perm_middle))
      have hXR := hpermX.nodup_iff.mp htsBind
      have hRnd := (List.nodup_cons.mp hXR).2
      have hXnotR := (List.nodup_cons.mp hXR).1
      have hNR : s.obj_id_counter + 1 ∉ (indexIds s.root_children_files ++
          (indexIds s.root_children_directories ++
            ((t1.map (fun kv => dirBindings kv.value)).flatten ++
              (indexIds l1 ++ (indexIds l2 ++ (indexIds rec.children_directories ++
                (t2.map (fun kv => dirBindings kv.value)).flatten)))))) :=
        fun hm => hNb (hpermX.mem_iff.mpr (List.mem_cons.mpr (Or.inr hm)))
      refine ⟨⟨?_, ?_, ?_, ?_, ?_, ?_, ?_⟩, ?_, ?_⟩
      · exact hfnodup
      · unfold dirKeys
        rw [hkeys']
        exact htsD
      · unfold indexKeys
        rw [hs'R]
        exact htsRF
      · unfold indexKeys
        rw [hs'D2]
        exact htsRD
      · intro kv hkv
        rw [hdarena] at hkv
        rcases List.mem_append.mp hkv with h1 | h1
        · exact htsIdx kv (hmem_t1 kv h1)
        · rcases List.mem_cons.mp h1 with rfl | h2
          · constructor
            · show ((l1 ++ (⟨fn, s.obj_id_counter + 1⟩ : KeyValueStringU64) :: l2).map
                (fun kv => kv.key)).Nodup
              rw [hnames2]
              have h3 := (htsIdx _ hqmem).1
              rw [hchil] at h3
              exact h3
            · show (indexKeys rec.children_directories).Nodup
              exact (htsIdx _ hqmem).2
          · exact htsIdx kv (hmem_t2 kv h2)
      · exact hpermN.nodup_iff.mpr (List.nodup_cons.mpr ⟨hNR, hRnd⟩)
      · intro kv hkv
        rw [hdarena] at hkv
        rcases List.mem_append.mp hkv with h1 | h1
        · exact htsInc kv (hmem_t1 kv h1)
        · rcases List.mem_cons.mp h1 with rfl | h2
          · intro e he
            have he2 : e ∈ indexIds rec.children_directories := he
            exact htsInc _ hqmem e he2
          · exact htsInc kv (hmem_t2 kv h2)
      · refine ⟨?_, ?_, ?_⟩
        · intro i hi
          rw [hs'c]
          rcases List.mem_cons.mp (hpermN.mem_iff.mp hi) with h1 | h1
          · omega
          · have h2 : i ∈ bindingIds s :=
              hpermX.mem_iff.mpr (List.mem_cons.mpr (Or.inr h1))
            have := hcdB i h2
            omega
        · intro i hi
          rw [hs'c]
          rw [hfkeys] at hi
          rcases List.mem_append.mp hi with h1 | h1
          · have h2 : i ∈ fileKeys s := hFAkeys_sub.subset h1
            have := hcdF i h2
            omega
          · rw [List.mem_singleton] at h1
            omega
        · intro i hi
          rw [hs'c]
          have hi2 : i ∈ dirKeys s := by
            unfold dirKeys at hi ⊢
            rw [hkeys'] at hi
            exact hi
          have := hcdD i hi2
          omega
      · constructor
        · intro i hi
          by_cases hiN : i = s.obj_id_counter + 1
          · subst hiN
            rw [hgNf]
            rfl
          · have hiR : i ∈ (indexIds s.root_children_files ++
                (indexIds s.root_children_directories ++
                  ((t1.map (fun kv => dirBindings kv.value)).flatten ++
                    (indexIds l1 ++ (indexIds l2 ++ (indexIds rec.children_directories ++
                      (t2.map (fun kv => dirBindings kv.value)).flatten)))))) := by
              rcases List.mem_cons.mp
                  (hpermN.mem_iff.mp (file_bound_sub_binding hi)) with h1 | h1
              · exact absurd h1 hiN
              · exact h1
            have hiX : i ≠ X := fun he => hXnotR (he ▸ hiR)
            have hiS : i ∈ FileIdsBound s := by
              rcases FileIdsBound_mem.mp hi with h1 | ⟨kv, hkv, hz⟩
              · rw [hs'R] at h1
                exact FileIdsBound_mem.mpr (Or.inl h1)
              · rw [hdarena] at hkv
                rcases List.mem_append.mp hkv with h1 | h1
                · exact FileIdsBound_mem.mpr (Or.inr ⟨kv, hmem_t1 kv h1, hz⟩)
                · rcases List.mem_cons.mp h1 with rfl | h2
                  · have hz2 : i ∈ indexIds (l1 ++
                        (⟨fn, s.obj_id_counter + 1⟩ : KeyValueStringU64) :: l2) := hz
                    simp only [indexIds, List.map_append, List.map_cons,
                      List.mem_append, List.mem_cons] at hz2
                    have h3 : i ∈ indexIds idx := by
                      rw [hids_old]
                      simp only [List.mem_append, List.mem_cons]
                      rcases hz2 with h4 | h4 | h4
                      · exact Or.inl h4
                      · exact absurd h4 hiN
                      · exact Or.inr (Or.inr h4)
                    have h5 : i ∈ indexIds rec.children_files := by
                      rw [hchil]
                      exact h3
                    exact FileIdsBound_mem.mpr (Or.inr ⟨⟨q, rec⟩, hqmem, h5⟩)
                  · exact FileIdsBound_mem.mpr (Or.inr ⟨kv, hmem_t2 kv h2, hz⟩)
            rw [hgnef i hiN, hgremne i hiX]
            exact hac.1 i hiS
        · intro i hi
          have hiS : i ∈ DirIdsBound s := by
            rcases DirIdsBound_mem.mp hi with h1 | ⟨kv, hkv, hz⟩
            · rw [hs'D2] at h1
              exact DirIdsBound_mem.mpr (Or.inl h1)
            · rw [hdarena] at hkv
              rcases List.mem_append.mp hkv with h1 | h1
              · exact DirIdsBound_mem.mpr (Or.inr ⟨kv, hmem_t1 kv h1, hz⟩)
              · rcases List.mem_cons.mp h1 with rfl | h2
                · have hz2 : i ∈ indexIds rec.children_directories := hz
                  exact DirIdsBound_mem.mpr (Or.inr ⟨⟨q, rec⟩, hqmem, hz2⟩)
                · exact DirIdsBound_mem.mpr (Or.inr ⟨kv, hmem_t2 kv h2, hz⟩)
          show (get_from_dir_arena s'.dir_arena i).isSome = true
          rw [hdirfr i]
          exact hac.2 i hiS

/-- A successful `delete_dir` preserves the full invariant.  All structural
facts come from the cascade characterization `delete_dir_spec`: every surviving
index is a sublist of its pre-state counterpart, the deleted ids are bound
nowhere in the result, and the arenas only lost entries. -/
theorem preserve_delete_dir {s s' : WalrusfsState} {pth : String}
    {ev : List WalrusFsEvent} (hinv : Inv s)
    (h : delete_dir s pth = ⟨s', ev, Except.ok ()⟩) : Inv s' := by
  obtain ⟨hts, hcd, hac⟩ := hinv
  obtain ⟨pid, dn, idx, dir_id, fdel, ddel, hres, hfetch, hget, hddel, hfdel, hgone,
    hdgone, hfgone, hidx2, hnodangle, hrootF, ⟨hrdK, hrdI⟩, hdaK, hseg, hbindsub,
    hfileframe, hdirframe, hcounter, hfaK⟩ := delete_dir_spec hts hac h
  obtain ⟨htsF, htsD, htsRF, htsRD, htsIdx, htsBind, htsInc⟩ := hts
  obtain ⟨hcdB, hcdF, hcdD⟩ := hcd
  refine ⟨⟨?_, ?_, ?_, ?_, ?_, ?_, ?_⟩, ?_, ?_⟩
  · exact htsF.sublist hfaK
  · exact htsD.sublist hdaK
  · unfold indexKeys
    rw [hrootF]
    exact htsRF
  · exact htsRD.sublist hrdK
  · intro kv2 hkv2
    obtain ⟨kv3, hkv3, hkey, hKf, hIf, hKd, hId⟩ := hseg kv2 hkv2
    exact ⟨((htsIdx kv3 hkv3).1).sublist hKf, ((htsIdx kv3 hkv3).2).sublist hKd⟩
  · exact htsBind.sublist hbindsub
  · intro kv2 hkv2 e he
    obtain ⟨kv3, hkv3, hkey, hKf, hIf, hKd, hId⟩ := hseg kv2 hkv2
    have he2 : e ∈ indexIds kv3.value.children_directories := hId.subset he
    have h3 := htsInc kv3 hkv3 e he2
    rw [← hkey]
    exact h3
  · refine ⟨?_, ?_, ?_⟩
    · intro i hi
      rw [hcounter]
      exact hcdB i (hbindsub.subset hi)
    · intro i hi
      rw [hcounter]
      exact hcdF i (hfaK.subset hi)
    · intro i hi
      rw [hcounter]
      exact hcdD i (hdaK.subset hi)
  · constructor
    · intro i hi
      have hif : i ∉ fdel := fun hin =>
        hnodangle i (Or.inr (Or.inr hin)) (file_bound_sub_binding hi)
      have hiS : i ∈ FileIdsBound s := by
        rcases FileIdsBound_mem.mp hi with h1 | ⟨kv2, hkv2, hz⟩
        · rw [hrootF] at h1
          exact FileIdsBound_mem.mpr (Or.inl h1)
        · obtain ⟨kv3, hkv3, hkey, hKf, hIf, hKd, hId⟩ := hseg kv2 hkv2
          exact FileIdsBound_mem.mpr (Or.inr ⟨kv3, hkv3, hIf.subset hz⟩)
      rw [hfileframe i hif]
      exact hac.1 i hiS
    · intro i hi
      have hibind : i ∈ bindingIds s' := dir_bound_sub_binding hi
      have hne : i ≠ dir_id := fun he => hnodangle i (Or.inl he) hibind
      have hnd : i ∉ ddel := fun hin => hnodangle i (Or.inr (Or.inl hin)) hibind
      have hiS : i ∈ DirIdsBound s := by
        rcases DirIdsBound_mem.mp hi with h1 | ⟨kv2, hkv2, hz⟩
        · exact DirIdsBound_mem.mpr (Or.inl (hrdI.subset h1))
        · obtain ⟨kv3, hkv3, hkey, hKf, hIf, hKd, hId⟩ := hseg kv2 hkv2
          exact DirIdsBound_mem.mpr (Or.inr ⟨kv3, hkv3, hId.subset hz⟩)
      show (get_from_dir_arena s'.dir_arena i).isSome = true
      rw [hdirframe i hne hnd]
      exact hac.2 i hiS

/-- One committed operation preserves the full invariant: each successful
mutation preserves it by the per-operation lemmas, a failing operation commits
the unchanged input state, and the three read operations leave the state
untouched. -/
theorem apply_committed_preserves_inv (s : WalrusfsState) (op : Op)
    (hinv : Inv s) : Inv (apply_committed s op) := by
  rcases hres : (apply_raw s op).result with e | u
  · rw [apply_committed_of_error hres]
    exact hinv
  · have hcommit : apply_committed s op = (apply_raw s op).state := by
      unfold apply_committed host_commit
      rw [hres]
    rw [hcommit]
    cases u
    cases op with
    | add_file ts p tg sz blob ee ow =>
      have hres2 : (add_file s ts p tg sz blob ee ow).result = Except.ok () := hres
      have hfull : add_file s ts p tg sz blob ee ow =
          ⟨(add_file s ts p tg sz blob ee ow).state,
           (add_file s ts p tg sz blob ee ow).events,
           (add_file s ts p tg sz blob ee ow).result⟩ := rfl
      rw [hres2] at hfull
      exact preserve_add_file hinv hfull
    | add_dir ts p tg =>
      have hres2 : (add_dir s ts p tg).result = Except.ok () := hres
      have hfull : add_dir s ts p tg =
          ⟨(add_dir s ts p tg).state, (add_dir s ts p tg).events,
           (add_dir s ts p tg).result⟩ := rfl
      rw [hres2] at hfull
      exact preserve_add_dir hinv hfull
    | stat p =>
      show Inv (stat s p).state
      rw [stat_state]
      exact hinv
    | list_dir p =>
      show Inv (list_dir s p).state
      rw [list_dir_state]
      exact hinv
    | rename_file f t =>
      have hres2 : (rename_file s f t).result = Except.ok () := hres
      have hfull : rename_file s f t =
          ⟨(rename_file s f t).state, (rename_file s f t).events,
           (rename_file s f t).result⟩ := rfl
      rw [hres2] at hfull
      exact preserve_rename_file hinv hfull
    | rename_dir f t =>
      have hres2 : (rename_dir s f t).result = Except.ok () := hres
      have hfull : rename_dir s f t =
          ⟨(rename_dir s f t).state, (rename_dir s f t).events,
           (rename_dir s f t).result⟩ := rfl
      rw [hres2] at hfull
      exact preserve_rename_dir hinv hfull
    | delete_file p =>
      have hres2 : (delete_file s p).result = Except.ok () := hres
      have hfull : delete_file s p =
          ⟨(delete_file s p).state, (delete_file s p).events,
           (delete_file s p).result⟩ := rfl
      rw [hres2] at hfull
      exact preserve_delete_file hinv hfull
    | delete_dir p =>
      have hres2 : (delete_dir s p).result = Except.ok () := hres
      have hfull : delete_dir s p =
          ⟨(delete_dir s p).state, (delete_dir s p).events,
           (delete_dir s p).result⟩ := rfl
      rw [hres2] at hfull
      exact preserve_delete_dir hinv hfull
    | get_dir_all p =>
      show Inv (get_dir_all s p).state
      rw [get_dir_all_state]
      exact hinv

/-- The invariant is inductive along any committed call sequence. -/
theorem inv_foldl (ops : List Op) :
    ∀ s, Inv s → Inv (ops.foldl apply_committed s) := by
  induction ops with
  | nil =>
    intro s hs
    exact hs
  | cons op rest ih =>
    intro s hs
    exact ih _ (apply_committed_preserves_inv s op hs)

/-- Every state reached from the initialized namespace by a committed call
sequence satisfies the full invariant. -/
theorem inv_exec (ops : List Op) : Inv (exec_ops ops) :=
  inv_foldl ops initial_state inv_initial

/-- C2: arena consistency is an invariant of the namespace engine.  In every
state reachable from the initialized empty namespace by any sequence of
engine operations (a failed operation commits the unchanged state), every
ObjectId present in any name index — the root children-files index, the root
children-directories index, or any directory record's `children_files` /
`children_directories` — resolves to a record in the matching arena. -/
theorem arena_consistency_invariant (ops : List Op) :
    (∀ i, i ∈ FileIdsBound (exec_ops ops) →
      (get_from_file_arena (exec_ops ops).file_arena i).isSome = true) ∧
    (∀ i, i ∈ DirIdsBound (exec_ops ops) →
      (get_from_dir_arena (exec_ops ops).dir_arena i).isSome = true) :=
  ⟨fun i hi => ((inv_exec ops).2.2).1 i hi, fun i hi => ((inv_exec ops).2.2).2 i hi⟩

end Walavie
